import Mathlib

/-! Way updater: attic (historical version) reconstruction

A shallow embedding of `src/overpass_api/osm-backend/way_updater.cc`.

* Identifiers, buckets (`Uint31_Index`) and timestamps (`uint64`) are natural numbers.
* A `std::map< K, std::set< V > >` is kept as the list of its `(key, element)` pairs;
  `m[k].insert(v)` is `map_set_insert`.
* `Way::calc_index`, `Way::indicates_geometry`, the `Way_Delta` constructor and
  `Way_Delta::expand` are declared in headers outside this file; they are the fields of `Env`.
-/

namespace WayUpdater

/-- Modelled from the spec: the constant `NOW` is declared outside this file; by section 6 of the
specification it is the maximum 64-bit unsigned value. -/
def NOW : Nat := 18446744073709551615

/-- Width of the `uint64` timestamp arithmetic. -/
def UINT64_MOD : Nat := 18446744073709551616

/-- Modelled from the spec: the type `Quad_Coord` is declared outside this file; it is the pair
`Coord` of section 3, the bucket `ll_upper` of a point and its offset `ll_lower` in the bucket. -/
structure Quad_Coord where
  ll_upper : Nat
  ll_lower : Nat
deriving DecidableEq, Repr

/-- Modelled from the spec: the type `Way_Skeleton` is declared outside this file; it is the
`Skeleton` of section 3 with the members `id`, `nds` and `geometry` that this file reads. -/
structure Way_Skeleton where
  id : Nat
  nds : List Nat
  geometry : List Quad_Coord
deriving DecidableEq, Repr

/-- Modelled from the spec: the default constructor `Way_Skeleton()` is declared outside this
file; it yields the empty skeleton of section 4.5, here with id 0, no nodes and no geometry. -/
def Way_Skeleton.empty : Way_Skeleton := ⟨0, [], []⟩

/-- One element `std::pair< Node::Index, Attic< Node_Skeleton > >` of a node's timeline:
`idx` is `first.val()`, the other fields are those of `second`. -/
structure Node_Version where
  idx : Nat
  id : Nat
  ll_lower : Nat
  timestamp : Nat
deriving DecidableEq, Repr

/-- The resolver `nodes_by_id`: a `std::map` from node id to the node's timeline. -/
abbrev Nodes_By_Id := List (Nat × List Node_Version)

/-- Modelled from the spec: the type `Way_Delta` is declared outside this file; it is the `Delta`
of section 3 with the members that `adapt_newest_existing_attic` compares. -/
structure Way_Delta where
  id : Nat
  full : Bool
  nds_removed : List Nat
  nds_added : List (Nat × Nat)
  geometry_removed : List Nat
  geometry_added : List (Nat × Quad_Coord)
deriving DecidableEq, Repr

/-- Modelled from the spec: the template `Attic< T >` is declared outside this file; it is the
`AtticEntry` of section 3, a value with the timestamp at which it ceased to be current. -/
structure Attic (α : Type) where
  elem : α
  timestamp : Nat
deriving DecidableEq, Repr

/-- The collaborators of the way updater that live in headers outside this file. -/
structure Env where
  calc_index : List Nat → Nat
  indicates_geometry : Nat → Bool
  way_delta : Way_Skeleton → Way_Skeleton → Way_Delta
  expand : Way_Delta → Way_Skeleton → Way_Skeleton

/-- The inner `while` loop of `compute_idx_and_geometry` (lines 78-81): skip every version whose
timestamp is below `expiration_timestamp` and stop at the first other one. -/
def first_not_expired (expiration_timestamp : Nat) : List Node_Version → Option Node_Version
  | [] => none
  | v :: vs =>
    if v.timestamp < expiration_timestamp then first_not_expired expiration_timestamp vs
    else some v

/-- The first loop of `compute_idx_and_geometry` (lines 72-88): the coordinates pushed to the
local vector `geometry`. -/
def collect_geometry (nds : List Nat) (expiration_timestamp : Nat) (nodes_by_id : Nodes_By_Id) :
    List Quad_Coord :=
  nds.foldl (fun geometry nd =>
    match List.lookup nd nodes_by_id with
    | some (v :: vs) =>
      match first_not_expired expiration_timestamp (v :: vs) with
      | some s => geometry ++ [Quad_Coord.mk s.idx s.ll_lower]
      | none => geometry
    | _ => geometry) []

/-- The function `compute_idx_and_geometry` (lines 64-100). The out-parameter `idx` and the in-out
parameter `skeleton` are returned as a pair; the text written to `std::cerr` is not modelled. -/
def compute_idx_and_geometry (E : Env) (skeleton : Way_Skeleton) (expiration_timestamp : Nat)
    (nodes_by_id : Nodes_By_Id) : Nat × Way_Skeleton :=
  let geometry := collect_geometry skeleton.nds expiration_timestamp nodes_by_id
  let nd_idxs := geometry.foldl (fun acc c => acc ++ [c.ll_upper]) []
  let idx := E.calc_index nd_idxs
  if E.indicates_geometry idx then (idx, Way_Skeleton.mk skeleton.id skeleton.nds geometry)
  else (idx, Way_Skeleton.mk skeleton.id skeleton.nds [])

/-- The snapshot that `compute_idx_and_geometry` selects for node `nd`, if any. -/
def selected_snapshot (nodes_by_id : Nodes_By_Id) (expiration_timestamp : Nat) (nd : Nat) :
    Option Node_Version :=
  match List.lookup nd nodes_by_id with
  | some vs => vs.find? (fun v => decide (expiration_timestamp ≤ v.timestamp))
  | none => none

/-- The snapshot selection as section 4.1 of the specification words it: the youngest snapshot
(the last one of the time-sorted list) whose timestamp is strictly less than `asof_ts`. -/
def effective_snapshot_spec (asof_ts : Nat) (vs : List Node_Version) : Option Node_Version :=
  (vs.filter (fun v => decide (v.timestamp < asof_ts))).getLast?

/-- The coordinate that a selected snapshot contributes to the geometry. -/
def snapshot_coord (s : Node_Version) : Quad_Coord := Quad_Coord.mk s.idx s.ll_lower

/-- The geometry that would result if every node contributed the snapshot that section 4.1 of
the specification calls effective. -/
def geometry_by_spec (nds : List Nat) (asof_ts : Nat) (nodes_by_id : Nodes_By_Id) :
    List Quad_Coord :=
  nds.filterMap (fun nd =>
    match List.lookup nd nodes_by_id with
    | some vs => (effective_snapshot_spec asof_ts vs).map snapshot_coord
    | none => none)

/-- A small instance of the external collaborators: the bucket of a way is the bucket of its first
located node (`0xfe` without one), every bucket carries geometry, and a delta is empty when the
skeleton equals the reference and stores the whole skeleton otherwise. -/
def demo_env : Env where
  calc_index := fun l => l.headD 0xfe
  indicates_geometry := fun _ => true
  way_delta := fun r s =>
    if r = s then Way_Delta.mk s.id false [] [] [] []
    else Way_Delta.mk s.id true [] (s.nds.map (fun n => (0, n))) []
      (s.geometry.map (fun c => (0, c)))
  expand := fun d r =>
    if d.full = true then
      Way_Skeleton.mk d.id (d.nds_added.map Prod.snd) (d.geometry_added.map Prod.snd)
    else Way_Skeleton.mk d.id r.nds r.geometry

/-! ## Sets of attic records -/

/-- The statement `m[k].insert(v)` on a `std::map< K, std::set< V > >` kept as the list of its
`(key, element)` pairs: nothing happens when the set under `k` already holds an element that the
ordering of `V` does not tell apart from `v` (`same`), otherwise the pair is added. -/
def map_set_insert {κ ν : Type} [DecidableEq κ] (same : ν → ν → Bool) (m : List (κ × ν))
    (k : κ) (v : ν) : List (κ × ν) :=
  if m.any (fun p => decide (p.1 = k) && same p.2 v) then m else m ++ [(k, v)]

/-- Modelled from the spec: the ordering of `Attic< Way_Delta >` is declared in
`core/datatypes.h`, outside this file. By invariant I2 of the specification an attic delta is
identified by its way id and timestamp, so two records are the same element of a set exactly when
they agree in both. -/
def same_attic_delta (a b : Attic Way_Delta) : Bool :=
  decide (a.elem.id = b.elem.id) && decide (a.timestamp = b.timestamp)

/-- Modelled from the spec: the ordering of `Attic< Way_Skeleton::Id_Type >` is declared in
`core/datatypes.h`, outside this file; an undelete entry is the pair of a way id and a
timestamp, and two entries are the same element of a set when they agree in both. -/
def same_attic_id (a b : Attic Nat) : Bool :=
  decide (a.elem = b.elem) && decide (a.timestamp = b.timestamp)

/-- Equality of buckets, the sameness of the elements of a `std::set< Uint31_Index >`. -/
def same_idx (a b : Nat) : Bool := decide (a = b)

/-- The three stores that `add_intermediate_versions` writes through its reference parameters:
`full_attic`, `new_undeleted` and `idx_lists`. -/
structure Attic_Stores where
  full_attic : List (Nat × Attic Way_Delta)
  new_undeleted : List (Nat × Attic Nat)
  idx_lists : List (Nat × Nat)
deriving DecidableEq, Repr

/-! ## `add_intermediate_versions` -/

/-- The call `std::unique` followed by `erase` (lines 132-133): of each run of equal neighbours
only one element is kept. -/
def unique : List Nat → List Nat
  | [] => []
  | a :: l =>
    match l with
    | [] => [a]
    | b :: _ => if a = b then unique l else a :: unique l

/-- The loop of lines 117-130: the timestamps of the snapshots of the way's nodes that lie in the
window `(old_timestamp, new_timestamp]`, in the order in which they are pushed. -/
def window_timestamps (nds : List Nat) (old_timestamp new_timestamp : Nat)
    (nodes_by_id : Nodes_By_Id) : List Nat :=
  nds.foldl (fun rel nd =>
    match List.lookup nd nodes_by_id with
    | some (v :: vs) =>
      (v :: vs).foldl (fun rel v =>
        if old_timestamp < v.timestamp ∧ v.timestamp ≤ new_timestamp then rel ++ [v.timestamp]
        else rel) rel
    | _ => rel) []

/-- The vector `relevant_timestamps` after `std::sort` and `std::unique` (lines 116-133). -/
def relevant_timestamps (nds : List Nat) (old_timestamp new_timestamp : Nat)
    (nodes_by_id : Nodes_By_Id) : List Nat :=
  unique (List.insertionSort (fun a b => a ≤ b)
    (window_timestamps nds old_timestamp new_timestamp nodes_by_id))

/-- The statement `if (!v.empty() && v.back() == x) v.pop_back();`. -/
def pop_back_if (v : List Nat) (x : Nat) : List Nat :=
  if v.getLast? = some x then v.dropLast else v

/-- The anchored state (lines 136-139): bucket and skeleton of the way at `new_timestamp`. They
are recomputed only if `attic_idx` is 0 or a relevant timestamp exists. -/
def anchor (E : Env) (skeleton : Way_Skeleton) (old_timestamp new_timestamp : Nat)
    (nodes_by_id : Nodes_By_Id) (attic_idx : Nat) : Nat × Way_Skeleton :=
  if attic_idx = 0 ∨ relevant_timestamps skeleton.nds old_timestamp new_timestamp nodes_by_id ≠ []
  then compute_idx_and_geometry E skeleton new_timestamp nodes_by_id
  else (attic_idx, skeleton)

/-- The condition of line 144-145 under which the upper endpoint entry is written. -/
def upper_endpoint_due (nds : List Nat) (old_timestamp new_timestamp : Nat)
    (nodes_by_id : Nodes_By_Id) (add_last_version : Bool) : Prop :=
  (add_last_version = true ∧ old_timestamp < new_timestamp)
    ∨ (pop_back_if (relevant_timestamps nds old_timestamp new_timestamp nodes_by_id) NOW).getLast?
        = some new_timestamp

instance (nds : List Nat) (old_timestamp new_timestamp : Nat) (nodes_by_id : Nodes_By_Id)
    (add_last_version : Bool) :
    Decidable (upper_endpoint_due nds old_timestamp new_timestamp nodes_by_id add_last_version) := by
  unfold upper_endpoint_due
  exact inferInstance

/-- The reference state computed at `new_timestamp + 1` in `uint64` arithmetic (lines 147-149). -/
def reference_state (E : Env) (reference : Way_Skeleton) (new_timestamp : Nat)
    (nodes_by_id : Nodes_By_Id) : Nat × Way_Skeleton :=
  compute_idx_and_geometry E reference ((new_timestamp + 1) % UINT64_MOD) nodes_by_id

/-- The vector `relevant_timestamps` when the reverse walk starts (after lines 141-164). -/
def walk_timestamps (nds : List Nat) (old_timestamp new_timestamp : Nat)
    (nodes_by_id : Nodes_By_Id) (add_last_version : Bool) : List Nat :=
  if upper_endpoint_due nds old_timestamp new_timestamp nodes_by_id add_last_version then
    pop_back_if (pop_back_if (relevant_timestamps nds old_timestamp new_timestamp nodes_by_id) NOW)
      new_timestamp
  else pop_back_if (relevant_timestamps nds old_timestamp new_timestamp nodes_by_id) NOW

/-- The statements that the upper endpoint block (lines 150-160) and the body of the reverse walk
(lines 179-189) have in common: the version `(idx, cur_skeleton)` stamped `timestamp` is stored
as a delta against `ref_skeleton` when `idx` equals `ref_idx` and against the empty skeleton
otherwise, `idx` is recorded in the bucket list of the way, and an undelete entry is written under
`ref_idx` when the buckets differ and `ref_idx` is not `0xfe`. -/
def store_version (E : Env) (id idx : Nat) (cur_skeleton : Way_Skeleton) (ref_idx : Nat)
    (ref_skeleton : Way_Skeleton) (timestamp : Nat) (st : Attic_Stores) : Attic_Stores :=
  Attic_Stores.mk
    (if idx = ref_idx then
      map_set_insert same_attic_delta st.full_attic idx
        (Attic.mk (E.way_delta ref_skeleton cur_skeleton) timestamp)
    else
      map_set_insert same_attic_delta st.full_attic idx
        (Attic.mk (E.way_delta Way_Skeleton.empty cur_skeleton) timestamp))
    (if ¬ idx = ref_idx ∧ ¬ ref_idx = 0xfe then
      map_set_insert same_attic_id st.new_undeleted ref_idx (Attic.mk id timestamp)
    else st.new_undeleted)
    (map_set_insert same_idx st.idx_lists id idx)

/-- The reverse walk (lines 166-192). The list holds the timestamps that are still to be visited,
newest first, so `it != relevant_timestamps.begin()` says that the rest is not empty. Returns the
final `last_idx`, the final `last_skeleton` and the stores. -/
def reverse_walk (E : Env) (skeleton : Way_Skeleton) (nodes_by_id : Nodes_By_Id) (attic_idx : Nat) :
    List Nat → Nat → Way_Skeleton → Attic_Stores → Nat × Way_Skeleton × Attic_Stores
  | [], last_idx, last_skeleton, st => (last_idx, last_skeleton, st)
  | t :: rest, last_idx, last_skeleton, st =>
    let cur :=
      if attic_idx = 0 ∨ rest ≠ [] then compute_idx_and_geometry E skeleton t nodes_by_id
      else (attic_idx, skeleton)
    reverse_walk E skeleton nodes_by_id attic_idx rest cur.1 cur.2
      (store_version E skeleton.id cur.1 cur.2 last_idx last_skeleton t st)

/-- The function `add_intermediate_versions` (lines 106-198). Returns the returned skeleton, the
out-parameter `last_idx` and the three stores. -/
def add_intermediate_versions (E : Env) (skeleton reference : Way_Skeleton)
    (old_timestamp new_timestamp : Nat) (nodes_by_id : Nodes_By_Id) (add_last_version : Bool)
    (attic_idx : Nat) (st : Attic_Stores) : Way_Skeleton × Nat × Attic_Stores :=
  let cur := anchor E skeleton old_timestamp new_timestamp nodes_by_id attic_idx
  let st1 :=
    if upper_endpoint_due skeleton.nds old_timestamp new_timestamp nodes_by_id add_last_version then
      store_version E skeleton.id cur.1 cur.2
        (reference_state E reference new_timestamp nodes_by_id).1
        (reference_state E reference new_timestamp nodes_by_id).2 new_timestamp st
    else st
  let w := reverse_walk E skeleton nodes_by_id attic_idx
    (walk_timestamps skeleton.nds old_timestamp new_timestamp nodes_by_id add_last_version).reverse
    cur.1 cur.2 st1
  (if w.1 = attic_idx then w.2.1 else Way_Skeleton.empty, w.1, w.2.2)

/-! ## The trace of one call -/

/-- One entry that `add_intermediate_versions` writes: the timestamp, the bucket and skeleton of
the way at that time, and the bucket and skeleton of the next-younger step. -/
structure Walk_Step where
  timestamp : Nat
  idx : Nat
  skeleton : Way_Skeleton
  last_idx : Nat
  last_skeleton : Way_Skeleton
deriving DecidableEq, Repr

/-- The steps of the reverse walk as step 4 of section 4.5 of the specification lists them:
for each remaining timestamp from newest to oldest the state at that time (recomputed only when
the prior bucket is 0 or the timestamp is not the oldest one) next to the state of the
next-younger step. -/
def walk_steps (E : Env) (skeleton : Way_Skeleton) (nodes_by_id : Nodes_By_Id) (attic_idx : Nat) :
    List Nat → Nat → Way_Skeleton → List Walk_Step
  | [], _, _ => []
  | t :: rest, last_idx, last_skeleton =>
    let cur :=
      if attic_idx = 0 ∨ rest ≠ [] then compute_idx_and_geometry E skeleton t nodes_by_id
      else (attic_idx, skeleton)
    Walk_Step.mk t cur.1 cur.2 last_idx last_skeleton
      :: walk_steps E skeleton nodes_by_id attic_idx rest cur.1 cur.2

/-- All entries of one call as section 4.5 of the specification lists them: the upper endpoint
entry (step 3) when it is due, followed by the steps of the reverse walk (step 4). -/
def all_steps (E : Env) (skeleton reference : Way_Skeleton) (old_timestamp new_timestamp : Nat)
    (nodes_by_id : Nodes_By_Id) (add_last_version : Bool) (attic_idx : Nat) : List Walk_Step :=
  (if upper_endpoint_due skeleton.nds old_timestamp new_timestamp nodes_by_id add_last_version then
    [Walk_Step.mk new_timestamp
      (anchor E skeleton old_timestamp new_timestamp nodes_by_id attic_idx).1
      (anchor E skeleton old_timestamp new_timestamp nodes_by_id attic_idx).2
      (reference_state E reference new_timestamp nodes_by_id).1
      (reference_state E reference new_timestamp nodes_by_id).2]
  else [])
  ++ walk_steps E skeleton nodes_by_id attic_idx
      (walk_timestamps skeleton.nds old_timestamp new_timestamp nodes_by_id add_last_version).reverse
      (anchor E skeleton old_timestamp new_timestamp nodes_by_id attic_idx).1
      (anchor E skeleton old_timestamp new_timestamp nodes_by_id attic_idx).2

/-- The delta that is stored for a step: against the skeleton of the next-younger step when the
buckets agree, against the empty skeleton otherwise. -/
def step_delta (E : Env) (s : Walk_Step) : Way_Delta :=
  if s.idx = s.last_idx then E.way_delta s.last_skeleton s.skeleton
  else E.way_delta Way_Skeleton.empty s.skeleton

/-- The skeleton against which the delta of a step is to be expanded. -/
def step_reference (s : Walk_Step) : Way_Skeleton :=
  if s.idx = s.last_idx then s.last_skeleton else Way_Skeleton.empty

/-- The empty stores. -/
def Attic_Stores.empty : Attic_Stores := Attic_Stores.mk [] [] []

/-- The effect of one step on the stores. -/
def apply_step (E : Env) (id : Nat) (st : Attic_Stores) (s : Walk_Step) : Attic_Stores :=
  store_version E id s.idx s.skeleton s.last_idx s.last_skeleton s.timestamp st

/-- The record that a step puts into `full_attic`, with its bucket. -/
def step_record (E : Env) (s : Walk_Step) : Nat × Attic Way_Delta :=
  (s.idx, Attic.mk (step_delta E s) s.timestamp)

/-- A node of the way has a resolver snapshot stamped `t`, and `t` lies in the window
`(old_timestamp, new_timestamp]`. -/
def snapshot_in_window (nds : List Nat) (old_timestamp new_timestamp : Nat)
    (nodes_by_id : Nodes_By_Id) (t : Nat) : Prop :=
  ∃ nd ∈ nds, ∃ v ∈ (List.lookup nd nodes_by_id).getD [],
    v.timestamp = t ∧ old_timestamp < t ∧ t ≤ new_timestamp

instance (nds : List Nat) (old_timestamp new_timestamp : Nat) (nodes_by_id : Nodes_By_Id)
    (t : Nat) : Decidable (snapshot_in_window nds old_timestamp new_timestamp nodes_by_id t) := by
  unfold snapshot_in_window
  exact inferInstance

/-! ## `adapt_newest_existing_attic` -/

/-- The line that `adapt_newest_existing_attic` writes to `std::cerr`: "Way `way` has changed at
timestamp `timestamp` in two different diffs." -/
structure Diagnostic where
  way : Nat
  timestamp : Nat
deriving DecidableEq, Repr

/-- The delta `new_delta` of `adapt_newest_existing_attic` (lines 269-270). -/
def adapted_delta (E : Env) (old_idx new_idx : Nat) (existing_delta : Attic Way_Delta)
    (existing_reference new_reference : Way_Skeleton) : Way_Delta :=
  E.way_delta (if old_idx = new_idx then new_reference else Way_Skeleton.empty)
    (E.expand existing_delta.elem existing_reference)

/-- The function `adapt_newest_existing_attic` (lines 261-283). Returns
`attic_skeletons_to_delete`, `full_attic` and the lines written to `std::cerr`. -/
def adapt_newest_existing_attic (E : Env) (old_idx new_idx : Nat)
    (existing_delta : Attic Way_Delta) (existing_reference new_reference : Way_Skeleton)
    (attic_skeletons_to_delete full_attic : List (Nat × Attic Way_Delta)) :
    List (Nat × Attic Way_Delta) × List (Nat × Attic Way_Delta) × List Diagnostic :=
  let new_delta := adapted_delta E old_idx new_idx existing_delta existing_reference new_reference
  if ¬ new_delta.id = existing_delta.elem.id
      ∨ new_delta.full ≠ existing_delta.elem.full
      ∨ new_delta.nds_added ≠ existing_delta.elem.nds_added
      ∨ new_delta.nds_removed ≠ existing_delta.elem.nds_removed
      ∨ new_delta.geometry_added ≠ existing_delta.elem.geometry_added
      ∨ new_delta.geometry_removed ≠ existing_delta.elem.geometry_removed then
    (map_set_insert same_attic_delta attic_skeletons_to_delete old_idx existing_delta,
     map_set_insert same_attic_delta full_attic new_idx
       (Attic.mk new_delta existing_delta.timestamp),
     [Diagnostic.mk existing_delta.elem.id existing_delta.timestamp])
  else (attic_skeletons_to_delete, full_attic, [])

/-! ## Example data -/

/-- A resolver in which node 10 moved from bucket 3 to bucket 4 at time 150 and node 11 never
moved. -/
def demo_nodes : Nodes_By_Id :=
  [(10, [Node_Version.mk 3 10 0 150, Node_Version.mk 4 10 0 NOW]),
   (11, [Node_Version.mk 3 11 0 NOW])]

/-- A resolver in which node 10 had its position in bucket 3 until time 100. -/
def demo_nodes_at_100 : Nodes_By_Id :=
  [(10, [Node_Version.mk 3 10 0 100, Node_Version.mk 3 10 1 NOW])]

/-- A resolver in which node 10 lies in bucket 7 and never moved. -/
def demo_nodes_fixed : Nodes_By_Id := [(10, [Node_Version.mk 7 10 0 NOW])]

/-! ## `compute_new_attic_skeletons` -/

/-- The meta data of a batch entry as far as this file reads it: `meta.timestamp`. -/
structure Meta where
  timestamp : Nat
deriving DecidableEq, Repr

/-- A `Data_By_Id< Way_Skeleton >::Entry` as far as this file reads it: the bucket `idx`, the
skeleton `elem` and the meta data. -/
structure Entry where
  idx : Nat
  elem : Way_Skeleton
  meta : Meta
deriving DecidableEq, Repr

/-- The function `geometrically_equal` (lines 58-61). -/
def geometrically_equal (a b : Way_Skeleton) : Bool := decide (a.nds = b.nds)

/-- Modelled from the spec: `binary_pair_search` is declared in a header outside this file. On
the id to bucket directory of section 6 of the specification it yields the bucket stored for the
id, if there is one. -/
def binary_pair_search (positions : List (Nat × Nat)) (id : Nat) : Option Nat :=
  List.lookup id positions

/-- The two lookups of lines 371-381: the skeleton with the id of the entry in the set that
`attic_skeletons` holds under bucket `idx`. The ordering of `Way_Skeleton` is declared outside
this file; by invariant I1 of the specification a skeleton of the current store is identified by
its way id. -/
def find_attic_skeleton (attic_skeletons : List (Nat × Way_Skeleton)) (idx id : Nat) :
    Option Way_Skeleton :=
  (attic_skeletons.find? (fun p => decide (p.1 = idx) && decide (p.2.id = id))).map Prod.snd

/-- The read-only arguments of `compute_new_attic_skeletons`. The resolver `nodes_by_id` stands for
the value of `collect_nodes_by_id(new_attic_node_skeletons, new_node_idx_by_id)`, a function that
is declared outside this file. -/
structure Attic_Context where
  existing_map_positions : List (Nat × Nat)
  attic_map_positions : List (Nat × Nat)
  attic_skeletons : List (Nat × Way_Skeleton)
  existing_attic_skeleton_timestamps : List (Nat × (Nat × Attic Way_Delta))
  nodes_by_id : Nodes_By_Id

/-- What `compute_new_attic_skeletons` writes: the three stores of `add_intermediate_versions`,
`attic_skeletons_to_delete` and the lines on `std::cerr` of `adapt_newest_existing_attic`. -/
structure Attic_Update where
  stores : Attic_Stores
  attic_skeletons_to_delete : List (Nat × Attic Way_Delta)
  log : List Diagnostic
deriving DecidableEq, Repr

/-- Lines 317-332: the window from the entry to the next version of the same way, or to `NOW` for
the latest version. Returns `it_idx` and the stores. -/
def entry_windows (E : Env) (ctx : Attic_Context) (it : Entry) (next : Option Entry)
    (st : Attic_Stores) : Nat × Attic_Stores :=
  match next with
  | some nx =>
    if it.elem.id = nx.elem.id then
      if it.idx ≠ 0 then
        (add_intermediate_versions E it.elem nx.elem it.meta.timestamp nx.meta.timestamp
          ctx.nodes_by_id (decide (nx.idx = 0) || !geometrically_equal it.elem nx.elem) 0 st).2
      else (it.idx, st)
    else
      (add_intermediate_versions E it.elem Way_Skeleton.empty it.meta.timestamp NOW
        ctx.nodes_by_id false 0 st).2
  | none =>
    (add_intermediate_versions E it.elem Way_Skeleton.empty it.meta.timestamp NOW
      ctx.nodes_by_id false 0 st).2

/-- Lines 341-346 and 356-361: the bucket `0xff` is replaced by the bucket computed at the
timestamp of the entry plus one, and the undelete entry of the entry is written there. -/
def undelete_created (E : Env) (ctx : Attic_Context) (it : Entry) (it_idx : Nat)
    (st : Attic_Stores) : Attic_Stores :=
  Attic_Stores.mk st.full_attic
    (map_set_insert same_attic_id st.new_undeleted
      (if it_idx = 0xff then
        (compute_idx_and_geometry E it.elem ((it.meta.timestamp + 1) % UINT64_MOD)
          ctx.nodes_by_id).1
      else it_idx)
      (Attic.mk it.elem.id it.meta.timestamp))
    st.idx_lists

/-- Lines 366-396: the window from the youngest attic version on disk to the first version of the
way in the batch, and the adaption of that attic version. -/
def entry_existing (E : Env) (ctx : Attic_Context) (it : Entry) (u : Attic_Update)
    (st : Attic_Stores) : Attic_Update :=
  match binary_pair_search ctx.existing_map_positions it.elem.id with
  | none => Attic_Update.mk st u.attic_skeletons_to_delete u.log
  | some idx =>
    match find_attic_skeleton ctx.attic_skeletons idx it.elem.id with
    | none => Attic_Update.mk st u.attic_skeletons_to_delete u.log
    | some it_attic =>
      match List.lookup it.elem.id ctx.existing_attic_skeleton_timestamps with
      | none =>
        Attic_Update.mk
          (add_intermediate_versions E it_attic it.elem 0 it.meta.timestamp ctx.nodes_by_id
            (decide (it.idx = 0) || !geometrically_equal it_attic it.elem) idx st).2.2
          u.attic_skeletons_to_delete u.log
      | some it_attic_time =>
        let r := add_intermediate_versions E it_attic it.elem it_attic_time.2.timestamp
          it.meta.timestamp ctx.nodes_by_id
          (decide (it.idx = 0) || !geometrically_equal it_attic it.elem) idx st
        if it_attic_time.2.elem.id = it.elem.id then
          let ad := adapt_newest_existing_attic E it_attic_time.1 idx it_attic_time.2 it_attic
            (if it_attic_time.2.timestamp < it.meta.timestamp then r.1 else Way_Skeleton.empty)
            u.attic_skeletons_to_delete r.2.2.full_attic
          Attic_Update.mk (Attic_Stores.mk ad.2.1 r.2.2.new_undeleted r.2.2.idx_lists) ad.1
            (u.log ++ ad.2.2)
        else Attic_Update.mk r.2.2 u.attic_skeletons_to_delete u.log

/-- The body of the first loop of `compute_new_attic_skeletons` (lines 316-396) for the entry
`it` with its predecessor `prev` and successor `next` in the batch. Returns the new value of
`last_id` and the update, or `none` when `--last_it` would leave the vector, which happens only
if the first entry has the id 0 with which `last_id` starts. -/
def attic_entry_step (E : Env) (ctx : Attic_Context) (prev : Option Entry) (it : Entry)
    (next : Option Entry) (last_id : Nat) (u : Attic_Update) : Option (Nat × Attic_Update) :=
  let w := entry_windows E ctx it next u.stores
  if last_id = it.elem.id then
    match prev with
    | none => none
    | some last_it =>
      if last_it.idx = 0 then
        some (last_id, Attic_Update.mk (undelete_created E ctx it w.1 w.2)
          u.attic_skeletons_to_delete u.log)
      else some (last_id, Attic_Update.mk w.2 u.attic_skeletons_to_delete u.log)
  else
    some (it.elem.id, entry_existing E ctx it u
      (if (binary_pair_search ctx.existing_map_positions it.elem.id).isNone
          ∧ (binary_pair_search ctx.attic_map_positions it.elem.id).isSome then
        undelete_created E ctx it w.1 w.2
      else w.2))

/-- The first loop of `compute_new_attic_skeletons` (lines 310-397) over the rest of the batch. -/
def attic_batch_loop (E : Env) (ctx : Attic_Context) :
    Option Entry → List Entry → Nat → Attic_Update → Option Attic_Update
  | _, [], _, u => some u
  | prev, it :: rest, last_id, u =>
    match attic_entry_step E ctx prev it rest.head? last_id u with
    | none => none
    | some r => attic_batch_loop E ctx (some it) rest r.1 r.2

/-- The body of the second loop (lines 403-419) for the implicitly moved way `p.2` that is stored
under the bucket `p.1`. -/
def implicit_step (E : Env) (ctx : Attic_Context) (u : Attic_Update) (p : Nat × Way_Skeleton) :
    Attic_Update :=
  match List.lookup p.2.id ctx.existing_attic_skeleton_timestamps with
  | none =>
    Attic_Update.mk
      (add_intermediate_versions E p.2 p.2 0 NOW ctx.nodes_by_id false p.1 u.stores).2.2
      u.attic_skeletons_to_delete u.log
  | some it_attic_time =>
    let r := add_intermediate_versions E p.2 p.2 it_attic_time.2.timestamp NOW ctx.nodes_by_id
      false p.1 u.stores
    if it_attic_time.2.elem.id = p.2.id then
      let ad := adapt_newest_existing_attic E it_attic_time.1 p.1 it_attic_time.2 p.2 r.1
        u.attic_skeletons_to_delete r.2.2.full_attic
      Attic_Update.mk (Attic_Stores.mk ad.2.1 r.2.2.new_undeleted r.2.2.idx_lists) ad.1
        (u.log ++ ad.2.2)
    else Attic_Update.mk r.2.2 u.attic_skeletons_to_delete u.log

/-- The function `compute_new_attic_skeletons` (lines 289-421). The batch is `new_data.data`, the
implicitly moved ways are the pairs of bucket and skeleton of `implicitly_moved_skeletons` in
iteration order. -/
def compute_new_attic_skeletons (E : Env) (ctx : Attic_Context) (new_data : List Entry)
    (implicitly_moved_skeletons : List (Nat × Way_Skeleton)) (u : Attic_Update) :
    Option Attic_Update :=
  match attic_batch_loop E ctx none new_data 0 u with
  | none => none
  | some u1 => some (implicitly_moved_skeletons.foldl (implicit_step E ctx) u1)

/-- The empty update with which the driver starts. -/
def Attic_Update.empty : Attic_Update := Attic_Update.mk Attic_Stores.empty [] []

/-- The pair of way id and timestamp that identifies an attic delta. -/
def attic_key (p : Nat × Attic Way_Delta) : Nat × Nat := (p.2.elem.id, p.2.timestamp)

/-- The batch order: by way id, and by strictly increasing timestamp within one id. -/
def batch_lt (a b : Entry) : Prop :=
  a.elem.id < b.elem.id ∨ (a.elem.id = b.elem.id ∧ a.meta.timestamp < b.meta.timestamp)

instance (a b : Entry) : Decidable (batch_lt a b) := by
  unfold batch_lt
  exact inferInstance

/-- Way 1 is current in bucket 5 with an attic version stamped 150 under bucket 5; node 10 moved
at time 150 and lies in bucket 9. -/
def demo_context : Attic_Context where
  existing_map_positions := [(1, 5)]
  attic_map_positions := [(1, 5)]
  attic_skeletons := [(5, Way_Skeleton.mk 1 [10] [])]
  existing_attic_skeleton_timestamps := [(1, (5, Attic.mk (Way_Delta.mk 1 false [] [] [] []) 150))]
  nodes_by_id := [(10, [Node_Version.mk 9 10 0 150, Node_Version.mk 9 10 1 NOW])]

/-- A batch with two versions of way 1, stamped 100 and 200. -/
def demo_batch : List Entry :=
  [Entry.mk 9 (Way_Skeleton.mk 1 [10] []) (Meta.mk 100),
   Entry.mk 9 (Way_Skeleton.mk 1 [10, 11] []) (Meta.mk 200)]

/-- A batch with two versions of way 1, stamped 160 and 200, both younger than the attic version
of `demo_context`. -/
def demo_batch_late : List Entry :=
  [Entry.mk 9 (Way_Skeleton.mk 1 [10] []) (Meta.mk 160),
   Entry.mk 9 (Way_Skeleton.mk 1 [10, 11] []) (Meta.mk 200)]

/-! ## The current state: `get_implicitly_moved_skeletons`, `add_implicitly_known_nodes`,
`compute_geometry`, `new_implicit_skeletons` -/

/-- Modelled from the spec: the type `Node_Skeleton` is declared outside this file; of a node
snapshot this file reads the members `id` and `ll_lower`. -/
structure Node_Skeleton where
  id : Nat
  ll_lower : Nat
deriving DecidableEq, Repr

/-- Modelled from the spec: the ordering of `Way_Skeleton` is declared outside this file. By
invariant I1 of the specification a skeleton of the current store is identified by its way id, so
two skeletons are the same element of a set exactly when their ids agree. -/
def same_way (a b : Way_Skeleton) : Bool := decide (a.id = b.id)

/-- The function `get_implicitly_moved_skeletons` (lines 424-472). The list `scanned` holds the
pairs of bucket and way that the iteration over the current store (lines 455-456) visits for the
parent buckets of the buckets of the moved nodes; a `std::binary_search` in a sorted vector is a
membership test. -/
def get_implicitly_moved_skeletons (attic_nodes : List (Nat × Node_Skeleton))
    (already_known_skeletons scanned : List (Nat × Way_Skeleton)) : List (Nat × Way_Skeleton) :=
  let node_ids := unique (List.insertionSort (fun a b => a ≤ b)
    (attic_nodes.foldl (fun ids p => ids ++ [p.2.id]) []))
  let known_way_ids := unique (List.insertionSort (fun a b => a ≤ b)
    (already_known_skeletons.foldl (fun ids p => ids ++ [p.2.id]) []))
  scanned.foldl (fun result p =>
    if p.2.id ∈ known_way_ids then result
    else if p.2.nds.any (fun n => decide (n ∈ node_ids)) then
      map_set_insert same_way result p.1 p.2
    else result) []

/-- The map `new_node_idx_by_id` from node id to coordinate, a `std::map` kept as the list of
its pairs; `find` is `List.lookup`. -/
abbrev Node_Idx_By_Id := List (Nat × Quad_Coord)

/-- The call `std::map::insert`: the pair is added only if the key is not in the map yet. -/
def map_insert (m : Node_Idx_By_Id) (k : Nat) (v : Quad_Coord) : Node_Idx_By_Id :=
  if (List.lookup k m).isSome then m else m ++ [(k, v)]

/-- The inner loop of `add_implicitly_known_nodes` (lines 488-490) over the positions
`i < geometry.size()`; `none` when `nds[i]` is read behind the end of the node list. -/
def insert_known_coords (m : Node_Idx_By_Id) : List Nat → List Quad_Coord → Option Node_Idx_By_Id
  | _, [] => some m
  | [], _ :: _ => none
  | n :: nds, c :: cs => insert_known_coords (map_insert m n c) nds cs

/-- The function `add_implicitly_known_nodes` (lines 477-494) over the pairs of bucket and
skeleton of `known_skeletons` in iteration order. -/
def add_implicitly_known_nodes (m : Node_Idx_By_Id) :
    List (Nat × Way_Skeleton) → Option Node_Idx_By_Id
  | [] => some m
  | p :: rest =>
    if p.2.geometry ≠ [] then
      match insert_known_coords m p.2.nds p.2.geometry with
      | none => none
      | some m1 => add_implicitly_known_nodes m1 rest
    else add_implicitly_known_nodes m rest

/-- The pairs of node id and coordinate that the known ways carry, position by position, in
iteration order. -/
def implied_coords : List (Nat × Way_Skeleton) → Node_Idx_By_Id
  | [] => []
  | p :: rest => List.zip p.2.nds p.2.geometry ++ implied_coords rest

/-- The vector `nd_idxs` of lines 588-596 and 645-653: the buckets of the nodes that are found in
the map, in node order. -/
def located_idxs (m : Node_Idx_By_Id) (nds : List Nat) : List Nat :=
  nds.foldl (fun nd_idxs n =>
    match List.lookup n m with
    | some c => nd_idxs ++ [c.ll_upper]
    | none => nd_idxs) []

/-- The geometry filled in lines 604-613 and 662-670: the coordinate of every node, and `(0, 0)`
for a node that is not in the map. -/
def located_geometry (m : Node_Idx_By_Id) (nds : List Nat) : List Quad_Coord :=
  nds.foldl (fun geometry n =>
    match List.lookup n m with
    | some c => geometry ++ [c]
    | none => geometry ++ [Quad_Coord.mk 0 0]) []

/-- Lines 588-616 of `compute_geometry`: bucket and geometry of one entry are computed anew. -/
def compute_geometry_entry (E : Env) (m : Node_Idx_By_Id) (it : Entry) : Entry :=
  Entry.mk (E.calc_index (located_idxs m it.elem.nds))
    (Way_Skeleton.mk it.elem.id it.elem.nds
      (if E.indicates_geometry (E.calc_index (located_idxs m it.elem.nds)) then
        located_geometry m it.elem.nds
      else []))
    it.meta

/-- The function `compute_geometry` (lines 571-618) on the vector `new_data.data`. -/
def compute_geometry (E : Env) (m : Node_Idx_By_Id) : List Entry → List Entry
  | [] => []
  | it :: rest =>
    (match rest.head? with
      | some nx =>
        if nx.elem.id = it.elem.id then it
        else if it.idx = 0 then it
        else compute_geometry_entry E m it
      | none =>
        if it.idx = 0 then it
        else compute_geometry_entry E m it)
    :: compute_geometry E m rest

/-- What `new_implicit_skeletons` writes through its reference parameters. -/
structure Current_Update where
  attic_skeletons : List (Nat × Way_Skeleton)
  new_skeletons : List (Nat × Way_Skeleton)
  moved_ways : List (Nat × Nat)
deriving DecidableEq, Repr

/-- The skeleton `new_skeleton` of lines 657-670. -/
def implicit_new_skeleton (E : Env) (m : Node_Idx_By_Id) (sk : Way_Skeleton) : Way_Skeleton :=
  Way_Skeleton.mk sk.id sk.nds
    (if E.indicates_geometry (E.calc_index (located_idxs m sk.nds)) then
      located_geometry m sk.nds
    else [])

/-- The function `new_implicit_skeletons` (lines 625-681) over the pairs of bucket and skeleton
of `existing_skeletons` in iteration order. -/
def new_implicit_skeletons (E : Env) (m : Node_Idx_By_Id)
    (existing_skeletons : List (Nat × Way_Skeleton)) (_record_minuscule_moves : Bool)
    (u : Current_Update) : Current_Update :=
  let attic := existing_skeletons.foldl (fun acc p => map_set_insert same_way acc p.1 p.2)
    u.attic_skeletons
  existing_skeletons.foldl (fun acc p =>
    Current_Update.mk acc.attic_skeletons
      (map_set_insert same_way acc.new_skeletons (E.calc_index (located_idxs m p.2.nds))
        (implicit_new_skeleton E m p.2))
      (if ¬ E.calc_index (located_idxs m p.2.nds) = p.1 then acc.moved_ways ++ [(p.2.id, p.1)]
       else acc.moved_ways))
    (Current_Update.mk attic u.new_skeletons u.moved_ways)

/-- The buckets of the nodes of a way that are found in the map, in node order. -/
def node_buckets (m : Node_Idx_By_Id) (nds : List Nat) : List Nat :=
  nds.filterMap (fun n => (List.lookup n m).map (fun c => c.ll_upper))

/-! ## The changelog -/

/-- The function `add_intermediate_changelog_entries` (lines 204-258). The changelog, a
`std::map` from timestamp to a vector of way ids, is kept as the list of its pairs of timestamp
and id in the order of the `push_back` calls, so the vector under a timestamp is the list of the
ids paired with it; a `Timestamp` is its `uint64` value. Lines 233-250 fill a local vector
`idxs` that is never read. -/
def add_intermediate_changelog_entries (skeleton : Way_Skeleton)
    (old_timestamp new_timestamp : Nat) (nodes_by_id : Nodes_By_Id) (add_last_version : Bool)
    (_attic_idx _new_idx : Nat) (result : List (Nat × Nat)) : List (Nat × Nat) :=
  let pushed :=
    (pop_back_if (relevant_timestamps skeleton.nds old_timestamp new_timestamp nodes_by_id)
      NOW).foldl (fun r t => r ++ [(t, skeleton.id)]) result
  if add_last_version then pushed ++ [(new_timestamp, skeleton.id)] else pushed

/-- Lines 712-717 and 735-740 of `compute_changelog`: the bucket of an entry, computed at its
timestamp plus one when the entry carries `0xff`. -/
def changelog_next_idx (E : Env) (ctx : Attic_Context) (e : Entry) : Nat :=
  if e.idx = 0xff then
    (compute_idx_and_geometry E e.elem ((e.meta.timestamp + 1) % UINT64_MOD) ctx.nodes_by_id).1
  else e.idx

/-- The body of the first loop of `compute_changelog` (lines 709-761). Returns the new value of
`last_id` and the changelog. -/
def changelog_entry_step (E : Env) (ctx : Attic_Context) (it : Entry) (next : Option Entry)
    (last_id : Nat) (result : List (Nat × Nat)) : Nat × List (Nat × Nat) :=
  let r1 :=
    match next with
    | some nx =>
      if it.elem.id = nx.elem.id then
        add_intermediate_changelog_entries it.elem it.meta.timestamp nx.meta.timestamp
          ctx.nodes_by_id true 0 (changelog_next_idx E ctx nx) result
      else
        add_intermediate_changelog_entries it.elem it.meta.timestamp NOW ctx.nodes_by_id false 0 0
          result
    | none =>
      add_intermediate_changelog_entries it.elem it.meta.timestamp NOW ctx.nodes_by_id false 0 0
        result
  if last_id = it.elem.id then (last_id, r1)
  else
    match binary_pair_search ctx.existing_map_positions it.elem.id with
    | none => (it.elem.id, r1 ++ [(it.meta.timestamp, it.elem.id)])
    | some idx =>
      match find_attic_skeleton ctx.attic_skeletons idx it.elem.id with
      | none => (it.elem.id, r1)
      | some it_attic =>
        (it.elem.id,
          add_intermediate_changelog_entries it_attic 0 it.meta.timestamp ctx.nodes_by_id true idx
            (changelog_next_idx E ctx it) r1)

/-- The first loop of `compute_changelog` (lines 703-762) over the rest of the batch. -/
def changelog_batch_loop (E : Env) (ctx : Attic_Context) :
    List Entry → Nat → List (Nat × Nat) → List (Nat × Nat)
  | [], _, result => result
  | it :: rest, last_id, result =>
    changelog_batch_loop E ctx rest
      (changelog_entry_step E ctx it rest.head? last_id result).1
      (changelog_entry_step E ctx it rest.head? last_id result).2

/-- The function `compute_changelog` (lines 687-774). -/
def compute_changelog (E : Env) (ctx : Attic_Context) (new_data : List Entry)
    (implicitly_moved_skeletons : List (Nat × Way_Skeleton)) : List (Nat × Nat) :=
  implicitly_moved_skeletons.foldl (fun result p =>
    add_intermediate_changelog_entries p.2 0 NOW ctx.nodes_by_id false p.1 0 result)
    (changelog_batch_loop E ctx new_data 0 [])

/-- Way 1 is listed in bucket 5 by the directory of current positions, but its skeleton is not
among the loaded `attic_skeletons`. -/
def demo_context_unloaded : Attic_Context where
  existing_map_positions := [(1, 5)]
  attic_map_positions := []
  attic_skeletons := []
  existing_attic_skeleton_timestamps := []
  nodes_by_id := []


/-- A store without way 1: no current position, no attic position, no attic version; node 10 lies
in bucket 7 and never moved. -/
def demo_context_new : Attic_Context where
  existing_map_positions := []
  attic_map_positions := []
  attic_skeletons := []
  existing_attic_skeleton_timestamps := []
  nodes_by_id := demo_nodes_fixed

/-- A store in which way 1 has been deleted: it has no current position but an attic position in
bucket 5; node 10 lies in bucket 7 and never moved. -/
def demo_context_deleted : Attic_Context where
  existing_map_positions := []
  attic_map_positions := [(1, 5)]
  attic_skeletons := []
  existing_attic_skeleton_timestamps := []
  nodes_by_id := demo_nodes_fixed

/-- The stores `s1` and `s2` hold the same attic deltas and the same undelete entries of way
`w`. -/
def agree_on_way (w : Nat) (s1 s2 : Attic_Stores) : Prop :=
  (∀ p : Nat × Attic Way_Delta, p.2.elem.id = w → (p ∈ s1.full_attic ↔ p ∈ s2.full_attic))
    ∧ (∀ x : Nat × Attic Nat, x.2.elem = w → (x ∈ s1.new_undeleted ↔ x ∈ s2.new_undeleted))

/-- Way 3 is current in bucket 5 and has no attic version; its node 10 lay in bucket 5 until
time 300 and lies in bucket 9 now. -/
def demo_context_moved : Attic_Context where
  existing_map_positions := [(3, 5)]
  attic_map_positions := []
  attic_skeletons := [(5, Way_Skeleton.mk 3 [10] [])]
  existing_attic_skeleton_timestamps := []
  nodes_by_id := [(10, [Node_Version.mk 5 10 0 300, Node_Version.mk 9 10 1 NOW])]

/-- The argument `old_timestamp` of lines 387-388 and 410-411: the timestamp of the youngest
attic version of the way on disk, and 0 without one. -/
def prior_timestamp (ctx : Attic_Context) (id : Nat) : Nat :=
  match List.lookup id ctx.existing_attic_skeleton_timestamps with
  | none => 0
  | some it_attic_time => it_attic_time.2.timestamp

/-- The records that the call of `adapt_newest_existing_attic` in lines 392-396 adds to an empty
`full_attic` for the way `id` that is current in bucket `idx` with skeleton `it_attic`. -/
def rewritten_prior (E : Env) (ctx : Attic_Context) (id idx : Nat)
    (it_attic new_reference : Way_Skeleton) : List (Nat × Attic Way_Delta) :=
  match List.lookup id ctx.existing_attic_skeleton_timestamps with
  | none => []
  | some it_attic_time =>
    if it_attic_time.2.elem.id = id then
      (adapt_newest_existing_attic E it_attic_time.1 idx it_attic_time.2 it_attic new_reference
        [] []).2.1
    else []

/-- Way 1 is current in bucket 5 with the nodes `[10]`; its attic version stamped 150 is stored
under bucket 5 as a full delta; node 10 lies in bucket 5 and never moved. -/
def demo_context_stale : Attic_Context where
  existing_map_positions := [(1, 5)]
  attic_map_positions := [(1, 5)]
  attic_skeletons := [(5, Way_Skeleton.mk 1 [10] [])]
  existing_attic_skeleton_timestamps :=
    [(1, (5, Attic.mk (Way_Delta.mk 1 true [] [(0, 10)] [] []) 150))]
  nodes_by_id := [(10, [Node_Version.mk 5 10 0 NOW])]

/-- The deletion of way 1 at time 400: bucket 0 and an empty node list. -/
def demo_deletion : Entry := Entry.mk 0 (Way_Skeleton.mk 1 [] []) (Meta.mk 400)

/-- The oldest state of the window of one call of `add_intermediate_versions`: bucket and skeleton
of the last step of the reverse walk, or the anchored state when the walk has no step. -/
def oldest_state (E : Env) (skeleton : Way_Skeleton) (old_timestamp new_timestamp : Nat)
    (nodes_by_id : Nodes_By_Id) (add_last_version : Bool) (attic_idx : Nat) :
    Nat × Way_Skeleton :=
  match (walk_steps E skeleton nodes_by_id attic_idx
      (walk_timestamps skeleton.nds old_timestamp new_timestamp nodes_by_id
        add_last_version).reverse
      (anchor E skeleton old_timestamp new_timestamp nodes_by_id attic_idx).1
      (anchor E skeleton old_timestamp new_timestamp nodes_by_id attic_idx).2).getLast? with
  | none => anchor E skeleton old_timestamp new_timestamp nodes_by_id attic_idx
  | some s => (s.idx, s.skeleton)

/-- A second instance of the external collaborators, in which a delta shows its reference: it is
full exactly when the reference has no nodes, and it lists the nodes of the reference that the
skeleton lacks as removed and the nodes of the skeleton that the reference lacks as added. -/
def demo_env_relative : Env where
  calc_index := fun l => l.headD 0xfe
  indicates_geometry := fun _ => true
  way_delta := fun r s =>
    Way_Delta.mk s.id (decide (r.nds = [])) (r.nds.filter (fun n => decide (n ∉ s.nds)))
      ((s.nds.filter (fun n => decide (n ∉ r.nds))).map (fun n => (0, n))) [] []
  expand := fun d r =>
    Way_Skeleton.mk d.id
      (r.nds.filter (fun n => decide (n ∉ d.nds_removed)) ++ d.nds_added.map Prod.snd) []

/-- Scenario S1: way 1 with the nodes 10 and 11 is current in bucket 5 and has no attic version;
the nodes 10, 11 and 12 lie in bucket 5 and never moved. -/
def demo_context_s1 : Attic_Context where
  existing_map_positions := [(1, 5)]
  attic_map_positions := []
  attic_skeletons := [(5, Way_Skeleton.mk 1 [10, 11] [])]
  existing_attic_skeleton_timestamps := []
  nodes_by_id :=
    [(10, [Node_Version.mk 5 10 0 NOW]), (11, [Node_Version.mk 5 11 0 NOW]),
     (12, [Node_Version.mk 5 12 0 NOW])]

/-- The batch of scenario S1: way 1 with the nodes 10, 11 and 12 at time 200. -/
def demo_batch_s1 : Entry := Entry.mk 5 (Way_Skeleton.mk 1 [10, 11, 12] []) (Meta.mk 200)

/-- Scenario S2: way 2 with the nodes 20 and 21 is current in bucket 5 and has no attic version;
node 20 lay in bucket 5 until time 150 and lies in bucket 9 now, the nodes 21 and 22 lie in
bucket 5 and never moved. -/
def demo_context_s2 : Attic_Context where
  existing_map_positions := [(2, 5)]
  attic_map_positions := []
  attic_skeletons := [(5, Way_Skeleton.mk 2 [20, 21] [])]
  existing_attic_skeleton_timestamps := []
  nodes_by_id :=
    [(20, [Node_Version.mk 5 20 0 150, Node_Version.mk 9 20 1 NOW]),
     (21, [Node_Version.mk 5 21 0 NOW]), (22, [Node_Version.mk 5 22 0 NOW])]

/-- The batch of scenario S2: way 2 with the nodes 20, 21 and 22 at time 200, in bucket 9. -/
def demo_batch_s2 : Entry := Entry.mk 9 (Way_Skeleton.mk 2 [20, 21, 22] []) (Meta.mk 200)

/-- Scenario S5: way 5 has neither a current nor an attic version; node 50 lies in bucket 5 and
never moved. -/
def demo_context_s5 : Attic_Context where
  existing_map_positions := []
  attic_map_positions := []
  attic_skeletons := []
  existing_attic_skeleton_timestamps := []
  nodes_by_id := [(50, [Node_Version.mk 5 50 0 NOW])]

/-- The first version of way 5 in the batch of scenario S5, at time 500. -/
def demo_created_s5 : Entry := Entry.mk 0xff (Way_Skeleton.mk 5 [50] []) (Meta.mk 500)

/-- The deletion of way 5 in the batch of scenario S5, at time 600. -/
def demo_deleted_s5 : Entry := Entry.mk 0 (Way_Skeleton.mk 5 [] []) (Meta.mk 600)

/-! ## The files of partial updates (`Way_Updater::update`, lines 1040-1120) -/

/-- The statements `std::string s(base); s[2] += k;` of lines 1054-1055, 1067-1068, 1080-1081,
1093-1094, 1099-1100 and 1113-1114: the character at position 2 of `base` is advanced by `k`. -/
def suffix_plus (base : String) (k : Nat) : String :=
  String.mk (base.data.set 2
    (Char.ofNat (((base.data.getD 2 (Char.ofNat 0)).toNat + k) % 256)))

/-- The files that `rename_referred_file` is called for in lines 1082-1086. -/
inductive Way_File where
  | WAYS
  | WAY_TAGS_LOCAL
  | WAY_TAGS_GLOBAL
  | WAYS_META
deriving DecidableEq, Repr

/-- The calls that the end of `Way_Updater::update` issues: `rename_referred_file(db_dir, source,
target, file)` and `merge_files(froms, into)`. -/
inductive File_Op where
  | rename_referred_file (file : Way_File) (source target : String)
  | merge_files (froms : List String) (into : String)
deriving DecidableEq, Repr

/-- The members of `Way_Updater` that lines 1040-1120 read and write. -/
structure Updater_State where
  update_counter : Nat
  partial_possible : Bool
deriving DecidableEq, Repr

/-- The constructor `Way_Updater(Transaction&, Database_Meta_State::Mode)` (lines 40-43). -/
def Way_Updater_external : Updater_State := Updater_State.mk 0 false

/-- The constructor `Way_Updater(std::string, Database_Meta_State::Mode)` (lines 45-55);
`file_exists` is the result of the call of `file_exists` for the file of the ways. -/
def Way_Updater_db_dir (file_exists : Bool) : Updater_State := Updater_State.mk 0 (!file_exists)

/-- The loops of lines 1052-1057, 1065-1070, 1097-1102 and 1111-1116: the vector `froms` with
the `n` names `base` advanced by 0, ..., `n - 1`. -/
def froms_loop (base : String) (n : Nat) : List String :=
  (List.range n).map (suffix_plus base)

/-- Lines 1047-1120 of `Way_Updater::update`: the file operations at the end of one update and the
new value of `update_counter`. The parameter `counter_mod` is the number of values of the unsigned
type of `update_counter`, which is declared in `way_updater.h`, outside this file; `has_meta` is
the truth value of the member `meta`. The calls of the callback are not modelled. -/
def update_files (counter_mod : Nat) (has_meta partial_batch : Bool) (s : Updater_State) :
    List File_Op × Updater_State :=
  if s.partial_possible = true ∧ partial_batch = false ∧ s.update_counter > 0 then
    ([File_Op.merge_files (froms_loop ".0a" (s.update_counter % 16)) ""]
      ++ (if s.update_counter ≥ 256 then [File_Op.merge_files [ ".2" ] ".1"] else [])
      ++ (if s.update_counter ≥ 16 then
            [File_Op.merge_files (froms_loop ".1a" (s.update_counter / 16 % 16)) ".1",
             File_Op.merge_files [ ".1" ] ""]
          else []),
     Updater_State.mk 0 s.partial_possible)
  else if s.partial_possible = true ∧ partial_batch = true then
    let target := suffix_plus ".0a" (s.update_counter % 16)
    let update_counter := (s.update_counter + 1) % counter_mod
    ([File_Op.rename_referred_file Way_File.WAYS "" target,
      File_Op.rename_referred_file Way_File.WAY_TAGS_LOCAL "" target,
      File_Op.rename_referred_file Way_File.WAY_TAGS_GLOBAL "" target]
      ++ (if has_meta = true then [File_Op.rename_referred_file Way_File.WAYS_META "" target]
          else [])
      ++ (if update_counter % 16 = 0 then
            [File_Op.merge_files (froms_loop ".0a" 16)
              (suffix_plus ".1a" ((update_counter / 16 + counter_mod - 1) % counter_mod % 16))]
          else [])
      ++ (if update_counter % 256 = 0 then [File_Op.merge_files (froms_loop ".1a" 16) ".2"]
          else []),
     Updater_State.mk update_counter s.partial_possible)
  else ([], s)

/-! ## The variant of `add_intermediate_versions` that always recomputes -/

/-- The reverse walk of the variant that section 4.5 of the specification allows ("an
implementation may recompute unconditionally"): bucket and skeleton are computed by
`compute_idx_and_geometry` at every timestamp, also at the oldest one. -/
def reverse_walk_recomputing (E : Env) (skeleton : Way_Skeleton) (nodes_by_id : Nodes_By_Id) :
    List Nat → Nat → Way_Skeleton → Attic_Stores → Nat × Way_Skeleton × Attic_Stores
  | [], last_idx, last_skeleton, st => (last_idx, last_skeleton, st)
  | t :: rest, last_idx, last_skeleton, st =>
    let cur := compute_idx_and_geometry E skeleton t nodes_by_id
    reverse_walk_recomputing E skeleton nodes_by_id rest cur.1 cur.2
      (store_version E skeleton.id cur.1 cur.2 last_idx last_skeleton t st)

/-- The variant of `add_intermediate_versions` that always calls `compute_idx_and_geometry` for
the anchor at `new_timestamp` and for every timestamp of the walk; everything else is as in the
function of lines 106-198. -/
def add_intermediate_versions_recomputing (E : Env) (skeleton reference : Way_Skeleton)
    (old_timestamp new_timestamp : Nat) (nodes_by_id : Nodes_By_Id) (add_last_version : Bool)
    (attic_idx : Nat) (st : Attic_Stores) : Way_Skeleton × Nat × Attic_Stores :=
  let cur := compute_idx_and_geometry E skeleton new_timestamp nodes_by_id
  let st1 :=
    if upper_endpoint_due skeleton.nds old_timestamp new_timestamp nodes_by_id add_last_version then
      store_version E skeleton.id cur.1 cur.2
        (reference_state E reference new_timestamp nodes_by_id).1
        (reference_state E reference new_timestamp nodes_by_id).2 new_timestamp st
    else st
  let w := reverse_walk_recomputing E skeleton nodes_by_id
    (walk_timestamps skeleton.nds old_timestamp new_timestamp nodes_by_id add_last_version).reverse
    cur.1 cur.2 st1
  (if w.1 = attic_idx then w.2.1 else Way_Skeleton.empty, w.1, w.2.2)

/-- Way 1 with the nodes 10 and 11 and the geometry that it has in `demo_nodes` until time 150,
when both nodes lie in bucket 3. -/
def demo_way_at_150 : Way_Skeleton :=
  Way_Skeleton.mk 1 [10, 11] [Quad_Coord.mk 3 0, Quad_Coord.mk 3 0]

/-- The geometry that is aligned with a node list: position `i` holds the coordinate that the
map has for node `i`, or `(0, 0)` when the node is not in the map. -/
def aligned_geometry (m : Node_Idx_By_Id) (nds : List Nat) : List Quad_Coord :=
  nds.map (fun n => (List.lookup n m).getD (Quad_Coord.mk 0 0))
/-! # Theorems -/

/-! ## Lemmas on `compute_idx_and_geometry` -/

theorem first_not_expired_eq_find (e : Nat) (vs : List Node_Version) :
    first_not_expired e vs = vs.find? (fun v => decide (e ≤ v.timestamp)) := by
  induction vs with
  | nil => rfl
  | cons v vs ih =>
    by_cases h : v.timestamp < e
    · have h2 : ¬ e ≤ v.timestamp := by omega
      simp [first_not_expired, h, h2, ih]
    · have h2 : e ≤ v.timestamp := by omega
      simp [first_not_expired, h, h2]

theorem collect_geometry_step (nodes_by_id : Nodes_By_Id) (e : Nat) (nd : Nat)
    (geometry : List Quad_Coord) :
    (match List.lookup nd nodes_by_id with
      | some (v :: vs) =>
        match first_not_expired e (v :: vs) with
        | some s => geometry ++ [Quad_Coord.mk s.idx s.ll_lower]
        | none => geometry
      | _ => geometry)
      = geometry ++ ((selected_snapshot nodes_by_id e nd).map snapshot_coord).toList := by
  unfold selected_snapshot
  cases hl : List.lookup nd nodes_by_id with
  | none => simp
  | some vs =>
    cases vs with
    | nil => simp
    | cons v vs =>
      simp only [first_not_expired_eq_find]
      cases hf : List.find? (fun v => decide (e ≤ v.timestamp)) (v :: vs) with
      | none => simp
      | some s => simp [snapshot_coord]

theorem collect_geometry_foldl (nodes_by_id : Nodes_By_Id) (e : Nat) (nds : List Nat)
    (acc : List Quad_Coord) :
    nds.foldl (fun geometry nd =>
      match List.lookup nd nodes_by_id with
      | some (v :: vs) =>
        match first_not_expired e (v :: vs) with
        | some s => geometry ++ [Quad_Coord.mk s.idx s.ll_lower]
        | none => geometry
      | _ => geometry) acc
      = acc ++ nds.filterMap (fun nd => (selected_snapshot nodes_by_id e nd).map snapshot_coord) := by
  induction nds generalizing acc with
  | nil => simp
  | cons nd nds ih =>
    rw [List.foldl_cons, collect_geometry_step, ih]
    cases hs : selected_snapshot nodes_by_id e nd with
    | none => simp [List.filterMap_cons, hs]
    | some s => simp [List.filterMap_cons, hs]

theorem collect_geometry_eq (nds : List Nat) (e : Nat) (nodes_by_id : Nodes_By_Id) :
    collect_geometry nds e nodes_by_id
      = nds.filterMap (fun nd => (selected_snapshot nodes_by_id e nd).map snapshot_coord) := by
  unfold collect_geometry
  rw [collect_geometry_foldl]
  simp

theorem foldl_push_eq_map {α β : Type} (f : α → β) (l : List α) (acc : List β) :
    l.foldl (fun acc c => acc ++ [f c]) acc = acc ++ l.map f := by
  induction l generalizing acc with
  | nil => simp
  | cons a l ih => simp [ih]

/-! ## Lemmas on lists of timestamps -/

theorem unique_cons_cons (a b : Nat) (l : List Nat) :
    unique (a :: b :: l) = if a = b then unique (b :: l) else a :: unique (b :: l) := rfl

theorem mem_unique (x : Nat) (l : List Nat) : x ∈ unique l ↔ x ∈ l := by
  induction l with
  | nil => simp [unique]
  | cons a l ih =>
    cases l with
    | nil => simp [unique]
    | cons b l' =>
      rw [unique_cons_cons]
      by_cases h : a = b
      · subst h
        rw [if_pos rfl, ih]
        simp
      · rw [if_neg h, List.mem_cons, ih]
        simp

theorem unique_strict (l : List Nat) (hs : l.Pairwise (fun a b => a ≤ b)) :
    (unique l).Pairwise (fun a b => a < b) := by
  induction l with
  | nil => simp [unique]
  | cons a l ih =>
    cases l with
    | nil => simp [unique]
    | cons b l' =>
      have hs' := List.pairwise_cons.mp hs
      rw [unique_cons_cons]
      by_cases h : a = b
      · rw [if_pos h]
        exact ih hs'.2
      · rw [if_neg h]
        refine List.pairwise_cons.mpr ⟨?_, ih hs'.2⟩
        intro x hx
        rw [mem_unique] at hx
        have hab : a ≤ b := hs'.1 b (by simp)
        have hbx : b ≤ x := by
          rcases List.mem_cons.mp hx with hxb | hxl
          · omega
          · exact (List.pairwise_cons.mp hs'.2).1 x hxl
        omega

theorem window_inner_foldl (old new : Nat) (vs : List Node_Version) (rel : List Nat) :
    vs.foldl (fun rel v =>
        if old < v.timestamp ∧ v.timestamp ≤ new then rel ++ [v.timestamp] else rel) rel
      = rel ++ (vs.filter (fun v => decide (old < v.timestamp ∧ v.timestamp ≤ new))).map
          (fun v => v.timestamp) := by
  induction vs generalizing rel with
  | nil => simp
  | cons v vs ih =>
    rw [List.foldl_cons, ih]
    by_cases h : old < v.timestamp ∧ v.timestamp ≤ new
    · simp [h, List.filter_cons]
    · simp [h, List.filter_cons]

theorem mem_window_foldl (old new : Nat) (nodes_by_id : Nodes_By_Id) (nds : List Nat)
    (rel : List Nat) (t : Nat) :
    t ∈ nds.foldl (fun rel nd =>
      match List.lookup nd nodes_by_id with
      | some (v :: vs) =>
        (v :: vs).foldl (fun rel v =>
          if old < v.timestamp ∧ v.timestamp ≤ new then rel ++ [v.timestamp] else rel) rel
      | _ => rel) rel
    ↔ t ∈ rel ∨ snapshot_in_window nds old new nodes_by_id t := by
  induction nds generalizing rel with
  | nil => simp [snapshot_in_window]
  | cons nd nds ih =>
    rw [List.foldl_cons, ih]
    have hsplit : snapshot_in_window (nd :: nds) old new nodes_by_id t ↔
        (∃ v ∈ (List.lookup nd nodes_by_id).getD [], v.timestamp = t ∧ old < t ∧ t ≤ new)
        ∨ snapshot_in_window nds old new nodes_by_id t := by
      simp [snapshot_in_window]
    rw [hsplit]
    cases hl : List.lookup nd nodes_by_id with
    | none => simp
    | some vs =>
      cases vs with
      | nil => simp
      | cons v vs =>
        simp only [window_inner_foldl, List.mem_append, List.mem_map, List.mem_filter,
          decide_eq_true_eq, Option.getD_some]
        constructor
        · rintro ((h | ⟨w, ⟨hw, h1, h2⟩, rfl⟩) | h)
          · exact Or.inl h
          · exact Or.inr (Or.inl ⟨w, hw, rfl, h1, h2⟩)
          · exact Or.inr (Or.inr h)
        · rintro (h | ⟨w, hw, rfl, h1, h2⟩ | h)
          · exact Or.inl (Or.inl h)
          · exact Or.inl (Or.inr ⟨w, ⟨hw, h1, h2⟩, rfl⟩)
          · exact Or.inr h

theorem mem_window_timestamps (nds : List Nat) (old new : Nat) (nodes_by_id : Nodes_By_Id)
    (t : Nat) :
    t ∈ window_timestamps nds old new nodes_by_id ↔ snapshot_in_window nds old new nodes_by_id t := by
  unfold window_timestamps
  rw [mem_window_foldl]
  simp

theorem mem_relevant_timestamps (nds : List Nat) (old new : Nat) (nodes_by_id : Nodes_By_Id)
    (t : Nat) :
    t ∈ relevant_timestamps nds old new nodes_by_id
      ↔ snapshot_in_window nds old new nodes_by_id t := by
  unfold relevant_timestamps
  rw [mem_unique, List.mem_insertionSort, mem_window_timestamps]

theorem relevant_timestamps_strict (nds : List Nat) (old new : Nat) (nodes_by_id : Nodes_By_Id) :
    (relevant_timestamps nds old new nodes_by_id).Pairwise (fun a b => a < b) := by
  unfold relevant_timestamps
  apply unique_strict
  exact List.sorted_insertionSort (fun a b => a ≤ b) _

theorem relevant_timestamps_le (nds : List Nat) (old new : Nat) (nodes_by_id : Nodes_By_Id)
    (t : Nat) (ht : t ∈ relevant_timestamps nds old new nodes_by_id) : old < t ∧ t ≤ new := by
  rw [mem_relevant_timestamps] at ht
  obtain ⟨nd, _, v, _, _, h1, h2⟩ := ht
  exact ⟨h1, h2⟩

theorem pop_back_if_nil (m : Nat) : pop_back_if [] m = [] := by
  simp [pop_back_if]

theorem pop_back_if_concat (l : List Nat) (a m : Nat) :
    pop_back_if (l ++ [a]) m = if a = m then l else l ++ [a] := by
  unfold pop_back_if
  by_cases h : a = m
  · simp [h]
  · simp [h]

theorem getLast_concat_iff (l : List Nat) (a m : Nat) :
    (l ++ [a]).getLast? = some m ↔ a = m := by
  simp

theorem mem_pop_back_if (l : List Nat) (m x : Nat) (hs : l.Pairwise (fun a b => a < b))
    (hb : ∀ y ∈ l, y ≤ m) : x ∈ pop_back_if l m ↔ x ∈ l ∧ x ≠ m := by
  rcases List.eq_nil_or_concat l with rfl | ⟨l', a, rfl⟩
  · simp [pop_back_if_nil]
  · rw [List.concat_eq_append] at hs hb ⊢
    rw [pop_back_if_concat]
    have hlt : ∀ y ∈ l', y < a := by
      intro y hy
      have := List.pairwise_append.mp hs
      exact this.2.2 y hy a (by simp)
    have ha : a ≤ m := hb a (by simp)
    by_cases h : a = m
    · subst h
      rw [if_pos rfl]
      constructor
      · intro hx
        exact ⟨by simp [hx], by have := hlt x hx; omega⟩
      · rintro ⟨hx, hne⟩
        rcases List.mem_append.mp hx with h1 | h1
        · exact h1
        · simp at h1
          exact absurd h1 hne
    · rw [if_neg h]
      constructor
      · intro hx
        refine ⟨hx, ?_⟩
        rcases List.mem_append.mp hx with h1 | h1
        · have := hlt x h1
          omega
        · simp at h1
          omega
      · exact fun hx => hx.1

theorem pop_back_if_sublist (l : List Nat) (m : Nat) : (pop_back_if l m).Sublist l := by
  unfold pop_back_if
  split
  · exact List.dropLast_sublist l
  · exact List.Sublist.refl l

theorem pop_back_if_strict (l : List Nat) (m : Nat) (hs : l.Pairwise (fun a b => a < b)) :
    (pop_back_if l m).Pairwise (fun a b => a < b) :=
  List.Pairwise.sublist (pop_back_if_sublist l m) hs

theorem mem_of_mem_pop_back_if (l : List Nat) (m x : Nat) (h : x ∈ pop_back_if l m) : x ∈ l :=
  (pop_back_if_sublist l m).subset h

theorem getLast_eq_iff_mem (l : List Nat) (m : Nat) (hs : l.Pairwise (fun a b => a < b))
    (hb : ∀ y ∈ l, y ≤ m) : l.getLast? = some m ↔ m ∈ l := by
  rcases List.eq_nil_or_concat l with rfl | ⟨l', a, rfl⟩
  · simp
  · rw [List.concat_eq_append] at hs hb ⊢
    rw [getLast_concat_iff]
    have hlt : ∀ y ∈ l', y < a := by
      intro y hy
      have := List.pairwise_append.mp hs
      exact this.2.2 y hy a (by simp)
    have ha : a ≤ m := hb a (by simp)
    constructor
    · intro h
      simp [h]
    · intro h
      rcases List.mem_append.mp h with h1 | h1
      · have := hlt m h1
        omega
      · simp at h1
        exact h1.symm

/-! ## Lemmas on `map_set_insert` -/

theorem map_set_insert_subset {κ ν : Type} [DecidableEq κ] (same : ν → ν → Bool)
    (m : List (κ × ν)) (k : κ) (v : ν) (x : κ × ν) (hx : x ∈ m) :
    x ∈ map_set_insert same m k v := by
  unfold map_set_insert
  split
  · exact hx
  · exact List.mem_append.mpr (Or.inl hx)

theorem mem_map_set_insert {κ ν : Type} [DecidableEq κ] (same : ν → ν → Bool)
    (m : List (κ × ν)) (k : κ) (v : ν) (x : κ × ν) (hx : x ∈ map_set_insert same m k v) :
    x ∈ m ∨ x = (k, v) := by
  unfold map_set_insert at hx
  split at hx
  · exact Or.inl hx
  · rcases List.mem_append.mp hx with h | h
    · exact Or.inl h
    · right
      simpa using h

theorem map_set_insert_present {κ ν : Type} [DecidableEq κ] (same : ν → ν → Bool)
    (hrefl : ∀ a, same a a = true) (m : List (κ × ν)) (k : κ) (v : ν) :
    ∃ y ∈ map_set_insert same m k v, y.1 = k ∧ same y.2 v = true := by
  unfold map_set_insert
  split
  · rename_i h
    rw [List.any_eq_true] at h
    obtain ⟨y, hy, hc⟩ := h
    simp only [Bool.and_eq_true, decide_eq_true_eq] at hc
    exact ⟨y, hy, hc.1, hc.2⟩
  · exact ⟨(k, v), by simp, rfl, hrefl v⟩

theorem map_set_insert_fresh {κ ν : Type} [DecidableEq κ] (same : ν → ν → Bool)
    (m : List (κ × ν)) (k : κ) (v : ν) (h : ∀ p ∈ m, p.1 = k → same p.2 v = false) :
    map_set_insert same m k v = m ++ [(k, v)] := by
  unfold map_set_insert
  rw [if_neg]
  intro hany
  rw [List.any_eq_true] at hany
  obtain ⟨y, hy, hc⟩ := hany
  simp only [Bool.and_eq_true, decide_eq_true_eq] at hc
  have := h y hy hc.1
  rw [this] at hc
  exact absurd hc.2 (by simp)

theorem mem_map_set_insert_fresh_iff {κ ν : Type} [DecidableEq κ] (same : ν → ν → Bool)
    (m : List (κ × ν)) (k : κ) (v : ν) (x : κ × ν) :
    x ∈ map_set_insert same m k v
      ↔ x ∈ m ∨ (x = (k, v) ∧ ∀ p ∈ m, p.1 = k → same p.2 v = false) := by
  by_cases hf : ∀ p ∈ m, p.1 = k → same p.2 v = false
  · rw [map_set_insert_fresh same m k v hf, List.mem_append, List.mem_singleton]
    exact ⟨fun h => h.imp id (fun h1 => ⟨h1, hf⟩), fun h => h.imp id (fun h1 => h1.1)⟩
  · have hm : map_set_insert same m k v = m := by
      unfold map_set_insert
      rw [if_pos]
      rw [List.any_eq_true]
      simp only [not_forall] at hf
      obtain ⟨p, hp, hk, hs⟩ := hf
      refine ⟨p, hp, ?_⟩
      simp only [Bool.and_eq_true, decide_eq_true_eq]
      exact ⟨hk, by simpa using hs⟩
    rw [hm]
    exact ⟨fun h => Or.inl h, fun h => h.elim id (fun h1 => absurd h1.2 hf)⟩

theorem mem_map_set_insert_iff {κ ν : Type} [DecidableEq κ] (same : ν → ν → Bool)
    (heq : ∀ a b, same a b = true ↔ a = b) (m : List (κ × ν)) (k : κ) (v : ν) (x : κ × ν) :
    x ∈ map_set_insert same m k v ↔ x ∈ m ∨ x = (k, v) := by
  constructor
  · exact mem_map_set_insert same m k v x
  · rintro (h | h)
    · exact map_set_insert_subset same m k v x h
    · obtain ⟨y, hy, h1, h2⟩ := map_set_insert_present same (fun a => (heq a a).mpr rfl) m k v
      have h3 : y.2 = v := (heq _ _).mp h2
      have : y = (k, v) := Prod.ext h1 h3
      rw [h, ← this]
      exact hy

theorem same_attic_id_iff (a b : Attic Nat) : same_attic_id a b = true ↔ a = b := by
  cases a
  cases b
  simp [same_attic_id]

theorem same_idx_iff (a b : Nat) : same_idx a b = true ↔ a = b := by
  simp [same_idx]

theorem same_attic_delta_refl (a : Attic Way_Delta) : same_attic_delta a a = true := by
  simp [same_attic_delta]

theorem same_attic_delta_timestamp (a b : Attic Way_Delta) (h : same_attic_delta a b = true) :
    a.timestamp = b.timestamp := by
  simp [same_attic_delta] at h
  exact h.2

/-! ## The stores after one call are the stores after its steps -/

theorem reverse_walk_stores (E : Env) (sk : Way_Skeleton) (nb : Nodes_By_Id) (a : Nat)
    (ts : List Nat) (li : Nat) (ls : Way_Skeleton) (st : Attic_Stores) :
    (reverse_walk E sk nb a ts li ls st).2.2
      = (walk_steps E sk nb a ts li ls).foldl (apply_step E sk.id) st := by
  induction ts generalizing li ls st with
  | nil => rfl
  | cons t rest ih =>
    simp only [reverse_walk, walk_steps, List.foldl_cons]
    rw [ih]
    rfl

theorem add_intermediate_versions_stores (E : Env) (sk ref : Way_Skeleton) (old new : Nat)
    (nb : Nodes_By_Id) (alv : Bool) (a : Nat) (st : Attic_Stores) :
    (add_intermediate_versions E sk ref old new nb alv a st).2.2
      = (all_steps E sk ref old new nb alv a).foldl (apply_step E sk.id) st := by
  unfold add_intermediate_versions all_steps
  simp only [reverse_walk_stores]
  by_cases h : upper_endpoint_due sk.nds old new nb alv
  · simp only [h, if_true, List.singleton_append, List.foldl_cons]
    rfl
  · simp only [h, if_false, List.nil_append]

theorem walk_steps_timestamps (E : Env) (sk : Way_Skeleton) (nb : Nodes_By_Id) (a : Nat)
    (ts : List Nat) (li : Nat) (ls : Way_Skeleton) :
    (walk_steps E sk nb a ts li ls).map (fun s => s.timestamp) = ts := by
  induction ts generalizing li ls with
  | nil => rfl
  | cons t rest ih => simp [walk_steps, ih]

theorem all_steps_timestamps (E : Env) (sk ref : Way_Skeleton) (old new : Nat)
    (nb : Nodes_By_Id) (alv : Bool) (a : Nat) :
    (all_steps E sk ref old new nb alv a).map (fun s => s.timestamp)
      = (if upper_endpoint_due sk.nds old new nb alv then [new] else [])
        ++ (walk_timestamps sk.nds old new nb alv).reverse := by
  unfold all_steps
  rw [List.map_append, walk_steps_timestamps]
  by_cases h : upper_endpoint_due sk.nds old new nb alv
  · simp [h]
  · simp [h]

theorem apply_step_full_attic (E : Env) (id : Nat) (st : Attic_Stores) (s : Walk_Step) :
    (apply_step E id st s).full_attic
      = map_set_insert same_attic_delta st.full_attic s.idx (step_record E s).2 := by
  unfold apply_step store_version step_record step_delta
  by_cases h : s.idx = s.last_idx
  · simp [h]
  · simp [h]

theorem apply_step_new_undeleted (E : Env) (id : Nat) (st : Attic_Stores) (s : Walk_Step) :
    (apply_step E id st s).new_undeleted
      = if ¬ s.idx = s.last_idx ∧ ¬ s.last_idx = 0xfe then
          map_set_insert same_attic_id st.new_undeleted s.last_idx (Attic.mk id s.timestamp)
        else st.new_undeleted := rfl

theorem apply_step_idx_lists (E : Env) (id : Nat) (st : Attic_Stores) (s : Walk_Step) :
    (apply_step E id st s).idx_lists = map_set_insert same_idx st.idx_lists id s.idx := rfl

theorem mem_steps_new_undeleted (E : Env) (id : Nat) (steps : List Walk_Step) (st : Attic_Stores)
    (x : Nat × Attic Nat) :
    x ∈ (steps.foldl (apply_step E id) st).new_undeleted ↔
      x ∈ st.new_undeleted ∨
        ∃ s ∈ steps, s.idx ≠ s.last_idx ∧ s.last_idx ≠ 0xfe
          ∧ x = (s.last_idx, Attic.mk id s.timestamp) := by
  induction steps generalizing st with
  | nil => simp
  | cons s steps ih =>
    rw [List.foldl_cons, ih, apply_step_new_undeleted]
    by_cases h : ¬ s.idx = s.last_idx ∧ ¬ s.last_idx = 0xfe
    · rw [if_pos h, mem_map_set_insert_iff same_attic_id same_attic_id_iff]
      constructor
      · rintro ((h1 | h1) | ⟨s', hs', h1⟩)
        · exact Or.inl h1
        · exact Or.inr ⟨s, by simp, h.1, h.2, h1⟩
        · exact Or.inr ⟨s', by simp [hs'], h1⟩
      · rintro (h1 | ⟨s', hs', h1⟩)
        · exact Or.inl (Or.inl h1)
        · rcases List.mem_cons.mp hs' with rfl | h2
          · exact Or.inl (Or.inr h1.2.2)
          · exact Or.inr ⟨s', h2, h1⟩
    · rw [if_neg h]
      constructor
      · rintro (h1 | ⟨s', hs', h1⟩)
        · exact Or.inl h1
        · exact Or.inr ⟨s', by simp [hs'], h1⟩
      · rintro (h1 | ⟨s', hs', h1⟩)
        · exact Or.inl h1
        · rcases List.mem_cons.mp hs' with rfl | h2
          · exact absurd ⟨h1.1, h1.2.1⟩ h
          · exact Or.inr ⟨s', h2, h1⟩

theorem mem_steps_idx_lists (E : Env) (id : Nat) (steps : List Walk_Step) (st : Attic_Stores)
    (x : Nat × Nat) :
    x ∈ (steps.foldl (apply_step E id) st).idx_lists ↔
      x ∈ st.idx_lists ∨ ∃ s ∈ steps, x = (id, s.idx) := by
  induction steps generalizing st with
  | nil => simp
  | cons s steps ih =>
    rw [List.foldl_cons, ih, apply_step_idx_lists,
      mem_map_set_insert_iff same_idx same_idx_iff]
    constructor
    · rintro ((h1 | h1) | ⟨s', hs', h1⟩)
      · exact Or.inl h1
      · exact Or.inr ⟨s, by simp, h1⟩
      · exact Or.inr ⟨s', by simp [hs'], h1⟩
    · rintro (h1 | ⟨s', hs', h1⟩)
      · exact Or.inl (Or.inl h1)
      · rcases List.mem_cons.mp hs' with rfl | h2
        · exact Or.inl (Or.inr h1)
        · exact Or.inr ⟨s', h2, h1⟩

theorem steps_full_attic_subset (E : Env) (id : Nat) (steps : List Walk_Step) (st : Attic_Stores)
    (x : Nat × Attic Way_Delta) (hx : x ∈ st.full_attic) :
    x ∈ (steps.foldl (apply_step E id) st).full_attic := by
  induction steps generalizing st with
  | nil => exact hx
  | cons s steps ih =>
    rw [List.foldl_cons]
    apply ih
    rw [apply_step_full_attic]
    exact map_set_insert_subset _ _ _ _ _ hx

theorem mem_steps_full_attic (E : Env) (id : Nat) (steps : List Walk_Step) (st : Attic_Stores)
    (x : Nat × Attic Way_Delta) (hx : x ∈ (steps.foldl (apply_step E id) st).full_attic) :
    x ∈ st.full_attic ∨ ∃ s ∈ steps, x = step_record E s := by
  induction steps generalizing st with
  | nil => exact Or.inl hx
  | cons s steps ih =>
    rw [List.foldl_cons] at hx
    rcases ih _ hx with h | ⟨s', hs', h⟩
    · rw [apply_step_full_attic] at h
      rcases mem_map_set_insert _ _ _ _ _ h with h1 | h1
      · exact Or.inl h1
      · exact Or.inr ⟨s, by simp, h1⟩
    · exact Or.inr ⟨s', by simp [hs'], h⟩

theorem steps_full_attic_present (E : Env) (id : Nat) (steps : List Walk_Step) (st : Attic_Stores)
    (s : Walk_Step) (hs : s ∈ steps) :
    ∃ y ∈ (steps.foldl (apply_step E id) st).full_attic,
      y.1 = s.idx ∧ same_attic_delta y.2 (step_record E s).2 = true := by
  induction steps generalizing st with
  | nil => simp at hs
  | cons s' steps ih =>
    rw [List.foldl_cons]
    rcases List.mem_cons.mp hs with rfl | h
    · obtain ⟨y, hy, h1, h2⟩ := map_set_insert_present same_attic_delta same_attic_delta_refl
        st.full_attic s.idx (step_record E s).2
      refine ⟨y, ?_, h1, h2⟩
      apply steps_full_attic_subset
      rw [apply_step_full_attic]
      exact hy
    · exact ih _ h

theorem steps_full_attic_fresh (E : Env) (id : Nat) (steps : List Walk_Step) (st : Attic_Stores)
    (hnodup : (steps.map (fun s => s.timestamp)).Nodup)
    (hfresh : ∀ p ∈ st.full_attic, ∀ s ∈ steps,
      same_attic_delta p.2 (step_record E s).2 = false) :
    (steps.foldl (apply_step E id) st).full_attic
      = st.full_attic ++ steps.map (step_record E) := by
  induction steps generalizing st with
  | nil => simp
  | cons s steps ih =>
    rw [List.foldl_cons]
    have hins : (apply_step E id st s).full_attic = st.full_attic ++ [step_record E s] := by
      rw [apply_step_full_attic]
      apply map_set_insert_fresh
      intro p hp _
      exact hfresh p hp s (by simp)
    rw [List.map_cons, List.nodup_cons] at hnodup
    rw [ih _ hnodup.2, hins]
    · simp
    · intro p hp s' hs'
      rw [hins] at hp
      rcases List.mem_append.mp hp with h | h
      · exact hfresh p h s' (by simp [hs'])
      · simp only [List.mem_singleton] at h
        subst h
        have hne : s.timestamp ≠ s'.timestamp := by
          intro heq
          apply hnodup.1
          rw [heq]
          exact List.mem_map_of_mem (fun s => s.timestamp) hs'
        simp [same_attic_delta, step_record, hne]

/-! ## The timestamps of the steps of one call -/

theorem mem_pop_now (nds : List Nat) (old new : Nat) (nb : Nodes_By_Id) (hnew : new ≤ NOW)
    (t : Nat) :
    t ∈ pop_back_if (relevant_timestamps nds old new nb) NOW
      ↔ snapshot_in_window nds old new nb t ∧ t ≠ NOW := by
  rw [mem_pop_back_if _ _ _ (relevant_timestamps_strict nds old new nb), mem_relevant_timestamps]
  intro y hy
  have := relevant_timestamps_le nds old new nb y hy
  omega

theorem pop_now_le (nds : List Nat) (old new : Nat) (nb : Nodes_By_Id) (t : Nat)
    (ht : t ∈ pop_back_if (relevant_timestamps nds old new nb) NOW) : old < t ∧ t ≤ new :=
  relevant_timestamps_le nds old new nb t (mem_of_mem_pop_back_if _ _ _ ht)

theorem pop_now_strict (nds : List Nat) (old new : Nat) (nb : Nodes_By_Id) :
    (pop_back_if (relevant_timestamps nds old new nb) NOW).Pairwise (fun a b => a < b) :=
  pop_back_if_strict _ _ (relevant_timestamps_strict nds old new nb)

theorem mem_pop_new (nds : List Nat) (old new : Nat) (nb : Nodes_By_Id) (t : Nat) :
    t ∈ pop_back_if (pop_back_if (relevant_timestamps nds old new nb) NOW) new
      ↔ t ∈ pop_back_if (relevant_timestamps nds old new nb) NOW ∧ t ≠ new :=
  mem_pop_back_if _ _ _ (pop_now_strict nds old new nb)
    (fun y hy => (pop_now_le nds old new nb y hy).2)

theorem upper_endpoint_due_iff (nds : List Nat) (old new : Nat) (nb : Nodes_By_Id) (alv : Bool) :
    upper_endpoint_due nds old new nb alv ↔
      (alv = true ∧ old < new)
        ∨ new ∈ pop_back_if (relevant_timestamps nds old new nb) NOW := by
  unfold upper_endpoint_due
  rw [getLast_eq_iff_mem _ _ (pop_now_strict nds old new nb)
    (fun y hy => (pop_now_le nds old new nb y hy).2)]

theorem walk_timestamps_strict (nds : List Nat) (old new : Nat) (nb : Nodes_By_Id) (alv : Bool) :
    (walk_timestamps nds old new nb alv).Pairwise (fun a b => a < b) := by
  unfold walk_timestamps
  split
  · exact pop_back_if_strict _ _ (pop_now_strict nds old new nb)
  · exact pop_now_strict nds old new nb

theorem walk_timestamps_window (nds : List Nat) (old new : Nat) (nb : Nodes_By_Id) (alv : Bool)
    (t : Nat) (ht : t ∈ walk_timestamps nds old new nb alv) : old < t ∧ t ≤ new := by
  unfold walk_timestamps at ht
  split at ht
  · exact pop_now_le nds old new nb t (mem_of_mem_pop_back_if _ _ _ ht)
  · exact pop_now_le nds old new nb t ht

theorem all_steps_nodup (E : Env) (sk ref : Way_Skeleton) (old new : Nat) (nb : Nodes_By_Id)
    (alv : Bool) (a : Nat) :
    ((all_steps E sk ref old new nb alv a).map (fun s => s.timestamp)).Nodup := by
  rw [all_steps_timestamps]
  have hw : (walk_timestamps sk.nds old new nb alv).reverse.Nodup := by
    rw [List.nodup_reverse]
    exact (walk_timestamps_strict sk.nds old new nb alv).imp (fun h => Nat.ne_of_lt h)
  by_cases h : upper_endpoint_due sk.nds old new nb alv
  · rw [if_pos h, List.singleton_append, List.nodup_cons]
    refine ⟨?_, hw⟩
    rw [List.mem_reverse]
    unfold walk_timestamps
    rw [if_pos h, mem_pop_new]
    exact fun hc => hc.2 rfl
  · rw [if_neg h, List.nil_append]
    exact hw

theorem mem_all_steps_timestamps (E : Env) (sk ref : Way_Skeleton) (old new : Nat)
    (nb : Nodes_By_Id) (alv : Bool) (a : Nat) (hnew : new ≤ NOW) (t : Nat) :
    t ∈ (all_steps E sk ref old new nb alv a).map (fun s => s.timestamp) ↔
      (snapshot_in_window sk.nds old new nb t ∧ t ≠ NOW)
        ∨ (alv = true ∧ old < new ∧ t = new) := by
  rw [all_steps_timestamps]
  unfold walk_timestamps
  by_cases h : upper_endpoint_due sk.nds old new nb alv
  · rw [if_pos h, if_pos h, List.mem_append, List.mem_reverse, mem_pop_new,
      mem_pop_now _ _ _ _ hnew]
    rw [upper_endpoint_due_iff, mem_pop_now _ _ _ _ hnew] at h
    constructor
    · rintro (h1 | h1)
      · simp at h1
        subst h1
        rcases h with h2 | h2
        · exact Or.inr ⟨h2.1, h2.2, rfl⟩
        · exact Or.inl h2
      · exact Or.inl h1.1
    · rintro (h1 | h1)
      · by_cases ht : t = new
        · left
          simp [ht]
        · exact Or.inr ⟨h1, ht⟩
      · left
        simp [h1.2.2]
  · rw [if_neg h, if_neg h, List.nil_append, List.mem_reverse, mem_pop_now _ _ _ _ hnew]
    rw [upper_endpoint_due_iff] at h
    constructor
    · exact fun h1 => Or.inl h1
    · rintro (h1 | h1)
      · exact h1
      · exact absurd (Or.inl ⟨h1.1, h1.2.1⟩) h

theorem stores_from_empty (E : Env) (sk ref : Way_Skeleton) (old new : Nat) (nb : Nodes_By_Id)
    (alv : Bool) (a : Nat) (nu : List (Nat × Attic Nat)) (il : List (Nat × Nat)) :
    (add_intermediate_versions E sk ref old new nb alv a (Attic_Stores.mk [] nu il)).2.2.full_attic
      = (all_steps E sk ref old new nb alv a).map (step_record E) := by
  rw [add_intermediate_versions_stores,
    steps_full_attic_fresh E sk.id _ _ (all_steps_nodup E sk ref old new nb alv a)]
  · simp
  · intro p hp
    simp at hp

/-! ## Claims on `compute_idx_and_geometry` -/

theorem collect_geometry_selected (nds : List Nat) (e : Nat) (nb : Nodes_By_Id) :
    collect_geometry nds e nb = (nds.filterMap (selected_snapshot nb e)).map snapshot_coord := by
  rw [collect_geometry_eq, List.map_filterMap]

/-- Claim C7. The bucket returned by `compute_idx_and_geometry` is `calc_index` of the buckets of
the snapshots selected for the nodes of the way, in node order, nodes without a selected snapshot
contributing nothing; the geometry becomes the list of the selected coordinates when
`indicates_geometry` holds for that bucket and is empty otherwise; id and node list are kept. The
resolver is a read-only argument. -/
theorem compute_idx_and_geometry_result (E : Env) (sk : Way_Skeleton) (e : Nat)
    (nb : Nodes_By_Id) :
    (compute_idx_and_geometry E sk e nb).1
        = E.calc_index ((sk.nds.filterMap (selected_snapshot nb e)).map (fun s => s.idx))
    ∧ (compute_idx_and_geometry E sk e nb).2.geometry
        = (if E.indicates_geometry (compute_idx_and_geometry E sk e nb).1 = true
            then (sk.nds.filterMap (selected_snapshot nb e)).map snapshot_coord else [])
    ∧ (compute_idx_and_geometry E sk e nb).2.id = sk.id
    ∧ (compute_idx_and_geometry E sk e nb).2.nds = sk.nds := by
  have hidx : (compute_idx_and_geometry E sk e nb).1
      = E.calc_index ((sk.nds.filterMap (selected_snapshot nb e)).map (fun s => s.idx)) := by
    unfold compute_idx_and_geometry
    simp only [foldl_push_eq_map, collect_geometry_selected, List.nil_append, List.map_map]
    split <;> rfl
  refine ⟨hidx, ?_, ?_, ?_⟩
  · rw [hidx]
    unfold compute_idx_and_geometry
    simp only [foldl_push_eq_map, collect_geometry_selected, List.nil_append, List.map_map]
    have hc : (fun c : Quad_Coord => c.ll_upper) ∘ snapshot_coord = fun s => s.idx := rfl
    rw [hc]
    split <;> rfl
  · unfold compute_idx_and_geometry
    simp only
    split <;> rfl
  · unfold compute_idx_and_geometry
    simp only
    split <;> rfl

/-- Claim C8, counterexample. For a node with snapshots stamped 5 (bucket 3) and 10 (bucket 4)
the code uses, at time 7, the snapshot stamped 10, while the youngest snapshot with a timestamp
below 7 is the one stamped 5; and for a node whose only snapshot is stamped 10 the code uses that
snapshot at time 7 although no snapshot has a timestamp below 7. -/
theorem effective_snapshot_counterexample :
    (compute_idx_and_geometry demo_env (Way_Skeleton.mk 9 [1] []) 7
        [(1, [Node_Version.mk 3 1 0 5, Node_Version.mk 4 1 0 10])]).2.geometry
      = [Quad_Coord.mk 4 0]
    ∧ geometry_by_spec [1] 7 [(1, [Node_Version.mk 3 1 0 5, Node_Version.mk 4 1 0 10])]
      = [Quad_Coord.mk 3 0]
    ∧ (compute_idx_and_geometry demo_env (Way_Skeleton.mk 9 [1] []) 7
        [(1, [Node_Version.mk 4 1 0 10])]).2.geometry = [Quad_Coord.mk 4 0]
    ∧ geometry_by_spec [1] 7 [(1, [Node_Version.mk 4 1 0 10])] = [] := by
  decide

/-- Claim C8, amended. For every node of the way with a time-sorted snapshot list in the
resolver, `compute_idx_and_geometry` at time `e` uses the first snapshot of the list whose
timestamp is not below `e`, which is the oldest snapshot that has not expired before `e`; a node
all of whose snapshots are stamped below `e` is skipped. -/
theorem selected_snapshot_oldest_unexpired (sk : Way_Skeleton) (e : Nat) (nb : Nodes_By_Id)
    (nd : Nat) (vs : List Node_Version) (hl : List.lookup nd nb = some vs)
    (hs : vs.Pairwise (fun a b => a.timestamp ≤ b.timestamp)) :
    collect_geometry sk.nds e nb = (sk.nds.filterMap (selected_snapshot nb e)).map snapshot_coord
    ∧ (∀ s, selected_snapshot nb e nd = some s →
        s ∈ vs ∧ e ≤ s.timestamp ∧ ∀ v ∈ vs, e ≤ v.timestamp → s.timestamp ≤ v.timestamp)
    ∧ (selected_snapshot nb e nd = none ↔ ∀ v ∈ vs, v.timestamp < e) := by
  refine ⟨collect_geometry_selected _ _ _, ?_, ?_⟩
  · intro s hsel
    unfold selected_snapshot at hsel
    rw [hl] at hsel
    simp only at hsel
    have hmem := List.mem_of_find?_eq_some hsel
    have hp := List.find?_some hsel
    simp only [decide_eq_true_eq] at hp
    refine ⟨hmem, hp, ?_⟩
    intro v hv hev
    clear hl
    induction vs with
    | nil => simp at hv
    | cons u us ih =>
      have hs' := List.pairwise_cons.mp hs
      rw [List.find?_cons] at hsel
      by_cases hu : e ≤ u.timestamp
      · simp only [hu, decide_True] at hsel
        have hus : u = s := by simpa using hsel
        subst hus
        rcases List.mem_cons.mp hv with rfl | h
        · exact Nat.le_refl _
        · exact hs'.1 v h
      · simp only [hu, decide_False] at hsel
        rcases List.mem_cons.mp hv with rfl | h
        · exact absurd hev hu
        · exact ih hs'.2 hsel (List.mem_of_find?_eq_some hsel) h
  · unfold selected_snapshot
    rw [hl]
    simp only [List.find?_eq_none, decide_eq_true_eq, Nat.not_le]

/-- Witness for claim C8 (amended): a node with snapshots stamped 5 and 10, asked at time 7. -/
theorem selected_snapshot_oldest_unexpired_witness :
    List.lookup 1 [(1, [Node_Version.mk 3 1 0 5, Node_Version.mk 4 1 0 10])]
        = some [Node_Version.mk 3 1 0 5, Node_Version.mk 4 1 0 10]
    ∧ [Node_Version.mk 3 1 0 5, Node_Version.mk 4 1 0 10].Pairwise
        (fun a b => a.timestamp ≤ b.timestamp)
    ∧ (collect_geometry (Way_Skeleton.mk 9 [1] []).nds 7
          [(1, [Node_Version.mk 3 1 0 5, Node_Version.mk 4 1 0 10])]
        = ((Way_Skeleton.mk 9 [1] []).nds.filterMap (selected_snapshot
            [(1, [Node_Version.mk 3 1 0 5, Node_Version.mk 4 1 0 10])] 7)).map snapshot_coord
      ∧ (∀ s, selected_snapshot [(1, [Node_Version.mk 3 1 0 5, Node_Version.mk 4 1 0 10])] 7 1
            = some s →
          s ∈ [Node_Version.mk 3 1 0 5, Node_Version.mk 4 1 0 10] ∧ 7 ≤ s.timestamp ∧
            ∀ v ∈ [Node_Version.mk 3 1 0 5, Node_Version.mk 4 1 0 10],
              7 ≤ v.timestamp → s.timestamp ≤ v.timestamp)
      ∧ (selected_snapshot [(1, [Node_Version.mk 3 1 0 5, Node_Version.mk 4 1 0 10])] 7 1 = none
          ↔ ∀ v ∈ [Node_Version.mk 3 1 0 5, Node_Version.mk 4 1 0 10], v.timestamp < 7)) :=
  ⟨by decide, by decide,
   selected_snapshot_oldest_unexpired (Way_Skeleton.mk 9 [1] []) 7
      [(1, [Node_Version.mk 3 1 0 5, Node_Version.mk 4 1 0 10])] 1
      [Node_Version.mk 3 1 0 5, Node_Version.mk 4 1 0 10] (by decide) (by decide)⟩

/-! ## Claims on `add_intermediate_versions` -/

/-- Claim C1. Started with an empty `full_attic`, `add_intermediate_versions` leaves an attic delta
stamped `t` in `full_attic` exactly if `t` is the timestamp of a resolver snapshot of a node of
the way with `old_timestamp < t <= new_timestamp` and `t != NOW`, or `t` is `new_timestamp`,
`add_last_version` holds and `old_timestamp < new_timestamp`. -/
theorem attic_timestamps_exact (E : Env) (sk ref : Way_Skeleton) (old new : Nat)
    (nb : Nodes_By_Id) (alv : Bool) (a : Nat) (nu : List (Nat × Attic Nat))
    (il : List (Nat × Nat)) (hnew : new ≤ NOW) (t : Nat) :
    (∃ p ∈ (add_intermediate_versions E sk ref old new nb alv a
        (Attic_Stores.mk [] nu il)).2.2.full_attic, p.2.timestamp = t)
    ↔ (snapshot_in_window sk.nds old new nb t ∧ t ≠ NOW)
        ∨ (alv = true ∧ old < new ∧ t = new) := by
  rw [stores_from_empty, ← mem_all_steps_timestamps E sk ref old new nb alv a hnew]
  simp only [List.mem_map, exists_exists_and_eq_and, step_record]

/-- Claim C2. An undelete entry `(b, (id, t))` is in `new_undeleted` after the call exactly if it
was there before, or it is the entry of the upper endpoint (`t = new_timestamp`, `b` the reference
bucket computed at `new_timestamp + 1`, the upper endpoint entry is due, the anchored bucket
differs from the reference bucket and the reference bucket is not `0xfe`), or it is the entry of a
step of the reverse walk (`t` the timestamp of the step, `b` the bucket of the next-younger step,
which differs from the bucket at `t` and is not `0xfe`); the id is always the id of the way. -/
theorem undelete_entries_exact (E : Env) (sk ref : Way_Skeleton) (old new : Nat)
    (nb : Nodes_By_Id) (alv : Bool) (a : Nat) (st : Attic_Stores) (b id t : Nat) :
    (b, Attic.mk id t) ∈ (add_intermediate_versions E sk ref old new nb alv a st).2.2.new_undeleted
    ↔ (b, Attic.mk id t) ∈ st.new_undeleted
      ∨ (id = sk.id ∧ t = new ∧ upper_endpoint_due sk.nds old new nb alv
          ∧ b = (reference_state E ref new nb).1
          ∧ (anchor E sk old new nb a).1 ≠ (reference_state E ref new nb).1
          ∧ (reference_state E ref new nb).1 ≠ 0xfe)
      ∨ (id = sk.id ∧ ∃ s ∈ walk_steps E sk nb a (walk_timestamps sk.nds old new nb alv).reverse
            (anchor E sk old new nb a).1 (anchor E sk old new nb a).2,
          s.timestamp = t ∧ b = s.last_idx ∧ s.idx ≠ s.last_idx ∧ s.last_idx ≠ 0xfe) := by
  rw [add_intermediate_versions_stores, mem_steps_new_undeleted]
  apply or_congr_right
  unfold all_steps
  by_cases h : upper_endpoint_due sk.nds old new nb alv
  · simp only [h, if_true, List.singleton_append, List.mem_cons, exists_eq_or_imp, Prod.mk.injEq,
      Attic.mk.injEq, true_and]
    apply or_congr
    · constructor
      · rintro ⟨h1, h2, h3, h4, h5⟩
        exact ⟨h4, h5, h3, h1, h2⟩
      · rintro ⟨h4, h5, h3, h1, h2⟩
        exact ⟨h1, h2, h3, h4, h5⟩
    · constructor
      · rintro ⟨s, hs, h1, h2, h3, h4, h5⟩
        exact ⟨h4, s, hs, h5.symm, h3, h1, h2⟩
      · rintro ⟨h4, s, hs, h5, h3, h1, h2⟩
        exact ⟨s, hs, h1, h2, h3, h4, h5.symm⟩
  · simp only [h, if_false, List.nil_append, Prod.mk.injEq, Attic.mk.injEq, false_and, and_false,
      false_or]
    constructor
    · rintro ⟨s, hs, h1, h2, h3, h4, h5⟩
      exact ⟨h4, s, hs, h5.symm, h3, h1, h2⟩
    · rintro ⟨h4, s, hs, h5, h3, h1, h2⟩
      exact ⟨s, hs, h1, h2, h3, h4, h5.symm⟩

/-- Claim C3. After a call of `add_intermediate_versions` the bucket list of the way holds the
buckets it held before together with exactly the buckets under which the call stores an attic
delta (the buckets of the records that the call leaves in an initially empty `full_attic`), the
bucket lists of all other ways are unchanged, and for each of these records `full_attic` holds
after the call, under the same bucket, a record with the same way id and timestamp. -/
theorem idx_lists_exact (E : Env) (sk ref : Way_Skeleton) (old new : Nat)
    (nb : Nodes_By_Id) (alv : Bool) (a : Nat) (st : Attic_Stores) (w b : Nat) :
    ((w, b) ∈ (add_intermediate_versions E sk ref old new nb alv a st).2.2.idx_lists
      ↔ (w, b) ∈ st.idx_lists
        ∨ (w = sk.id ∧ ∃ r, (b, r) ∈ (add_intermediate_versions E sk ref old new nb alv a
            (Attic_Stores.mk [] st.new_undeleted st.idx_lists)).2.2.full_attic))
    ∧ (∀ r, (b, r) ∈ (add_intermediate_versions E sk ref old new nb alv a
            (Attic_Stores.mk [] st.new_undeleted st.idx_lists)).2.2.full_attic →
        ∃ r', (b, r') ∈ (add_intermediate_versions E sk ref old new nb alv a st).2.2.full_attic
          ∧ r'.elem.id = r.elem.id ∧ r'.timestamp = r.timestamp) := by
  rw [stores_from_empty, add_intermediate_versions_stores]
  constructor
  · rw [mem_steps_idx_lists]
    apply or_congr_right
    simp only [Prod.mk.injEq, List.mem_map, step_record]
    constructor
    · rintro ⟨s, hs, h1, h2⟩
      exact ⟨h1, _, s, hs, h2.symm, rfl⟩
    · rintro ⟨h1, r, s, hs, h2, _⟩
      exact ⟨s, hs, h1, h2.symm⟩
  · intro r hr
    simp only [List.mem_map] at hr
    obtain ⟨s, hs, hrec⟩ := hr
    obtain ⟨y, hy, h1, h2⟩ := steps_full_attic_present E sk.id _ st s hs
    have hb : s.idx = b := congrArg Prod.fst hrec
    have hr2 : (step_record E s).2 = r := congrArg Prod.snd hrec
    rw [hr2] at h2
    simp only [same_attic_delta, Bool.and_eq_true, decide_eq_true_eq] at h2
    refine ⟨y.2, ?_, h2.1, h2.2⟩
    have : y = (b, y.2) := Prod.ext (h1.trans hb) rfl
    rw [← this]
    exact hy

/-- Claim C9. If `add_last_version` is false and no node of the way has a resolver snapshot with a
timestamp in `(old_timestamp, new_timestamp]` other than `NOW`, then `add_intermediate_versions`
leaves `full_attic`, `new_undeleted` and `idx_lists` exactly as they were. -/
theorem no_change_without_moves (E : Env) (sk ref : Way_Skeleton) (old new : Nat)
    (nb : Nodes_By_Id) (a : Nat) (st : Attic_Stores)
    (h : ∀ t, snapshot_in_window sk.nds old new nb t → t = NOW) :
    (add_intermediate_versions E sk ref old new nb false a st).2.2 = st := by
  have hrel : pop_back_if (relevant_timestamps sk.nds old new nb) NOW = [] := by
    rw [List.eq_nil_iff_forall_not_mem]
    intro x hx
    have hb : ∀ y ∈ relevant_timestamps sk.nds old new nb, y ≤ NOW := by
      intro y hy
      rw [mem_relevant_timestamps] at hy
      exact Nat.le_of_eq (h y hy)
    rw [mem_pop_back_if _ _ _ (relevant_timestamps_strict sk.nds old new nb) hb,
      mem_relevant_timestamps] at hx
    exact hx.2 (h x hx.1)
  have hup : ¬ upper_endpoint_due sk.nds old new nb false := by
    unfold upper_endpoint_due
    rw [hrel]
    simp
  rw [add_intermediate_versions_stores]
  unfold all_steps walk_timestamps
  simp [hup, hrel, walk_steps]

/-- Witness for claim C1: a way over nodes 10 and 11 in the window `(100, 200]`. -/
theorem attic_timestamps_exact_witness :
    200 ≤ NOW
    ∧ ((∃ p ∈ (add_intermediate_versions demo_env (Way_Skeleton.mk 1 [10, 11] [])
          (Way_Skeleton.mk 1 [10, 11, 12] []) 100 200 demo_nodes true 0
          (Attic_Stores.mk [] [] [])).2.2.full_attic, p.2.timestamp = 150)
      ↔ (snapshot_in_window (Way_Skeleton.mk 1 [10, 11] []).nds 100 200 demo_nodes 150
            ∧ 150 ≠ NOW)
          ∨ (true = true ∧ 100 < 200 ∧ 150 = 200)) :=
  ⟨by decide,
   attic_timestamps_exact demo_env (Way_Skeleton.mk 1 [10, 11] [])
     (Way_Skeleton.mk 1 [10, 11, 12] []) 100 200 demo_nodes true 0 [] [] (by decide) 150⟩

/-- Witness for claim C9: a way over node 11, which never moved, in the window `(100, NOW]`. -/
theorem no_change_without_moves_witness :
    (∀ t, snapshot_in_window (Way_Skeleton.mk 1 [11] []).nds 100 NOW demo_nodes t → t = NOW)
    ∧ (add_intermediate_versions demo_env (Way_Skeleton.mk 1 [11] []) Way_Skeleton.empty 100 NOW
        demo_nodes false 0 Attic_Stores.empty).2.2 = Attic_Stores.empty :=
  have h : ∀ t, snapshot_in_window (Way_Skeleton.mk 1 [11] []).nds 100 NOW demo_nodes t
      → t = NOW := by
    intro t ht
    rw [← mem_relevant_timestamps] at ht
    have hr : relevant_timestamps (Way_Skeleton.mk 1 [11] []).nds 100 NOW demo_nodes = [NOW] := by
      decide
    rw [hr] at ht
    simpa using ht
  ⟨h, no_change_without_moves demo_env (Way_Skeleton.mk 1 [11] []) Way_Skeleton.empty 100 NOW
    demo_nodes 0 Attic_Stores.empty h⟩

/-- Claim C10, counterexample. Node 10 of the way has a snapshot stamped 100 and `new_timestamp`
is 100, which is not `NOW`, but `old_timestamp` is 100 as well, so the window is empty and the
call inserts no attic delta at all, in particular none stamped `new_timestamp`. -/
theorem upper_endpoint_counterexample :
    (∃ v ∈ [Node_Version.mk 3 10 0 100, Node_Version.mk 3 10 1 NOW], v.timestamp = 100)
    ∧ List.lookup 10 demo_nodes_at_100
        = some [Node_Version.mk 3 10 0 100, Node_Version.mk 3 10 1 NOW]
    ∧ (100 : Nat) ≠ NOW
    ∧ (add_intermediate_versions demo_env (Way_Skeleton.mk 1 [10] [])
        (Way_Skeleton.mk 1 [10, 11] []) 100 100 demo_nodes_at_100 false 3
        Attic_Stores.empty).2.2.full_attic = [] := by
  decide

/-- Claim C10, amended. Started with an empty `full_attic`, the deltas inserted by one call of
`add_intermediate_versions` have pairwise distinct timestamps; and when a node of the way has a
snapshot stamped `new_timestamp`, `old_timestamp < new_timestamp` and `new_timestamp != NOW`,
exactly one delta stamped `new_timestamp` is inserted, namely the upper endpoint delta. -/
theorem upper_endpoint_single (E : Env) (sk ref : Way_Skeleton) (old new : Nat)
    (nb : Nodes_By_Id) (alv : Bool) (a : Nat) (nu : List (Nat × Attic Nat))
    (il : List (Nat × Nat)) :
    ((add_intermediate_versions E sk ref old new nb alv a
        (Attic_Stores.mk [] nu il)).2.2.full_attic.map (fun p => p.2.timestamp)).Nodup
    ∧ (snapshot_in_window sk.nds old new nb new → new ≠ NOW →
        (add_intermediate_versions E sk ref old new nb alv a
          (Attic_Stores.mk [] nu il)).2.2.full_attic.filter
            (fun p => decide (p.2.timestamp = new))
          = [step_record E (Walk_Step.mk new (anchor E sk old new nb a).1
              (anchor E sk old new nb a).2 (reference_state E ref new nb).1
              (reference_state E ref new nb).2)]) := by
  rw [stores_from_empty]
  constructor
  · rw [List.map_map]
    exact all_steps_nodup E sk ref old new nb alv a
  · intro hsnap hne
    have hmem : new ∈ relevant_timestamps sk.nds old new nb :=
      (mem_relevant_timestamps _ _ _ _ _).mpr hsnap
    have hlast : (relevant_timestamps sk.nds old new nb).getLast? = some new :=
      (getLast_eq_iff_mem _ _ (relevant_timestamps_strict sk.nds old new nb)
        (fun y hy => (relevant_timestamps_le sk.nds old new nb y hy).2)).mpr hmem
    have hpop : pop_back_if (relevant_timestamps sk.nds old new nb) NOW
        = relevant_timestamps sk.nds old new nb := by
      unfold pop_back_if
      rw [hlast, if_neg]
      intro hc
      exact hne (Option.some.inj hc)
    have hup : upper_endpoint_due sk.nds old new nb alv := by
      unfold upper_endpoint_due
      rw [hpop]
      exact Or.inr hlast
    unfold all_steps
    rw [if_pos hup, List.singleton_append, List.map_cons, List.filter_cons]
    have hhead : decide ((step_record E (Walk_Step.mk new (anchor E sk old new nb a).1
        (anchor E sk old new nb a).2 (reference_state E ref new nb).1
        (reference_state E ref new nb).2)).2.timestamp = new) = true := by
      simp [step_record]
    rw [if_pos hhead]
    congr 1
    rw [List.filter_eq_nil_iff]
    intro p hp
    simp only [List.mem_map] at hp
    obtain ⟨s, hs, rfl⟩ := hp
    have hts : s.timestamp ∈ (walk_timestamps sk.nds old new nb alv).reverse := by
      have hm := List.mem_map_of_mem (fun s => s.timestamp) hs
      rw [walk_steps_timestamps] at hm
      exact hm
    rw [List.mem_reverse] at hts
    unfold walk_timestamps at hts
    rw [if_pos hup, mem_pop_new] at hts
    simp only [step_record, decide_eq_true_eq]
    exact hts.2

/-- Witness for claim C10 (amended): node 10 has a snapshot stamped 150 and the window is
`(100, 150]`. -/
theorem upper_endpoint_single_witness :
    snapshot_in_window (Way_Skeleton.mk 1 [10, 11] []).nds 100 150 demo_nodes 150
    ∧ (150 : Nat) ≠ NOW
    ∧ (add_intermediate_versions demo_env (Way_Skeleton.mk 1 [10, 11] [])
          (Way_Skeleton.mk 1 [10, 11, 12] []) 100 150 demo_nodes false 0
          (Attic_Stores.mk [] [] [])).2.2.full_attic.filter
            (fun p => decide (p.2.timestamp = 150))
        = [step_record demo_env (Walk_Step.mk 150
            (anchor demo_env (Way_Skeleton.mk 1 [10, 11] []) 100 150 demo_nodes 0).1
            (anchor demo_env (Way_Skeleton.mk 1 [10, 11] []) 100 150 demo_nodes 0).2
            (reference_state demo_env (Way_Skeleton.mk 1 [10, 11, 12] []) 150 demo_nodes).1
            (reference_state demo_env (Way_Skeleton.mk 1 [10, 11, 12] []) 150 demo_nodes).2)] :=
  have h : snapshot_in_window (Way_Skeleton.mk 1 [10, 11] []).nds 100 150 demo_nodes 150 :=
    (mem_relevant_timestamps _ _ _ _ _).mp (by decide)
  ⟨h, by decide,
   (upper_endpoint_single demo_env (Way_Skeleton.mk 1 [10, 11] [])
      (Way_Skeleton.mk 1 [10, 11, 12] []) 100 150 demo_nodes false 0 [] []).2 h (by decide)⟩

/-! ## Claim on `adapt_newest_existing_attic` -/

theorem compute_idx_and_geometry_id (E : Env) (sk : Way_Skeleton) (e : Nat) (nb : Nodes_By_Id) :
    (compute_idx_and_geometry E sk e nb).2.id = sk.id := by
  unfold compute_idx_and_geometry
  simp only
  split <;> rfl

theorem compute_idx_and_geometry_nds (E : Env) (sk : Way_Skeleton) (e : Nat) (nb : Nodes_By_Id) :
    (compute_idx_and_geometry E sk e nb).2.nds = sk.nds := by
  unfold compute_idx_and_geometry
  simp only
  split <;> rfl

theorem walk_steps_state (E : Env) (sk : Way_Skeleton) (nb : Nodes_By_Id) (a : Nat)
    (ts : List Nat) (li : Nat) (ls : Way_Skeleton) (hts : ts.Pairwise (fun x y => y < x))
    (s : Walk_Step) (hs : s ∈ walk_steps E sk nb a ts li ls) :
    ((s.idx, s.skeleton) = compute_idx_and_geometry E sk s.timestamp nb
        ∨ (s.idx, s.skeleton) = (a, sk))
    ∧ ((a = 0 ∨ ∃ t' ∈ ts, t' < s.timestamp) →
        (s.idx, s.skeleton) = compute_idx_and_geometry E sk s.timestamp nb) := by
  induction ts generalizing li ls with
  | nil => simp [walk_steps] at hs
  | cons t rest ih =>
    have hts' := List.pairwise_cons.mp hts
    simp only [walk_steps, List.mem_cons] at hs
    rcases hs with rfl | hs
    · simp only
      by_cases hc : a = 0 ∨ rest ≠ []
      · rw [if_pos hc]
        exact ⟨Or.inl rfl, fun _ => rfl⟩
      · rw [if_neg hc]
        refine ⟨Or.inr rfl, ?_⟩
        rintro (h0 | ⟨t', ht', hlt⟩)
        · exact absurd (Or.inl h0) hc
        · rcases List.mem_cons.mp ht' with rfl | h
          · exact absurd hlt (Nat.lt_irrefl _)
          · exact absurd (Or.inr (List.ne_nil_of_mem h)) hc
    · obtain ⟨h1, h2⟩ := ih _ _ hts'.2 hs
      refine ⟨h1, ?_⟩
      rintro (h0 | ⟨t', ht', hlt⟩)
      · exact h2 (Or.inl h0)
      · rcases List.mem_cons.mp ht' with rfl | h
        · have hm := List.mem_map_of_mem (fun s => s.timestamp) hs
          rw [walk_steps_timestamps] at hm
          have hlt2 : s.timestamp < t' := hts'.1 _ hm
          omega
        · exact h2 (Or.inr ⟨t', h, hlt⟩)

theorem all_steps_state (E : Env) (sk ref : Way_Skeleton) (old new : Nat) (nb : Nodes_By_Id)
    (alv : Bool) (a : Nat) (s : Walk_Step) (hs : s ∈ all_steps E sk ref old new nb alv a) :
    ((s.idx, s.skeleton) = compute_idx_and_geometry E sk s.timestamp nb
        ∨ (s.idx, s.skeleton) = (a, sk))
    ∧ ((a = 0 ∨ ∃ s' ∈ all_steps E sk ref old new nb alv a, s'.timestamp < s.timestamp) →
        (s.idx, s.skeleton) = compute_idx_and_geometry E sk s.timestamp nb) := by
  have hrev : (walk_timestamps sk.nds old new nb alv).reverse.Pairwise (fun x y => y < x) := by
    rw [List.pairwise_reverse]
    exact walk_timestamps_strict sk.nds old new nb alv
  have hwalk_ts : ∀ s' ∈ walk_steps E sk nb a (walk_timestamps sk.nds old new nb alv).reverse
      (anchor E sk old new nb a).1 (anchor E sk old new nb a).2,
      s'.timestamp ∈ walk_timestamps sk.nds old new nb alv := by
    intro s' hs'
    have hm := List.mem_map_of_mem (fun s => s.timestamp) hs'
    rw [walk_steps_timestamps, List.mem_reverse] at hm
    exact hm
  have hsplit : ∀ s' ∈ all_steps E sk ref old new nb alv a,
      s'.timestamp = new ∨ s' ∈ walk_steps E sk nb a
        (walk_timestamps sk.nds old new nb alv).reverse
        (anchor E sk old new nb a).1 (anchor E sk old new nb a).2 := by
    intro s' hs'
    unfold all_steps at hs'
    rcases List.mem_append.mp hs' with h | h
    · left
      split at h
      · simp at h
        rw [h]
      · simp at h
    · exact Or.inr h
  unfold all_steps at hs
  rcases List.mem_append.mp hs with h | h
  · by_cases hup : upper_endpoint_due sk.nds old new nb alv
    · rw [if_pos hup] at h
      simp only [List.mem_singleton] at h
      subst h
      simp only [Prod.mk.eta]
      unfold anchor
      by_cases hc : a = 0 ∨ relevant_timestamps sk.nds old new nb ≠ []
      · rw [if_pos hc]
        exact ⟨Or.inl rfl, fun _ => rfl⟩
      · rw [if_neg hc]
        refine ⟨Or.inr rfl, ?_⟩
        rintro (h0 | ⟨s', hs', hlt⟩)
        · exact absurd (Or.inl h0) hc
        · rcases hsplit s' hs' with h1 | h1
          · omega
          · have hm := hwalk_ts s' h1
            have hrel : s'.timestamp ∈ relevant_timestamps sk.nds old new nb := by
              unfold walk_timestamps at hm
              rw [if_pos hup] at hm
              have hm2 := mem_of_mem_pop_back_if _ _ _ hm
              exact mem_of_mem_pop_back_if _ _ _ hm2
            exact absurd (Or.inr (List.ne_nil_of_mem hrel)) hc
    · rw [if_neg hup] at h
      simp at h
  · obtain ⟨h1, h2⟩ := walk_steps_state E sk nb a _ _ _ hrev s h
    refine ⟨h1, ?_⟩
    rintro (h0 | ⟨s', hs', hlt⟩)
    · exact h2 (Or.inl h0)
    · rcases hsplit s' hs' with h3 | h3
      · have := (walk_timestamps_window sk.nds old new nb alv _ (hwalk_ts s h)).2
        omega
      · apply h2
        right
        exact ⟨s'.timestamp, by rw [List.mem_reverse]; exact hwalk_ts s' h3, hlt⟩

theorem demo_env_round_trip (r s : Way_Skeleton) :
    demo_env.expand (demo_env.way_delta r s) r = s := by
  by_cases h : r = s
  · subst h
    simp [demo_env]
  · cases s
    simp [demo_env, h, Function.comp_def]

/-- Claim C6, counterexample. With the round-trip law in force, prior bucket 5, a skeleton stored
without geometry and node 10 lying in bucket 7, the upper endpoint entry stamped 10 expands to the
skeleton as it was passed in, without geometry, while `compute_idx_and_geometry` computes the
geometry `[(7, 0)]` for the way at time 10. -/
theorem expand_counterexample :
    (∀ r s, demo_env.expand (demo_env.way_delta r s) r = s)
    ∧ (add_intermediate_versions demo_env (Way_Skeleton.mk 1 [10] [])
        (Way_Skeleton.mk 1 [10, 11] []) 0 10 demo_nodes_fixed true 5
        Attic_Stores.empty).2.2.full_attic
      = [(5, Attic.mk (Way_Delta.mk 1 true [] [(0, 10)] [] []) 10)]
    ∧ demo_env.expand (Way_Delta.mk 1 true [] [(0, 10)] [] []) Way_Skeleton.empty
      = Way_Skeleton.mk 1 [10] []
    ∧ (compute_idx_and_geometry demo_env (Way_Skeleton.mk 1 [10] []) 10 demo_nodes_fixed).2
      = Way_Skeleton.mk 1 [10] [Quad_Coord.mk 7 0] :=
  ⟨demo_env_round_trip, by decide, by decide, by decide⟩

/-- Claim C6, amended. Assuming the round-trip law `Way_Delta(r, s).expand(r) = s`, every attic
entry that one call of `add_intermediate_versions` (started with an empty `full_attic`) emits at a
timestamp `t` belongs to a step of the call, and expanding its delta against the next-younger
snapshot (the skeleton of the next-younger step when the buckets agree, the empty skeleton
otherwise) yields the skeleton of the step. That skeleton has the id and node list of the way; its
bucket and geometry are those that `compute_idx_and_geometry` computes at time `t` whenever the
prior bucket `attic_idx` is 0 or the call emits an older entry, and in every case they are either
those or the prior bucket and the geometry of the skeleton as passed in. -/
theorem expand_emitted_delta (E : Env) (hrt : ∀ r s, E.expand (E.way_delta r s) r = s)
    (sk ref : Way_Skeleton) (old new : Nat) (nb : Nodes_By_Id) (alv : Bool) (a : Nat)
    (nu : List (Nat × Attic Nat)) (il : List (Nat × Nat)) (p : Nat × Attic Way_Delta)
    (hp : p ∈ (add_intermediate_versions E sk ref old new nb alv a
      (Attic_Stores.mk [] nu il)).2.2.full_attic) :
    ∃ s ∈ all_steps E sk ref old new nb alv a,
      p = (s.idx, Attic.mk (step_delta E s) s.timestamp)
      ∧ E.expand p.2.elem (step_reference s) = s.skeleton
      ∧ s.skeleton.id = sk.id ∧ s.skeleton.nds = sk.nds
      ∧ ((s.idx, s.skeleton) = compute_idx_and_geometry E sk s.timestamp nb
          ∨ (s.idx, s.skeleton) = (a, sk))
      ∧ ((a = 0 ∨ ∃ s' ∈ all_steps E sk ref old new nb alv a, s'.timestamp < s.timestamp) →
          (s.idx, s.skeleton) = compute_idx_and_geometry E sk s.timestamp nb) := by
  rw [stores_from_empty, List.mem_map] at hp
  obtain ⟨s, hs, rfl⟩ := hp
  obtain ⟨h1, h2⟩ := all_steps_state E sk ref old new nb alv a s hs
  have hsk : s.skeleton.id = sk.id ∧ s.skeleton.nds = sk.nds := by
    rcases h1 with h | h
    · have h' := congrArg Prod.snd h
      simp only at h'
      rw [h']
      exact ⟨compute_idx_and_geometry_id E sk _ nb, compute_idx_and_geometry_nds E sk _ nb⟩
    · have h' := congrArg Prod.snd h
      simp only at h'
      rw [h']
      exact ⟨rfl, rfl⟩
  refine ⟨s, hs, rfl, ?_, hsk.1, hsk.2, h1, h2⟩
  unfold step_record step_delta step_reference
  by_cases h : s.idx = s.last_idx
  · simp only [if_pos h]
    exact hrt _ _
  · simp only [if_neg h]
    exact hrt _ _

/-- Witness for claim C6 (amended): the way over nodes 10 and 11 in the window `(100, 200]`. -/
theorem expand_emitted_delta_witness :
    (∀ r s, demo_env.expand (demo_env.way_delta r s) r = s)
    ∧ (3, Attic.mk (Way_Delta.mk 1 true [] [(0, 10), (0, 11)] []
          [(0, Quad_Coord.mk 3 0), (0, Quad_Coord.mk 3 0)]) 150)
        ∈ (add_intermediate_versions demo_env (Way_Skeleton.mk 1 [10, 11] [])
            (Way_Skeleton.mk 1 [10, 11, 12] []) 100 200 demo_nodes true 0
            (Attic_Stores.mk [] [] [])).2.2.full_attic
    ∧ ∃ s ∈ all_steps demo_env (Way_Skeleton.mk 1 [10, 11] [])
          (Way_Skeleton.mk 1 [10, 11, 12] []) 100 200 demo_nodes true 0,
        ((3, Attic.mk (Way_Delta.mk 1 true [] [(0, 10), (0, 11)] []
            [(0, Quad_Coord.mk 3 0), (0, Quad_Coord.mk 3 0)]) 150) : Nat × Attic Way_Delta)
          = (s.idx, Attic.mk (step_delta demo_env s) s.timestamp)
        ∧ demo_env.expand ((3, Attic.mk (Way_Delta.mk 1 true [] [(0, 10), (0, 11)] []
            [(0, Quad_Coord.mk 3 0), (0, Quad_Coord.mk 3 0)]) 150) :
              Nat × Attic Way_Delta).2.elem (step_reference s) = s.skeleton
        ∧ s.skeleton.id = (Way_Skeleton.mk 1 [10, 11] []).id
        ∧ s.skeleton.nds = (Way_Skeleton.mk 1 [10, 11] []).nds
        ∧ ((s.idx, s.skeleton) = compute_idx_and_geometry demo_env
              (Way_Skeleton.mk 1 [10, 11] []) s.timestamp demo_nodes
            ∨ (s.idx, s.skeleton) = (0, Way_Skeleton.mk 1 [10, 11] []))
        ∧ (((0 : Nat) = 0 ∨ ∃ s' ∈ all_steps demo_env (Way_Skeleton.mk 1 [10, 11] [])
              (Way_Skeleton.mk 1 [10, 11, 12] []) 100 200 demo_nodes true 0,
              s'.timestamp < s.timestamp) →
            (s.idx, s.skeleton) = compute_idx_and_geometry demo_env
              (Way_Skeleton.mk 1 [10, 11] []) s.timestamp demo_nodes) :=
  ⟨demo_env_round_trip, by decide,
   expand_emitted_delta demo_env demo_env_round_trip (Way_Skeleton.mk 1 [10, 11] [])
     (Way_Skeleton.mk 1 [10, 11, 12] []) 100 200 demo_nodes true 0 [] [] _ (by decide)⟩

/-! ## At most one attic delta per way id and timestamp -/

theorem all_steps_window (E : Env) (sk ref : Way_Skeleton) (old new : Nat) (nb : Nodes_By_Id)
    (alv : Bool) (a : Nat) (s : Walk_Step) (hs : s ∈ all_steps E sk ref old new nb alv a) :
    old < s.timestamp ∧ s.timestamp ≤ new := by
  have hm := List.mem_map_of_mem (fun s => s.timestamp) hs
  rw [all_steps_timestamps, List.mem_append, List.mem_reverse] at hm
  rcases hm with h | h
  · by_cases hup : upper_endpoint_due sk.nds old new nb alv
    · rw [if_pos hup, List.mem_singleton] at h
      simp only at h
      rw [h]
      rw [upper_endpoint_due_iff] at hup
      rcases hup with h1 | h1
      · exact ⟨h1.2, Nat.le_refl _⟩
      · exact pop_now_le sk.nds old new nb new h1
    · rw [if_neg hup] at h
      simp at h
  · exact walk_timestamps_window sk.nds old new nb alv _ h

theorem step_record_id (E : Env) (hid : ∀ r s, (E.way_delta r s).id = s.id)
    (sk ref : Way_Skeleton) (old new : Nat) (nb : Nodes_By_Id)
    (alv : Bool) (a : Nat) (s : Walk_Step) (hs : s ∈ all_steps E sk ref old new nb alv a) :
    (step_record E s).2.elem.id = sk.id := by
  have hsk : s.skeleton.id = sk.id := by
    rcases (all_steps_state E sk ref old new nb alv a s hs).1 with h | h
    · have h' := congrArg Prod.snd h
      simp only at h'
      rw [h']
      exact compute_idx_and_geometry_id E sk _ nb
    · have h' := congrArg Prod.snd h
      simp only at h'
      rw [h']
  unfold step_record step_delta
  simp only
  split
  · rw [hid, hsk]
  · rw [hid, hsk]

theorem add_intermediate_versions_keys (E : Env) (hid : ∀ r s, (E.way_delta r s).id = s.id)
    (sk ref : Way_Skeleton) (old new : Nat) (nb : Nodes_By_Id) (alv : Bool) (a : Nat)
    (st : Attic_Stores) (hnd : (st.full_attic.map attic_key).Nodup)
    (hfresh : ∀ p ∈ st.full_attic, p.2.elem.id = sk.id → old < p.2.timestamp →
      ¬ p.2.timestamp ≤ new) :
    ((add_intermediate_versions E sk ref old new nb alv a st).2.2.full_attic.map attic_key).Nodup
    ∧ ∀ p ∈ (add_intermediate_versions E sk ref old new nb alv a st).2.2.full_attic,
        p ∈ st.full_attic
          ∨ (p.2.elem.id = sk.id ∧ old < p.2.timestamp ∧ p.2.timestamp ≤ new) := by
  have hkey : ∀ s ∈ all_steps E sk ref old new nb alv a,
      (step_record E s).2.elem.id = sk.id ∧ old < (step_record E s).2.timestamp
        ∧ (step_record E s).2.timestamp ≤ new := by
    intro s hs
    have hw := all_steps_window E sk ref old new nb alv a s hs
    exact ⟨step_record_id E hid sk ref old new nb alv a s hs, hw.1, hw.2⟩
  have happ : (add_intermediate_versions E sk ref old new nb alv a st).2.2.full_attic
      = st.full_attic ++ (all_steps E sk ref old new nb alv a).map (step_record E) := by
    rw [add_intermediate_versions_stores]
    apply steps_full_attic_fresh E sk.id _ _ (all_steps_nodup E sk ref old new nb alv a)
    intro p hp s hs
    obtain ⟨h1, h2, h3⟩ := hkey s hs
    by_contra hc
    simp only [same_attic_delta, Bool.and_eq_false_iff, decide_eq_false_iff_not, not_or,
      not_not] at hc
    refine hfresh p hp (hc.1.trans h1) ?_ ?_
    · rw [hc.2]
      exact h2
    · rw [hc.2]
      exact h3
  rw [happ]
  constructor
  · rw [List.map_append, List.nodup_append]
    refine ⟨hnd, ?_, ?_⟩
    · apply List.Nodup.of_map Prod.snd
      rw [List.map_map, List.map_map]
      exact all_steps_nodup E sk ref old new nb alv a
    · intro k hk1 hk2
      simp only [List.mem_map] at hk1 hk2
      obtain ⟨p, hp, rfl⟩ := hk1
      obtain ⟨q, ⟨s, hs, rfl⟩, hq⟩ := hk2
      obtain ⟨h1, h2, h3⟩ := hkey s hs
      simp only [attic_key, Prod.mk.injEq] at hq
      refine hfresh p hp (hq.1.symm.trans h1) ?_ ?_
      · rw [← hq.2]
        exact h2
      · rw [← hq.2]
        exact h3
  · intro p hp
    rcases List.mem_append.mp hp with h | h
    · exact Or.inl h
    · simp only [List.mem_map] at h
      obtain ⟨s, hs, rfl⟩ := h
      exact Or.inr (hkey s hs)

theorem adapt_keys (E : Env) (hid : ∀ r s, (E.way_delta r s).id = s.id)
    (hexp : ∀ d r, r.id = d.id → (E.expand d r).id = d.id)
    (old_idx new_idx : Nat) (d : Attic Way_Delta) (eref nref : Way_Skeleton)
    (td fa : List (Nat × Attic Way_Delta)) (href : eref.id = d.elem.id)
    (hnd : (fa.map attic_key).Nodup)
    (hfresh : ∀ p ∈ fa, p.2.elem.id = d.elem.id → p.2.timestamp ≠ d.timestamp) :
    ((adapt_newest_existing_attic E old_idx new_idx d eref nref td fa).2.1.map attic_key).Nodup
    ∧ ∀ p ∈ (adapt_newest_existing_attic E old_idx new_idx d eref nref td fa).2.1,
        p ∈ fa ∨ (p.2.elem.id = d.elem.id ∧ p.2.timestamp = d.timestamp) := by
  have hnew : (adapted_delta E old_idx new_idx d eref nref).id = d.elem.id := by
    unfold adapted_delta
    rw [hid, hexp _ _ href]
  unfold adapt_newest_existing_attic
  simp only
  split
  · have hins : map_set_insert same_attic_delta fa new_idx
        (Attic.mk (adapted_delta E old_idx new_idx d eref nref) d.timestamp)
        = fa ++ [(new_idx, Attic.mk (adapted_delta E old_idx new_idx d eref nref)
            d.timestamp)] := by
      apply map_set_insert_fresh
      intro p hp _
      by_contra hc
      simp only [same_attic_delta, Bool.and_eq_false_iff, decide_eq_false_iff_not, not_or,
        not_not] at hc
      exact hfresh p hp (hc.1.trans hnew) hc.2
    simp only [hins]
    constructor
    · rw [List.map_append, List.nodup_append]
      refine ⟨hnd, by simp, ?_⟩
      intro k hk1 hk2
      simp only [List.mem_map] at hk1
      obtain ⟨p, hp, rfl⟩ := hk1
      simp only [List.map_cons, List.map_nil, List.mem_singleton, attic_key,
        Prod.mk.injEq] at hk2
      exact hfresh p hp (hk2.1.trans hnew) hk2.2
    · intro p hp
      rcases List.mem_append.mp hp with h | h
      · exact Or.inl h
      · simp only [List.mem_singleton] at h
        subst h
        exact Or.inr ⟨hnew, rfl⟩
  · exact ⟨hnd, fun p hp => Or.inl hp⟩

theorem find_attic_skeleton_id (attic_skeletons : List (Nat × Way_Skeleton)) (idx id : Nat)
    (sk : Way_Skeleton) (h : find_attic_skeleton attic_skeletons idx id = some sk) :
    sk.id = id := by
  unfold find_attic_skeleton at h
  simp only [Option.map_eq_some'] at h
  obtain ⟨p, hp, rfl⟩ := h
  have := List.find?_some hp
  simp only [Bool.and_eq_true, decide_eq_true_eq] at this
  exact this.2

theorem entry_windows_keys (E : Env) (hid : ∀ r s, (E.way_delta r s).id = s.id)
    (ctx : Attic_Context) (it : Entry) (next : Option Entry) (st : Attic_Stores)
    (hnd : (st.full_attic.map attic_key).Nodup)
    (hb : ∀ p ∈ st.full_attic, p.2.elem.id = it.elem.id → p.2.timestamp ≤ it.meta.timestamp) :
    ((entry_windows E ctx it next st).2.full_attic.map attic_key).Nodup
    ∧ ∀ p ∈ (entry_windows E ctx it next st).2.full_attic,
        p ∈ st.full_attic
          ∨ (p.2.elem.id = it.elem.id ∧ it.meta.timestamp < p.2.timestamp
              ∧ ∀ nx, next = some nx → nx.elem.id = it.elem.id →
                  p.2.timestamp ≤ nx.meta.timestamp) := by
  have hfresh : ∀ new, ∀ p ∈ st.full_attic, p.2.elem.id = it.elem.id →
      it.meta.timestamp < p.2.timestamp → ¬ p.2.timestamp ≤ new := by
    intro new p hp h1 h2
    have := hb p hp h1
    omega
  unfold entry_windows
  cases next with
  | none =>
    simp only
    obtain ⟨h1, h2⟩ := add_intermediate_versions_keys E hid it.elem Way_Skeleton.empty
      it.meta.timestamp NOW ctx.nodes_by_id false 0 st hnd (hfresh NOW)
    refine ⟨h1, ?_⟩
    intro p hp
    rcases h2 p hp with h | h
    · exact Or.inl h
    · exact Or.inr ⟨h.1, h.2.1, fun nx hnx => by simp at hnx⟩
  | some nx =>
    simp only
    by_cases hsame : it.elem.id = nx.elem.id
    · rw [if_pos hsame]
      by_cases hidx : it.idx ≠ 0
      · rw [if_pos hidx]
        obtain ⟨h1, h2⟩ := add_intermediate_versions_keys E hid it.elem nx.elem
          it.meta.timestamp nx.meta.timestamp ctx.nodes_by_id
          (decide (nx.idx = 0) || !geometrically_equal it.elem nx.elem) 0 st hnd
          (hfresh nx.meta.timestamp)
        refine ⟨h1, ?_⟩
        intro p hp
        rcases h2 p hp with h | h
        · exact Or.inl h
        · refine Or.inr ⟨h.1, h.2.1, ?_⟩
          intro nx' hnx' _
          simp only [Option.some.injEq] at hnx'
          subst hnx'
          exact h.2.2
      · rw [if_neg hidx]
        exact ⟨hnd, fun p hp => Or.inl hp⟩
    · rw [if_neg hsame]
      obtain ⟨h1, h2⟩ := add_intermediate_versions_keys E hid it.elem Way_Skeleton.empty
        it.meta.timestamp NOW ctx.nodes_by_id false 0 st hnd (hfresh NOW)
      refine ⟨h1, ?_⟩
      intro p hp
      rcases h2 p hp with h | h
      · exact Or.inl h
      · refine Or.inr ⟨h.1, h.2.1, ?_⟩
        intro nx' hnx' hid'
        simp only [Option.some.injEq] at hnx'
        subst hnx'
        exact absurd hid'.symm hsame

theorem window_and_adapt_keys (E : Env) (hid : ∀ r s, (E.way_delta r s).id = s.id)
    (hexp : ∀ d r, r.id = d.id → (E.expand d r).id = d.id)
    (sk ref : Way_Skeleton) (new : Nat) (nb : Nodes_By_Id) (alv : Bool) (a : Nat)
    (t : Nat × Attic Way_Delta) (nref : Way_Skeleton) (td : List (Nat × Attic Way_Delta))
    (st : Attic_Stores) (hd : t.2.elem.id = sk.id)
    (hnd : (st.full_attic.map attic_key).Nodup)
    (hfresh : ∀ p ∈ st.full_attic, p.2.elem.id = sk.id → t.2.timestamp < p.2.timestamp
      ∧ ¬ p.2.timestamp ≤ new) :
    ((adapt_newest_existing_attic E t.1 a t.2 sk nref td
        (add_intermediate_versions E sk ref t.2.timestamp new nb alv a
          st).2.2.full_attic).2.1.map attic_key).Nodup
    ∧ ∀ p ∈ (adapt_newest_existing_attic E t.1 a t.2 sk nref td
        (add_intermediate_versions E sk ref t.2.timestamp new nb alv a st).2.2.full_attic).2.1,
        p ∈ st.full_attic
          ∨ (p.2.elem.id = sk.id ∧ (p.2.timestamp ≤ new ∨ p.2.timestamp = t.2.timestamp)) := by
  obtain ⟨h1, h2⟩ := add_intermediate_versions_keys E hid sk ref t.2.timestamp new nb alv a st
    hnd (fun p hp hpid _ => (hfresh p hp hpid).2)
  obtain ⟨h3, h4⟩ := adapt_keys E hid hexp t.1 a t.2 sk nref td _ hd.symm h1 (by
    intro p hp hpid
    rcases h2 p hp with h | h
    · have := (hfresh p h (hpid.trans hd)).1
      omega
    · omega)
  refine ⟨h3, ?_⟩
  intro p hp
  rcases h4 p hp with h | h
  · rcases h2 p h with h' | h'
    · exact Or.inl h'
    · exact Or.inr ⟨h'.1, Or.inl h'.2.2⟩
  · exact Or.inr ⟨h.1.trans hd, Or.inr h.2⟩

theorem entry_existing_keys (E : Env) (hid : ∀ r s, (E.way_delta r s).id = s.id)
    (hexp : ∀ d r, r.id = d.id → (E.expand d r).id = d.id)
    (ctx : Attic_Context) (it : Entry) (u : Attic_Update) (st : Attic_Stores)
    (hnd : (st.full_attic.map attic_key).Nodup)
    (hfresh : ∀ p ∈ st.full_attic, p.2.elem.id = it.elem.id →
      it.meta.timestamp < p.2.timestamp)
    (hprior : ∀ t, List.lookup it.elem.id ctx.existing_attic_skeleton_timestamps = some t →
      t.2.timestamp ≤ it.meta.timestamp) :
    ((entry_existing E ctx it u st).stores.full_attic.map attic_key).Nodup
    ∧ ∀ p ∈ (entry_existing E ctx it u st).stores.full_attic,
        p ∈ st.full_attic
          ∨ (p.2.elem.id = it.elem.id ∧ p.2.timestamp ≤ it.meta.timestamp) := by
  unfold entry_existing
  cases hidx : binary_pair_search ctx.existing_map_positions it.elem.id with
  | none => exact ⟨hnd, fun p hp => Or.inl hp⟩
  | some idx =>
    simp only
    cases hsk : find_attic_skeleton ctx.attic_skeletons idx it.elem.id with
    | none => exact ⟨hnd, fun p hp => Or.inl hp⟩
    | some it_attic =>
      simp only
      have hskid := find_attic_skeleton_id _ _ _ _ hsk
      cases ht : List.lookup it.elem.id ctx.existing_attic_skeleton_timestamps with
      | none =>
        simp only
        obtain ⟨h1, h2⟩ := add_intermediate_versions_keys E hid it_attic it.elem 0
          it.meta.timestamp ctx.nodes_by_id
          (decide (it.idx = 0) || !geometrically_equal it_attic it.elem) idx st hnd (by
            intro p hp hpid _
            have := hfresh p hp (hpid.trans hskid)
            omega)
        refine ⟨h1, ?_⟩
        intro p hp
        rcases h2 p hp with h | h
        · exact Or.inl h
        · exact Or.inr ⟨h.1.trans hskid, h.2.2⟩
      | some t =>
        simp only
        have hpr := hprior t ht
        by_cases hd : t.2.elem.id = it.elem.id
        · rw [if_pos hd]
          simp only
          obtain ⟨h1, h2⟩ := window_and_adapt_keys E hid hexp it_attic it.elem
            it.meta.timestamp ctx.nodes_by_id
            (decide (it.idx = 0) || !geometrically_equal it_attic it.elem) idx t
            (if t.2.timestamp < it.meta.timestamp then
              (add_intermediate_versions E it_attic it.elem t.2.timestamp it.meta.timestamp
                ctx.nodes_by_id (decide (it.idx = 0) || !geometrically_equal it_attic it.elem)
                idx st).1
            else Way_Skeleton.empty)
            u.attic_skeletons_to_delete st (hd.trans hskid.symm) hnd (by
              intro p hp hpid
              have := hfresh p hp (hpid.trans hskid)
              constructor <;> omega)
          refine ⟨h1, ?_⟩
          intro p hp
          rcases h2 p hp with h | h
          · exact Or.inl h
          · refine Or.inr ⟨h.1.trans hskid, ?_⟩
            rcases h.2 with h' | h'
            · exact h'
            · omega
        · rw [if_neg hd]
          simp only
          obtain ⟨h1, h2⟩ := add_intermediate_versions_keys E hid it_attic it.elem
            t.2.timestamp it.meta.timestamp ctx.nodes_by_id
            (decide (it.idx = 0) || !geometrically_equal it_attic it.elem) idx st hnd (by
              intro p hp hpid _
              have := hfresh p hp (hpid.trans hskid)
              omega)
          refine ⟨h1, ?_⟩
          intro p hp
          rcases h2 p hp with h | h
          · exact Or.inl h
          · exact Or.inr ⟨h.1.trans hskid, h.2.2⟩

theorem attic_entry_step_keys (E : Env) (hid : ∀ r s, (E.way_delta r s).id = s.id)
    (hexp : ∀ d r, r.id = d.id → (E.expand d r).id = d.id)
    (ctx : Attic_Context) (prev : Option Entry) (it : Entry) (next : Option Entry)
    (last_id : Nat) (u : Attic_Update)
    (hnd : (u.stores.full_attic.map attic_key).Nodup)
    (hb : ∀ p ∈ u.stores.full_attic, p.2.elem.id = it.elem.id →
      p.2.timestamp ≤ it.meta.timestamp)
    (hfirst : last_id ≠ it.elem.id → ∀ p ∈ u.stores.full_attic, p.2.elem.id ≠ it.elem.id)
    (hprev : last_id = it.elem.id → prev ≠ none)
    (hprior : ∀ t, List.lookup it.elem.id ctx.existing_attic_skeleton_timestamps = some t →
      t.2.timestamp ≤ it.meta.timestamp) :
    ∃ u', attic_entry_step E ctx prev it next last_id u = some (it.elem.id, u')
      ∧ (u'.stores.full_attic.map attic_key).Nodup
      ∧ ∀ p ∈ u'.stores.full_attic,
          p ∈ u.stores.full_attic
            ∨ (p.2.elem.id = it.elem.id
                ∧ ∀ nx, next = some nx → nx.elem.id = it.elem.id →
                    it.meta.timestamp < nx.meta.timestamp →
                    p.2.timestamp ≤ nx.meta.timestamp) := by
  obtain ⟨hw1, hw2⟩ := entry_windows_keys E hid ctx it next u.stores hnd hb
  have hw3 : ∀ p ∈ (entry_windows E ctx it next u.stores).2.full_attic,
      p ∈ u.stores.full_attic
        ∨ (p.2.elem.id = it.elem.id
            ∧ ∀ nx, next = some nx → nx.elem.id = it.elem.id →
                it.meta.timestamp < nx.meta.timestamp →
                p.2.timestamp ≤ nx.meta.timestamp) := by
    intro p hp
    rcases hw2 p hp with h | h
    · exact Or.inl h
    · exact Or.inr ⟨h.1, fun nx h1 h2 _ => h.2.2 nx h1 h2⟩
  unfold attic_entry_step
  simp only
  by_cases hl : last_id = it.elem.id
  · rw [if_pos hl]
    cases prev with
    | none => exact absurd rfl (hprev hl)
    | some last_it =>
      simp only
      by_cases hz : last_it.idx = 0
      · rw [if_pos hz, hl]
        exact ⟨_, rfl, hw1, hw3⟩
      · rw [if_neg hz, hl]
        exact ⟨_, rfl, hw1, hw3⟩
  · rw [if_neg hl]
    refine ⟨_, rfl, ?_⟩
    have hfa : (if (binary_pair_search ctx.existing_map_positions it.elem.id).isNone
          ∧ (binary_pair_search ctx.attic_map_positions it.elem.id).isSome then
        undelete_created E ctx it (entry_windows E ctx it next u.stores).1
          (entry_windows E ctx it next u.stores).2
      else (entry_windows E ctx it next u.stores).2).full_attic
        = (entry_windows E ctx it next u.stores).2.full_attic := by
      split <;> rfl
    obtain ⟨h1, h2⟩ := entry_existing_keys E hid hexp ctx it u
      (if (binary_pair_search ctx.existing_map_positions it.elem.id).isNone
          ∧ (binary_pair_search ctx.attic_map_positions it.elem.id).isSome then
        undelete_created E ctx it (entry_windows E ctx it next u.stores).1
          (entry_windows E ctx it next u.stores).2
      else (entry_windows E ctx it next u.stores).2)
      (by rw [hfa]; exact hw1)
      (by
        rw [hfa]
        intro p hp hpid
        rcases hw2 p hp with h | h
        · exact absurd hpid (hfirst hl p h)
        · exact h.2.1)
      hprior
    refine ⟨h1, ?_⟩
    intro p hp
    rcases h2 p hp with h | h
    · rw [hfa] at h
      exact hw3 p h
    · refine Or.inr ⟨h.1, ?_⟩
      intro nx _ _ hlt
      omega

theorem attic_batch_loop_keys (E : Env) (hid : ∀ r s, (E.way_delta r s).id = s.id)
    (hexp : ∀ d r, r.id = d.id → (E.expand d r).id = d.id) (ctx : Attic_Context)
    (l : List Entry) (prev : Option Entry) (last_id : Nat) (u : Attic_Update)
    (hsorted : l.Pairwise batch_lt)
    (hle : ∀ e ∈ l, last_id ≤ e.elem.id)
    (hprev : prev = none → ∀ e ∈ l, last_id ≠ e.elem.id)
    (hprior : ∀ e ∈ l, ∀ t,
      List.lookup e.elem.id ctx.existing_attic_skeleton_timestamps = some t →
      t.2.timestamp ≤ e.meta.timestamp)
    (hnd : (u.stores.full_attic.map attic_key).Nodup)
    (hk : ∀ p ∈ u.stores.full_attic, p.2.elem.id ≤ last_id)
    (hj : ∀ p ∈ u.stores.full_attic, p.2.elem.id = last_id →
      ∀ e, l.head? = some e → e.elem.id = last_id → p.2.timestamp ≤ e.meta.timestamp) :
    ∃ u', attic_batch_loop E ctx prev l last_id u = some u'
      ∧ (u'.stores.full_attic.map attic_key).Nodup
      ∧ ∀ p ∈ u'.stores.full_attic,
          p ∈ u.stores.full_attic ∨ ∃ e ∈ l, p.2.elem.id = e.elem.id := by
  induction l generalizing prev last_id u with
  | nil => exact ⟨u, rfl, hnd, fun p hp => Or.inl hp⟩
  | cons it rest ih =>
    have hs := List.pairwise_cons.mp hsorted
    have hle_it : last_id ≤ it.elem.id := hle it (by simp)
    obtain ⟨u1, hstep, hnd1, hmem1⟩ := attic_entry_step_keys E hid hexp ctx prev it rest.head?
      last_id u hnd
      (by
        intro p hp hpid
        have h1 := hk p hp
        have h2 : p.2.elem.id = last_id := by omega
        exact hj p hp h2 it (by simp) (by omega))
      (by
        intro hne p hp hpid
        have := hk p hp
        omega)
      (by
        intro heq hnone
        exact hprev hnone it (by simp) heq)
      (hprior it (by simp))
    have hrest_le : ∀ e ∈ rest, it.elem.id ≤ e.elem.id := by
      intro e he
      rcases hs.1 e he with h | h
      · exact Nat.le_of_lt h
      · exact Nat.le_of_eq h.1
    have hk1 : ∀ p ∈ u1.stores.full_attic, p.2.elem.id ≤ it.elem.id := by
      intro p hp
      rcases hmem1 p hp with h | h
      · exact Nat.le_trans (hk p h) hle_it
      · exact Nat.le_of_eq h.1
    have hj1 : ∀ p ∈ u1.stores.full_attic, p.2.elem.id = it.elem.id →
        ∀ e, rest.head? = some e → e.elem.id = it.elem.id →
          p.2.timestamp ≤ e.meta.timestamp := by
      intro p hp hpid e he heid
      have hemem : e ∈ rest := List.mem_of_mem_head? he
      have hlt : it.meta.timestamp < e.meta.timestamp := by
        rcases hs.1 e hemem with h | h
        · omega
        · exact h.2
      rcases hmem1 p hp with h | h
      · have h1 := hk p h
        have h2 : p.2.elem.id = last_id := by omega
        have := hj p h h2 it (by simp) (by omega)
        omega
      · exact h.2 e he heid hlt
    obtain ⟨u2, hloop, hnd2, hmem2⟩ := ih (some it) it.elem.id u1 hs.2 hrest_le
      (by intro hnone; simp at hnone)
      (fun e he => hprior e (by simp [he])) hnd1 hk1 hj1
    refine ⟨u2, ?_, hnd2, ?_⟩
    · simp only [attic_batch_loop, hstep]
      exact hloop
    · intro p hp
      rcases hmem2 p hp with h | ⟨e, he, h⟩
      · rcases hmem1 p h with h' | h'
        · exact Or.inl h'
        · exact Or.inr ⟨it, by simp, h'.1⟩
      · exact Or.inr ⟨e, by simp [he], h⟩

theorem implicit_step_keys (E : Env) (hid : ∀ r s, (E.way_delta r s).id = s.id)
    (hexp : ∀ d r, r.id = d.id → (E.expand d r).id = d.id) (ctx : Attic_Context)
    (u : Attic_Update) (q : Nat × Way_Skeleton)
    (hnd : (u.stores.full_attic.map attic_key).Nodup)
    (hnone : ∀ p ∈ u.stores.full_attic, p.2.elem.id ≠ q.2.id) :
    ((implicit_step E ctx u q).stores.full_attic.map attic_key).Nodup
    ∧ ∀ p ∈ (implicit_step E ctx u q).stores.full_attic,
        p ∈ u.stores.full_attic ∨ p.2.elem.id = q.2.id := by
  unfold implicit_step
  cases ht : List.lookup q.2.id ctx.existing_attic_skeleton_timestamps with
  | none =>
    simp only
    obtain ⟨h1, h2⟩ := add_intermediate_versions_keys E hid q.2 q.2 0 NOW ctx.nodes_by_id false
      q.1 u.stores hnd (fun p hp hpid => absurd hpid (hnone p hp))
    exact ⟨h1, fun p hp => (h2 p hp).imp id (fun h => h.1)⟩
  | some t =>
    simp only
    by_cases hd : t.2.elem.id = q.2.id
    · rw [if_pos hd]
      simp only
      obtain ⟨h1, h2⟩ := window_and_adapt_keys E hid hexp q.2 q.2 NOW ctx.nodes_by_id false q.1
        t (add_intermediate_versions E q.2 q.2 t.2.timestamp NOW ctx.nodes_by_id false q.1
          u.stores).1
        u.attic_skeletons_to_delete u.stores hd hnd
        (fun p hp hpid => absurd hpid (hnone p hp))
      exact ⟨h1, fun p hp => (h2 p hp).imp id (fun h => h.1)⟩
    · rw [if_neg hd]
      simp only
      obtain ⟨h1, h2⟩ := add_intermediate_versions_keys E hid q.2 q.2 t.2.timestamp NOW
        ctx.nodes_by_id false q.1 u.stores hnd (fun p hp hpid => absurd hpid (hnone p hp))
      exact ⟨h1, fun p hp => (h2 p hp).imp id (fun h => h.1)⟩

theorem implicit_fold_keys (E : Env) (hid : ∀ r s, (E.way_delta r s).id = s.id)
    (hexp : ∀ d r, r.id = d.id → (E.expand d r).id = d.id) (ctx : Attic_Context)
    (l : List (Nat × Way_Skeleton)) (u : Attic_Update)
    (hl : (l.map (fun q => q.2.id)).Nodup)
    (hnd : (u.stores.full_attic.map attic_key).Nodup)
    (hnone : ∀ p ∈ u.stores.full_attic, ∀ q ∈ l, p.2.elem.id ≠ q.2.id) :
    ((l.foldl (implicit_step E ctx) u).stores.full_attic.map attic_key).Nodup := by
  induction l generalizing u with
  | nil => exact hnd
  | cons q rest ih =>
    rw [List.foldl_cons]
    rw [List.map_cons, List.nodup_cons] at hl
    obtain ⟨h1, h2⟩ := implicit_step_keys E hid hexp ctx u q hnd
      (fun p hp => hnone p hp q (by simp))
    apply ih _ hl.2 h1
    intro p hp q' hq'
    rcases h2 p hp with h | h
    · exact hnone p h q' (by simp [hq'])
    · intro hc
      apply hl.1
      rw [← h, hc]
      exact List.mem_map_of_mem (fun q => q.2.id) hq'

/-- Claim C4, counterexample. Way 1 is current in bucket 5 and has an attic delta stamped 150 on
disk; the batch holds the versions of way 1 stamped 100 and 200 (sorted, strictly increasing,
below `NOW`), no way moved implicitly, and node 10 of the way moved at time 150. Started with an
empty `full_attic`, `compute_new_attic_skeletons` leaves two attic deltas of way 1 stamped 150:
one written by the history builder under bucket 9 and one rewritten by
`adapt_newest_existing_attic` under bucket 5. -/
theorem attic_keys_counterexample :
    demo_batch.Pairwise batch_lt
    ∧ (∀ e ∈ demo_batch, e.meta.timestamp < NOW)
    ∧ (compute_new_attic_skeletons demo_env demo_context demo_batch [] Attic_Update.empty).map
        (fun u => u.stores.full_attic.map (fun p => (p.1, p.2.elem.id, p.2.timestamp)))
      = some [(9, 1, 200), (9, 1, 150), (5, 1, 150)] := by
  decide

/-- Claim C4, amended. Let the batch be sorted by way id with strictly increasing timestamps
within each id, let its way ids be different from 0 and from the ids of the implicitly moved ways,
let every implicitly moved way occur once, and let the youngest attic delta on disk of a way of
the batch not be stamped later than the versions of the way in the batch. Assume that a delta
carries the id of the skeleton it encodes and that expanding a delta against a reference of the
same id keeps the id. Then `compute_new_attic_skeletons`, started with an empty `full_attic`,
returns and leaves at most one attic delta per way id and timestamp in `full_attic`, the deltas of
the history builder and the records rewritten by `adapt_newest_existing_attic` counted
together. -/
theorem attic_keys_unique (E : Env) (hid : ∀ r s, (E.way_delta r s).id = s.id)
    (hexp : ∀ d r, r.id = d.id → (E.expand d r).id = d.id) (ctx : Attic_Context)
    (new_data : List Entry) (implicitly_moved_skeletons : List (Nat × Way_Skeleton))
    (u : Attic_Update)
    (hsorted : new_data.Pairwise batch_lt)
    (hnz : ∀ e ∈ new_data, e.elem.id ≠ 0)
    (hdisj : ∀ q ∈ implicitly_moved_skeletons, ∀ e ∈ new_data, q.2.id ≠ e.elem.id)
    (himpl : (implicitly_moved_skeletons.map (fun q => q.2.id)).Nodup)
    (hprior : ∀ e ∈ new_data, ∀ t,
      List.lookup e.elem.id ctx.existing_attic_skeleton_timestamps = some t →
      t.2.timestamp ≤ e.meta.timestamp)
    (hu : u.stores.full_attic = []) :
    ∃ u', compute_new_attic_skeletons E ctx new_data implicitly_moved_skeletons u = some u'
      ∧ (u'.stores.full_attic.map attic_key).Nodup := by
  obtain ⟨u1, hloop, hnd1, hmem1⟩ := attic_batch_loop_keys E hid hexp ctx new_data none 0 u
    hsorted (fun e _ => Nat.zero_le _) (fun _ e he h => hnz e he h.symm) hprior
    (by rw [hu]; simp) (by rw [hu]; simp) (by rw [hu]; simp)
  refine ⟨_, by unfold compute_new_attic_skeletons; rw [hloop], ?_⟩
  apply implicit_fold_keys E hid hexp ctx _ u1 himpl hnd1
  intro p hp q hq
  rcases hmem1 p hp with h | ⟨e, he, h⟩
  · rw [hu] at h
    simp at h
  · rw [h]
    exact fun hc => hdisj q hq e he hc.symm

theorem demo_env_delta_id (r s : Way_Skeleton) : (demo_env.way_delta r s).id = s.id := by
  simp only [demo_env]
  split <;> rfl

theorem demo_env_expand_id (d : Way_Delta) (r : Way_Skeleton) (_h : r.id = d.id) :
    (demo_env.expand d r).id = d.id := by
  simp only [demo_env]
  split <;> rfl

theorem demo_batch_late_prior (e : Entry) (he : e ∈ demo_batch_late)
    (t : Nat × Attic Way_Delta)
    (ht : List.lookup e.elem.id demo_context.existing_attic_skeleton_timestamps = some t) :
    t.2.timestamp ≤ e.meta.timestamp := by
  simp only [demo_batch_late, List.mem_cons, List.mem_singleton, List.not_mem_nil,
    or_false] at he
  have hl : List.lookup 1 demo_context.existing_attic_skeleton_timestamps
      = some (5, Attic.mk (Way_Delta.mk 1 false [] [] [] []) 150) := by decide
  rcases he with rfl | rfl
  · simp only at ht
    rw [hl] at ht
    cases ht
    decide
  · simp only at ht
    rw [hl] at ht
    cases ht
    decide

/-- Witness for claim C4 (amended): way 1 with an attic version stamped 150 on disk, a batch with
versions stamped 160 and 200, and way 2 moved implicitly. -/
theorem attic_keys_unique_witness :
    (∀ r s, (demo_env.way_delta r s).id = s.id)
    ∧ (∀ d r, r.id = d.id → (demo_env.expand d r).id = d.id)
    ∧ demo_batch_late.Pairwise batch_lt
    ∧ (∀ e ∈ demo_batch_late, e.elem.id ≠ 0)
    ∧ (∀ q ∈ [((7 : Nat), Way_Skeleton.mk 2 [10] [])], ∀ e ∈ demo_batch_late,
        q.2.id ≠ e.elem.id)
    ∧ ([((7 : Nat), Way_Skeleton.mk 2 [10] [])].map (fun q => q.2.id)).Nodup
    ∧ (∀ e ∈ demo_batch_late, ∀ t,
        List.lookup e.elem.id demo_context.existing_attic_skeleton_timestamps = some t →
        t.2.timestamp ≤ e.meta.timestamp)
    ∧ Attic_Update.empty.stores.full_attic = []
    ∧ ∃ u', compute_new_attic_skeletons demo_env demo_context demo_batch_late
          [(7, Way_Skeleton.mk 2 [10] [])] Attic_Update.empty = some u'
        ∧ (u'.stores.full_attic.map attic_key).Nodup :=
  ⟨demo_env_delta_id, demo_env_expand_id, by decide, by decide, by decide, by decide,
   demo_batch_late_prior, rfl,
   attic_keys_unique demo_env demo_env_delta_id demo_env_expand_id demo_context demo_batch_late
     [(7, Way_Skeleton.mk 2 [10] [])] Attic_Update.empty (by decide) (by decide) (by decide)
     (by decide) demo_batch_late_prior rfl⟩

/-! ## Claims on the current state -/

theorem located_idxs_foldl (m : Node_Idx_By_Id) (nds : List Nat) (acc : List Nat) :
    nds.foldl (fun nd_idxs n =>
      match List.lookup n m with
      | some c => nd_idxs ++ [c.ll_upper]
      | none => nd_idxs) acc = acc ++ node_buckets m nds := by
  induction nds generalizing acc with
  | nil => simp [node_buckets]
  | cons n nds ih =>
    rw [List.foldl_cons, ih]
    cases h : List.lookup n m with
    | none => simp [node_buckets, h]
    | some c => simp [node_buckets, h]

theorem located_idxs_eq (m : Node_Idx_By_Id) (nds : List Nat) :
    located_idxs m nds = node_buckets m nds := by
  unfold located_idxs
  rw [located_idxs_foldl]
  simp

theorem implicit_fold_moved_ways (E : Env) (m : Node_Idx_By_Id)
    (ex : List (Nat × Way_Skeleton)) (acc : Current_Update) :
    (ex.foldl (fun acc p =>
      Current_Update.mk acc.attic_skeletons
        (map_set_insert same_way acc.new_skeletons (E.calc_index (located_idxs m p.2.nds))
          (implicit_new_skeleton E m p.2))
        (if ¬ E.calc_index (located_idxs m p.2.nds) = p.1 then acc.moved_ways ++ [(p.2.id, p.1)]
         else acc.moved_ways)) acc).moved_ways
      = acc.moved_ways
        ++ (ex.filter (fun p => decide (E.calc_index (node_buckets m p.2.nds) ≠ p.1))).map
            (fun p => (p.2.id, p.1)) := by
  induction ex generalizing acc with
  | nil => simp
  | cons p ex ih =>
    rw [List.foldl_cons, ih]
    simp only [located_idxs_eq]
    by_cases h : E.calc_index (node_buckets m p.2.nds) = p.1
    · simp [h, List.filter_cons]
    · simp [h, List.filter_cons]

theorem implicit_fold_new_skeletons (E : Env) (m : Node_Idx_By_Id)
    (ex : List (Nat × Way_Skeleton)) (acc : Current_Update) (x : Nat × Way_Skeleton)
    (hx : x ∈ (ex.foldl (fun acc p =>
      Current_Update.mk acc.attic_skeletons
        (map_set_insert same_way acc.new_skeletons (E.calc_index (located_idxs m p.2.nds))
          (implicit_new_skeleton E m p.2))
        (if ¬ E.calc_index (located_idxs m p.2.nds) = p.1 then acc.moved_ways ++ [(p.2.id, p.1)]
         else acc.moved_ways)) acc).new_skeletons) :
    x ∈ acc.new_skeletons
      ∨ (x.1 = E.calc_index (node_buckets m x.2.nds)
          ∧ ∃ p ∈ ex, x.2.id = p.2.id ∧ x.2.nds = p.2.nds) := by
  induction ex generalizing acc with
  | nil => exact Or.inl hx
  | cons p ex ih =>
    rw [List.foldl_cons] at hx
    rcases ih _ hx with h | ⟨h1, q, hq, h2⟩
    · simp only at h
      rcases mem_map_set_insert _ _ _ _ _ h with h' | h'
      · exact Or.inl h'
      · right
        rw [h']
        simp only [implicit_new_skeleton, located_idxs_eq]
        exact ⟨trivial, p, by simp, rfl, rfl⟩
    · exact Or.inr ⟨h1, q, by simp [hq], h2⟩

/-- Claim C13. `new_implicit_skeletons` appends to `moved_ways`, in iteration order, the pair of
way id and old bucket of exactly those implicitly moved ways for which `calc_index` of the current
buckets of the nodes differs from the bucket the way is stored under; nothing is appended for a
way whose recomputed bucket equals its old bucket, whatever its node list and geometry are. -/
theorem moved_ways_exact (E : Env) (m : Node_Idx_By_Id) (ex : List (Nat × Way_Skeleton))
    (r : Bool) (u : Current_Update) :
    (new_implicit_skeletons E m ex r u).moved_ways
      = u.moved_ways
        ++ (ex.filter (fun p => decide (E.calc_index (node_buckets m p.2.nds) ≠ p.1))).map
            (fun p => (p.2.id, p.1)) := by
  unfold new_implicit_skeletons
  rw [implicit_fold_moved_ways]

theorem compute_geometry_getElem (E : Env) (m : Node_Idx_By_Id) (pre : List Entry) (it : Entry)
    (rest : List Entry) :
    (compute_geometry E m (pre ++ it :: rest))[pre.length]?
      = (compute_geometry E m (it :: rest)).head? := by
  induction pre with
  | nil => simp [compute_geometry]
  | cons e pre ih =>
    simp only [List.cons_append, compute_geometry, List.length_cons, List.getElem?_cons_succ]
    exact ih

theorem compute_geometry_entry_idx (E : Env) (m : Node_Idx_By_Id) (it : Entry) :
    (compute_geometry_entry E m it).idx = E.calc_index (node_buckets m it.elem.nds)
      ∧ (compute_geometry_entry E m it).elem.id = it.elem.id
      ∧ (compute_geometry_entry E m it).elem.nds = it.elem.nds
      ∧ (compute_geometry_entry E m it).meta = it.meta := by
  simp [compute_geometry_entry, located_idxs_eq]

/-- Claim C14. Every batch entry that `compute_geometry` treats as the latest version of its way
(no entry with the same id follows it directly) and as not deleted (bucket not 0) ends with
`idx = calc_index` of the buckets of its nodes found in the map, in node order; and every
skeleton that `new_implicit_skeletons` adds to `new_skeletons` is inserted under the key
`calc_index` of the buckets of its nodes found in the map. -/
theorem bucket_consistency (E : Env) (m : Node_Idx_By_Id) (pre : List Entry) (it : Entry)
    (rest : List Entry) (ex : List (Nat × Way_Skeleton)) (r : Bool) (u : Current_Update) :
    ((∀ nx, rest.head? = some nx → nx.elem.id ≠ it.elem.id) → it.idx ≠ 0 →
      ∃ e, (compute_geometry E m (pre ++ it :: rest))[pre.length]? = some e
        ∧ e.idx = E.calc_index (node_buckets m it.elem.nds)
        ∧ e.elem.id = it.elem.id ∧ e.elem.nds = it.elem.nds)
    ∧ (∀ x ∈ (new_implicit_skeletons E m ex r u).new_skeletons,
        x ∈ u.new_skeletons
          ∨ (x.1 = E.calc_index (node_buckets m x.2.nds)
              ∧ ∃ p ∈ ex, x.2.id = p.2.id ∧ x.2.nds = p.2.nds)) := by
  constructor
  · intro hlast hidx
    rw [compute_geometry_getElem]
    obtain ⟨h1, h2, h3, _⟩ := compute_geometry_entry_idx E m it
    cases hr : rest.head? with
    | none =>
      refine ⟨compute_geometry_entry E m it, ?_, h1, h2, h3⟩
      simp [compute_geometry, hr, hidx]
    | some nx =>
      refine ⟨compute_geometry_entry E m it, ?_, h1, h2, h3⟩
      have := hlast nx hr
      simp [compute_geometry, hr, hidx, this]
  · intro x hx
    unfold new_implicit_skeletons at hx
    exact implicit_fold_new_skeletons E m ex
      (Current_Update.mk (ex.foldl (fun acc p => map_set_insert same_way acc p.1 p.2)
        u.attic_skeletons) u.new_skeletons u.moved_ways) x hx

/-- Witness for claim C14: with node 10 in bucket 7 the single entry of way 1 ends in
bucket 7. -/
theorem bucket_consistency_witness :
    (∀ nx, ([] : List Entry).head? = some nx →
        nx.elem.id ≠ (Entry.mk 255 (Way_Skeleton.mk 1 [10] []) (Meta.mk 100)).elem.id)
    ∧ (Entry.mk 255 (Way_Skeleton.mk 1 [10] []) (Meta.mk 100)).idx ≠ 0
    ∧ ∃ e, (compute_geometry demo_env [(10, Quad_Coord.mk 7 3)]
          ([] ++ Entry.mk 255 (Way_Skeleton.mk 1 [10] []) (Meta.mk 100) :: []))[
            ([] : List Entry).length]? = some e
        ∧ e.idx = demo_env.calc_index (node_buckets [(10, Quad_Coord.mk 7 3)]
            (Entry.mk 255 (Way_Skeleton.mk 1 [10] []) (Meta.mk 100)).elem.nds)
        ∧ e.elem.id = (Entry.mk 255 (Way_Skeleton.mk 1 [10] []) (Meta.mk 100)).elem.id
        ∧ e.elem.nds = (Entry.mk 255 (Way_Skeleton.mk 1 [10] []) (Meta.mk 100)).elem.nds :=
  ⟨by simp, by decide,
   (bucket_consistency demo_env [(10, Quad_Coord.mk 7 3)] []
      (Entry.mk 255 (Way_Skeleton.mk 1 [10] []) (Meta.mk 100)) [] [] false
      (Current_Update.mk [] [] [])).1 (by simp) (by decide)⟩

theorem compute_geometry_frame (E : Env) (m : Node_Idx_By_Id) (l : List Entry) :
    (compute_geometry E m l).map (fun e => (e.elem.id, e.elem.nds, e.meta))
      = l.map (fun e => (e.elem.id, e.elem.nds, e.meta)) := by
  induction l with
  | nil => rfl
  | cons it rest ih =>
    simp only [compute_geometry, List.map_cons, ih, List.cons.injEq, and_true]
    obtain ⟨_, h2, h3, h4⟩ := compute_geometry_entry_idx E m it
    cases rest.head? with
    | none =>
      simp only
      split
      · rfl
      · rw [h2, h3, h4]
    | some nx =>
      simp only
      split
      · rfl
      · split
        · rfl
        · rw [h2, h3, h4]

/-- Claim C15. `compute_geometry` keeps the number and order of the entries and the id, node list
and meta data of every entry; an entry that is directly followed by an entry with the same id,
and an entry with bucket 0, is left exactly as it was, bucket and geometry included. -/
theorem compute_geometry_unchanged (E : Env) (m : Node_Idx_By_Id) (l : List Entry) :
    (compute_geometry E m l).length = l.length
    ∧ (compute_geometry E m l).map (fun e => (e.elem.id, e.elem.nds, e.meta))
        = l.map (fun e => (e.elem.id, e.elem.nds, e.meta))
    ∧ ∀ pre it rest, l = pre ++ it :: rest →
        ((∃ nx, rest.head? = some nx ∧ nx.elem.id = it.elem.id) ∨ it.idx = 0) →
        (compute_geometry E m l)[pre.length]? = some it := by
  refine ⟨?_, compute_geometry_frame E m l, ?_⟩
  · have h := congrArg List.length (compute_geometry_frame E m l)
    simpa using h
  · intro pre it rest hl hc
    rw [hl, compute_geometry_getElem]
    rcases hc with ⟨nx, hnx, hid⟩ | hz
    · simp [compute_geometry, hnx, hid]
    · cases hr : rest.head? with
      | none => simp [compute_geometry, hr, hz]
      | some nx => simp [compute_geometry, hr, hz]

/-- Witness for claim C15: of two versions of way 1 the first one is left as it was. -/
theorem compute_geometry_unchanged_witness :
    demo_batch = [] ++ Entry.mk 9 (Way_Skeleton.mk 1 [10] []) (Meta.mk 100)
        :: [Entry.mk 9 (Way_Skeleton.mk 1 [10, 11] []) (Meta.mk 200)]
    ∧ ((∃ nx, [Entry.mk 9 (Way_Skeleton.mk 1 [10, 11] []) (Meta.mk 200)].head? = some nx
          ∧ nx.elem.id = (Entry.mk 9 (Way_Skeleton.mk 1 [10] []) (Meta.mk 100)).elem.id)
        ∨ (Entry.mk 9 (Way_Skeleton.mk 1 [10] []) (Meta.mk 100)).idx = 0)
    ∧ (compute_geometry demo_env [(10, Quad_Coord.mk 7 3)] demo_batch)[
          ([] : List Entry).length]?
        = some (Entry.mk 9 (Way_Skeleton.mk 1 [10] []) (Meta.mk 100)) :=
  ⟨rfl, Or.inl ⟨_, rfl, rfl⟩,
   (compute_geometry_unchanged demo_env [(10, Quad_Coord.mk 7 3)] demo_batch).2.2 []
     (Entry.mk 9 (Way_Skeleton.mk 1 [10] []) (Meta.mk 100))
     [Entry.mk 9 (Way_Skeleton.mk 1 [10, 11] []) (Meta.mk 200)] rfl (Or.inl ⟨_, rfl, rfl⟩)⟩

theorem lookup_map_insert (m : Node_Idx_By_Id) (n : Nat) (c : Quad_Coord) (k : Nat) :
    List.lookup k (map_insert m n c) = (List.lookup k m).or (List.lookup k [(n, c)]) := by
  unfold map_insert
  by_cases h : (List.lookup n m).isSome
  · rw [if_pos h]
    by_cases hk : k = n
    · subst hk
      obtain ⟨v, hv⟩ := Option.isSome_iff_exists.mp h
      rw [hv]
      rfl
    · have hkn : (k == n) = false := by simp [hk]
      have : List.lookup k [(n, c)] = none := by
        simp [List.lookup_cons, hkn]
      rw [this]
      simp
  · rw [if_neg h, List.lookup_append]

theorem insert_known_coords_spec (m : Node_Idx_By_Id) (nds : List Nat) (cs : List Quad_Coord)
    (hb : cs.length ≤ nds.length) :
    ∃ m1, insert_known_coords m nds cs = some m1
      ∧ (∃ added, m1 = m ++ added
          ∧ ∀ x ∈ added, x ∈ List.zip nds cs ∧ List.lookup x.1 m = none)
      ∧ ∀ k, List.lookup k m1 = (List.lookup k m).or (List.lookup k (List.zip nds cs)) := by
  induction cs generalizing m nds with
  | nil =>
    refine ⟨m, ?_, ⟨[], by simp, by simp⟩, ?_⟩
    · cases nds <;> rfl
    · intro k
      simp
  | cons c cs ih =>
    cases nds with
    | nil => simp at hb
    | cons n nds =>
      have hb' : cs.length ≤ nds.length := by simpa using hb
      obtain ⟨m1, h1, ⟨added, h2, h3⟩, h4⟩ := ih (map_insert m n c) nds hb'
      refine ⟨m1, by simpa [insert_known_coords] using h1, ?_, ?_⟩
      · unfold map_insert at h2 h3
        by_cases h : (List.lookup n m).isSome
        · rw [if_pos h] at h2 h3
          refine ⟨added, h2, ?_⟩
          intro x hx
          exact ⟨by simp [(h3 x hx).1], (h3 x hx).2⟩
        · rw [if_neg h] at h2 h3
          refine ⟨(n, c) :: added, by simp [h2], ?_⟩
          intro x hx
          rcases List.mem_cons.mp hx with rfl | hx'
          · exact ⟨by simp, Option.not_isSome_iff_eq_none.mp h⟩
          · refine ⟨by simp [(h3 x hx').1], ?_⟩
            have := (h3 x hx').2
            rw [List.lookup_append] at this
            cases hm : List.lookup x.1 m with
            | none => rfl
            | some v => simp [hm] at this
      · intro k
        rw [h4, lookup_map_insert, List.zip_cons_cons]
        have : List.lookup k ((n, c) :: List.zip nds cs)
            = (List.lookup k [(n, c)]).or (List.lookup k (List.zip nds cs)) := by
          rw [← List.lookup_append]
          rfl
        rw [this]
        cases List.lookup k m <;> cases List.lookup k [(n, c)] <;> rfl

theorem add_implicitly_known_nodes_spec (m : Node_Idx_By_Id) (ways : List (Nat × Way_Skeleton))
    (hb : ∀ p ∈ ways, p.2.geometry.length ≤ p.2.nds.length) :
    ∃ m1, add_implicitly_known_nodes m ways = some m1
      ∧ (∃ added, m1 = m ++ added
          ∧ ∀ x ∈ added, x ∈ implied_coords ways ∧ List.lookup x.1 m = none)
      ∧ ∀ k, List.lookup k m1 = (List.lookup k m).or (List.lookup k (implied_coords ways)) := by
  induction ways generalizing m with
  | nil => exact ⟨m, rfl, ⟨[], by simp, by simp⟩, fun k => by simp [implied_coords]⟩
  | cons p rest ih =>
    have hrest : ∀ q ∈ rest, q.2.geometry.length ≤ q.2.nds.length :=
      fun q hq => hb q (by simp [hq])
    by_cases hg : p.2.geometry ≠ []
    · obtain ⟨m1, h1, ⟨a1, h2, h3⟩, h4⟩ :=
        insert_known_coords_spec m p.2.nds p.2.geometry (hb p (by simp))
      obtain ⟨m2, h5, ⟨a2, h6, h7⟩, h8⟩ := ih m1 hrest
      refine ⟨m2, ?_, ⟨a1 ++ a2, by simp [h6, h2], ?_⟩, ?_⟩
      · simp only [add_implicitly_known_nodes, if_pos hg, h1]
        exact h5
      · intro x hx
        rcases List.mem_append.mp hx with h | h
        · exact ⟨by simp [implied_coords, (h3 x h).1], (h3 x h).2⟩
        · refine ⟨by simp [implied_coords, (h7 x h).1], ?_⟩
          have := (h7 x h).2
          rw [h4] at this
          cases hm : List.lookup x.1 m with
          | none => rfl
          | some v => simp [hm] at this
      · intro k
        rw [h8, h4]
        simp only [implied_coords, List.lookup_append]
        cases List.lookup k m <;> cases List.lookup k (List.zip p.2.nds p.2.geometry) <;> rfl
    · have hg' : p.2.geometry = [] := by simpa using hg
      obtain ⟨m2, h5, ⟨a2, h6, h7⟩, h8⟩ := ih m hrest
      refine ⟨m2, ?_, ⟨a2, h6, ?_⟩, ?_⟩
      · simp only [add_implicitly_known_nodes, if_neg hg]
        exact h5
      · intro x hx
        exact ⟨by simp [implied_coords, (h7 x hx).1], (h7 x hx).2⟩
      · intro k
        rw [h8]
        simp [implied_coords, hg']

theorem insert_known_coords_present (m : Node_Idx_By_Id) (nds : List Nat) (cs : List Quad_Coord)
    (hb : cs.length ≤ nds.length)
    (hp : ∀ x ∈ List.zip nds cs, (List.lookup x.1 m).isSome) :
    insert_known_coords m nds cs = some m := by
  induction cs generalizing nds with
  | nil => cases nds <;> rfl
  | cons c cs ih =>
    cases nds with
    | nil => simp at hb
    | cons n nds =>
      have hb' : cs.length ≤ nds.length := by simpa using hb
      have hn : (List.lookup n m).isSome := hp (n, c) (by simp)
      have hm : map_insert m n c = m := by
        unfold map_insert
        rw [if_pos hn]
      simp only [insert_known_coords, hm]
      exact ih nds hb' (fun x hx => hp x (by simp [hx]))

theorem add_implicitly_known_nodes_present (m : Node_Idx_By_Id)
    (ways : List (Nat × Way_Skeleton))
    (hb : ∀ p ∈ ways, p.2.geometry.length ≤ p.2.nds.length)
    (hp : ∀ x ∈ implied_coords ways, (List.lookup x.1 m).isSome) :
    add_implicitly_known_nodes m ways = some m := by
  induction ways with
  | nil => rfl
  | cons p rest ih =>
    have hrest := ih (fun q hq => hb q (by simp [hq]))
      (fun x hx => hp x (by simp [implied_coords, hx]))
    by_cases hg : p.2.geometry ≠ []
    · simp only [add_implicitly_known_nodes, if_pos hg]
      rw [insert_known_coords_present m p.2.nds p.2.geometry (hb p (by simp))
        (fun x hx => hp x (by simp [implied_coords, hx]))]
      exact hrest
    · simp only [add_implicitly_known_nodes, if_neg hg]
      exact hrest

theorem lookup_isSome_of_mem (l : Node_Idx_By_Id) (x : Nat × Quad_Coord) (hx : x ∈ l) :
    (List.lookup x.1 l).isSome := by
  rw [List.lookup_isSome_iff]
  exact ⟨x, hx, by simp⟩

/-- Claim C16. `add_implicitly_known_nodes` never overwrites: the map after the call is the map
before the call followed by added pairs, so every key of the map keeps its coordinate; every
added pair is a pair of `nds[i]` and `geometry[i]` of a known way whose key was not in the map,
and a key that was not in the map is mapped to the coordinate of the first such pair in iteration
order; a second call with the same ways changes nothing. The call is defined when no known way
has more coordinates than node ids. -/
theorem add_implicitly_known_nodes_keeps (m : Node_Idx_By_Id)
    (ways : List (Nat × Way_Skeleton))
    (hb : ∀ p ∈ ways, p.2.geometry.length ≤ p.2.nds.length) :
    ∃ m1, add_implicitly_known_nodes m ways = some m1
      ∧ (∃ added, m1 = m ++ added
          ∧ ∀ x ∈ added, x ∈ implied_coords ways ∧ List.lookup x.1 m = none)
      ∧ (∀ k, List.lookup k m1 = (List.lookup k m).or (List.lookup k (implied_coords ways)))
      ∧ add_implicitly_known_nodes m1 ways = some m1 := by
  obtain ⟨m1, h1, h2, h3⟩ := add_implicitly_known_nodes_spec m ways hb
  refine ⟨m1, h1, h2, h3, ?_⟩
  apply add_implicitly_known_nodes_present m1 ways hb
  intro x hx
  rw [h3]
  have := lookup_isSome_of_mem _ x hx
  cases List.lookup x.1 m with
  | none => simpa using this
  | some v => rfl

/-- Witness for claim C16: node 10 is known already, node 11 is learnt from way 1. -/
theorem add_implicitly_known_nodes_keeps_witness :
    (∀ p ∈ [((5 : Nat), Way_Skeleton.mk 1 [10, 11] [Quad_Coord.mk 5 1, Quad_Coord.mk 5 2])],
        p.2.geometry.length ≤ p.2.nds.length)
    ∧ ∃ m1, add_implicitly_known_nodes [(10, Quad_Coord.mk 7 3)]
          [(5, Way_Skeleton.mk 1 [10, 11] [Quad_Coord.mk 5 1, Quad_Coord.mk 5 2])] = some m1
        ∧ (∃ added, m1 = [(10, Quad_Coord.mk 7 3)] ++ added
            ∧ ∀ x ∈ added,
                x ∈ implied_coords
                    [(5, Way_Skeleton.mk 1 [10, 11] [Quad_Coord.mk 5 1, Quad_Coord.mk 5 2])]
                  ∧ List.lookup x.1 [(10, Quad_Coord.mk 7 3)] = none)
        ∧ (∀ k, List.lookup k m1 = (List.lookup k [(10, Quad_Coord.mk 7 3)]).or
            (List.lookup k (implied_coords
              [(5, Way_Skeleton.mk 1 [10, 11] [Quad_Coord.mk 5 1, Quad_Coord.mk 5 2])])))
        ∧ add_implicitly_known_nodes m1
            [(5, Way_Skeleton.mk 1 [10, 11] [Quad_Coord.mk 5 1, Quad_Coord.mk 5 2])]
          = some m1 :=
  ⟨by decide,
   add_implicitly_known_nodes_keeps [(10, Quad_Coord.mk 7 3)]
     [(5, Way_Skeleton.mk 1 [10, 11] [Quad_Coord.mk 5 1, Quad_Coord.mk 5 2])] (by decide)⟩


theorem moved_fold_mem (ks ns : List Nat) (l acc : List (Nat × Way_Skeleton))
    (x : Nat × Way_Skeleton)
    (hx : x ∈ l.foldl (fun result p =>
      if p.2.id ∈ ks then result
      else if p.2.nds.any (fun n => decide (n ∈ ns)) then map_set_insert same_way result p.1 p.2
      else result) acc) :
    x ∈ acc ∨ (x ∈ l ∧ x.2.id ∉ ks ∧ ∃ n ∈ x.2.nds, n ∈ ns) := by
  induction l generalizing acc with
  | nil => exact Or.inl hx
  | cons p l ih =>
    rw [List.foldl_cons] at hx
    rcases ih _ hx with h | h
    · by_cases hk : p.2.id ∈ ks
      · rw [if_pos hk] at h
        exact Or.inl h
      · rw [if_neg hk] at h
        by_cases ha : p.2.nds.any (fun n => decide (n ∈ ns)) = true
        · rw [if_pos ha] at h
          rcases mem_map_set_insert _ _ _ _ _ h with h' | h'
          · exact Or.inl h'
          · right
            rw [h']
            refine ⟨by simp, hk, ?_⟩
            simpa using ha
        · rw [if_neg ha] at h
          exact Or.inl h
    · exact Or.inr ⟨by simp [h.1], h.2⟩

theorem moved_fold_subset (ks ns : List Nat) (l acc : List (Nat × Way_Skeleton))
    (x : Nat × Way_Skeleton) (hx : x ∈ acc) :
    x ∈ l.foldl (fun result p =>
      if p.2.id ∈ ks then result
      else if p.2.nds.any (fun n => decide (n ∈ ns)) then map_set_insert same_way result p.1 p.2
      else result) acc := by
  induction l generalizing acc with
  | nil => exact hx
  | cons p l ih =>
    rw [List.foldl_cons]
    apply ih
    split
    · exact hx
    · split
      · exact map_set_insert_subset _ _ _ _ _ hx
      · exact hx

theorem moved_fold_present (ks ns : List Nat) (l acc : List (Nat × Way_Skeleton))
    (x : Nat × Way_Skeleton) (hx : x ∈ l) (hk : x.2.id ∉ ks) (hn : ∃ n ∈ x.2.nds, n ∈ ns) :
    ∃ y ∈ l.foldl (fun result p =>
      if p.2.id ∈ ks then result
      else if p.2.nds.any (fun n => decide (n ∈ ns)) then map_set_insert same_way result p.1 p.2
      else result) acc, y.1 = x.1 ∧ y.2.id = x.2.id := by
  induction l generalizing acc with
  | nil => simp at hx
  | cons p l ih =>
    rw [List.foldl_cons]
    rcases List.mem_cons.mp hx with rfl | h
    · have ha : x.2.nds.any (fun n => decide (n ∈ ns)) = true := by simpa using hn
      rw [if_neg hk, if_pos ha]
      obtain ⟨y, hy, h1, h2⟩ := map_set_insert_present same_way (fun a => by simp [same_way])
        acc x.1 x.2
      refine ⟨y, moved_fold_subset ks ns l _ y hy, h1, ?_⟩
      simpa [same_way] using h2
    · exact ih _ h

theorem moved_fold_filter (ks ns : List Nat) (l acc : List (Nat × Way_Skeleton))
    (hnd : (l.map (fun p => (p.1, p.2.id))).Nodup)
    (hacc : ∀ q ∈ acc, ∀ p ∈ l, ¬ (q.1 = p.1 ∧ q.2.id = p.2.id)) :
    l.foldl (fun result p =>
      if p.2.id ∈ ks then result
      else if p.2.nds.any (fun n => decide (n ∈ ns)) then map_set_insert same_way result p.1 p.2
      else result) acc
    = acc ++ l.filter (fun p => decide (p.2.id ∉ ks ∧ ∃ n ∈ p.2.nds, n ∈ ns)) := by
  induction l generalizing acc with
  | nil => simp
  | cons p l ih =>
    rw [List.foldl_cons]
    rw [List.map_cons, List.nodup_cons] at hnd
    have hacc' : ∀ q ∈ acc, ∀ p' ∈ l, ¬ (q.1 = p'.1 ∧ q.2.id = p'.2.id) :=
      fun q hq p' hp' => hacc q hq p' (by simp [hp'])
    by_cases hk : p.2.id ∈ ks
    · rw [if_pos hk, ih _ hnd.2 hacc']
      simp [List.filter_cons, hk]
    · rw [if_neg hk]
      by_cases ha : p.2.nds.any (fun n => decide (n ∈ ns)) = true
      · rw [if_pos ha]
        have hn : ∃ n ∈ p.2.nds, n ∈ ns := by simpa using ha
        have hins : map_set_insert same_way acc p.1 p.2 = acc ++ [p] := by
          apply map_set_insert_fresh
          intro q hq h1
          by_contra hc
          simp only [same_way, Bool.not_eq_false, decide_eq_true_eq] at hc
          exact hacc q hq p (by simp) ⟨h1, hc⟩
        rw [hins, ih _ hnd.2]
        · simp [List.filter_cons, hk, hn]
        · intro q hq p' hp' hc
          rcases List.mem_append.mp hq with h | h
          · exact hacc' q h p' hp' hc
          · simp only [List.mem_singleton] at h
            subst h
            apply hnd.1
            simp only [List.mem_map]
            exact ⟨p', hp', by rw [hc.1, hc.2]⟩
      · rw [if_neg ha, ih _ hnd.2 hacc']
        have hn : ¬ ∃ n ∈ p.2.nds, n ∈ ns := by simpa using ha
        simp [List.filter_cons, hk, hn]

theorem mem_sorted_ids {α : Type} (f : α → Nat) (l : List α) (k : Nat) :
    k ∈ unique (List.insertionSort (fun a b => a ≤ b) (l.foldl (fun ids p => ids ++ [f p]) []))
      ↔ ∃ a ∈ l, f a = k := by
  rw [mem_unique, List.mem_insertionSort, foldl_push_eq_map]
  simp

/-- Claim C12. Of the pairs of bucket and way found by the scan, `get_implicitly_moved_skeletons`
returns, under the bucket of the pair, only ways whose id is not the id of an already known
skeleton and whose node list contains the id of a moved node, and for every such scanned way the
result holds a way of that id under that bucket (the result is a set of ways per bucket); when the
scan visits no way twice under one bucket, the result is exactly the list of these scanned pairs.
The arguments are read-only. -/
theorem implicitly_moved_exact (attic_nodes : List (Nat × Node_Skeleton))
    (known scanned : List (Nat × Way_Skeleton)) :
    (∀ x ∈ get_implicitly_moved_skeletons attic_nodes known scanned,
        x ∈ scanned ∧ (∀ k ∈ known, k.2.id ≠ x.2.id)
          ∧ ∃ n ∈ x.2.nds, ∃ a ∈ attic_nodes, a.2.id = n)
    ∧ (∀ x ∈ scanned, (∀ k ∈ known, k.2.id ≠ x.2.id) →
        (∃ n ∈ x.2.nds, ∃ a ∈ attic_nodes, a.2.id = n) →
        ∃ y ∈ get_implicitly_moved_skeletons attic_nodes known scanned,
          y.1 = x.1 ∧ y.2.id = x.2.id)
    ∧ ((scanned.map (fun p => (p.1, p.2.id))).Nodup →
        get_implicitly_moved_skeletons attic_nodes known scanned
          = scanned.filter (fun p => decide ((∀ k ∈ known, k.2.id ≠ p.2.id)
              ∧ ∃ n ∈ p.2.nds, ∃ a ∈ attic_nodes, a.2.id = n))) := by
  have hk : ∀ w : Nat, w ∉ unique (List.insertionSort (fun a b => a ≤ b)
      (known.foldl (fun ids p => ids ++ [p.2.id]) [])) ↔ ∀ k ∈ known, k.2.id ≠ w := by
    intro w
    rw [mem_sorted_ids (fun p : Nat × Way_Skeleton => p.2.id)]
    simp
  have hn : ∀ nds : List Nat, (∃ n ∈ nds, n ∈ unique (List.insertionSort (fun a b => a ≤ b)
      (attic_nodes.foldl (fun ids p => ids ++ [p.2.id]) [])))
      ↔ ∃ n ∈ nds, ∃ a ∈ attic_nodes, a.2.id = n := by
    intro nds
    simp only [mem_sorted_ids (fun p : Nat × Node_Skeleton => p.2.id)]
  unfold get_implicitly_moved_skeletons
  simp only
  refine ⟨?_, ?_, ?_⟩
  · intro x hx
    rcases moved_fold_mem _ _ _ _ x hx with h | h
    · simp at h
    · exact ⟨h.1, (hk _).mp h.2.1, (hn _).mp h.2.2⟩
  · intro x hx h1 h2
    exact moved_fold_present _ _ _ _ x hx ((hk _).mpr h1) ((hn _).mpr h2)
  · intro hnd
    rw [moved_fold_filter _ _ _ _ hnd (by simp), List.nil_append]
    apply List.filter_congr
    intro p _
    rw [decide_eq_decide]
    rw [hk, hn]

/-- Witness for claim C12: of the scanned ways 1 and 2 only way 2 uses the moved node 10. -/
theorem implicitly_moved_exact_witness :
    ([((5 : Nat), Way_Skeleton.mk 1 [11] []), (5, Way_Skeleton.mk 2 [10, 11] [])].map
        (fun p => (p.1, p.2.id))).Nodup
    ∧ get_implicitly_moved_skeletons [(3, Node_Skeleton.mk 10 0)] []
          [(5, Way_Skeleton.mk 1 [11] []), (5, Way_Skeleton.mk 2 [10, 11] [])]
        = [((5 : Nat), Way_Skeleton.mk 1 [11] []), (5, Way_Skeleton.mk 2 [10, 11] [])].filter
            (fun p => decide ((∀ k ∈ ([] : List (Nat × Way_Skeleton)), k.2.id ≠ p.2.id)
              ∧ ∃ n ∈ p.2.nds, ∃ a ∈ [((3 : Nat), Node_Skeleton.mk 10 0)], a.2.id = n)) :=
  ⟨by decide,
   (implicitly_moved_exact [(3, Node_Skeleton.mk 10 0)] []
      [(5, Way_Skeleton.mk 1 [11] []), (5, Way_Skeleton.mk 2 [10, 11] [])]).2.2 (by decide)⟩


/-! ## Claims on the changelog -/

theorem changelog_entries_append (sk : Way_Skeleton) (old new : Nat) (nb : Nodes_By_Id)
    (alv : Bool) (a ni : Nat) (result : List (Nat × Nat)) :
    add_intermediate_changelog_entries sk old new nb alv a ni result
      = result
        ++ ((pop_back_if (relevant_timestamps sk.nds old new nb) NOW).map (fun t => (t, sk.id))
            ++ (if alv = true then [(new, sk.id)] else [])) := by
  unfold add_intermediate_changelog_entries
  simp only [foldl_push_eq_map]
  cases alv <;> simp

/-- Claim C17. `add_intermediate_changelog_entries` leaves the entries already listed in the
changelog in place and appends behind them the id of the way under exactly the timestamps `t` of
resolver snapshots of the nodes of the way with `old_timestamp < t <= new_timestamp` and
`t != NOW` and, when `add_last_version` holds, under `new_timestamp`; no other id and no other
timestamp is appended. -/
theorem changelog_entries_exact (sk : Way_Skeleton) (old new : Nat) (nb : Nodes_By_Id)
    (alv : Bool) (a ni : Nat) (result : List (Nat × Nat)) (hnew : new ≤ NOW) :
    (add_intermediate_changelog_entries sk old new nb alv a ni result).take result.length
        = result
    ∧ ∀ t id,
        (t, id) ∈ (add_intermediate_changelog_entries sk old new nb alv a ni result).drop
            result.length
          ↔ id = sk.id
              ∧ ((snapshot_in_window sk.nds old new nb t ∧ t ≠ NOW)
                  ∨ (alv = true ∧ t = new)) := by
  rw [changelog_entries_append]
  refine ⟨List.take_left _ _, ?_⟩
  intro t id
  rw [List.drop_left, List.mem_append, List.mem_map]
  constructor
  · rintro (⟨t', ht', heq⟩ | h)
    · simp only [Prod.mk.injEq] at heq
      rw [mem_pop_now _ _ _ _ hnew] at ht'
      rw [← heq.1, ← heq.2]
      exact ⟨rfl, Or.inl ht'⟩
    · by_cases ha : alv = true
      · rw [if_pos ha] at h
        simp only [List.mem_singleton, Prod.mk.injEq] at h
        exact ⟨h.2, Or.inr ⟨ha, h.1⟩⟩
      · rw [if_neg ha] at h
        simp at h
  · rintro ⟨rfl, h | h⟩
    · left
      exact ⟨t, (mem_pop_now _ _ _ _ hnew t).mpr h, rfl⟩
    · right
      rw [if_pos h.1, h.2]
      simp

/-- Witness for claim C17: the way over nodes 10 and 11 in the window `(100, 200]`. -/
theorem changelog_entries_exact_witness :
    200 ≤ NOW
    ∧ (add_intermediate_changelog_entries (Way_Skeleton.mk 1 [10, 11] []) 100 200 demo_nodes
          true 0 0 [(50, 7)]).take [((50 : Nat), (7 : Nat))].length = [(50, 7)]
    ∧ ∀ t id,
        (t, id) ∈ (add_intermediate_changelog_entries (Way_Skeleton.mk 1 [10, 11] []) 100 200
            demo_nodes true 0 0 [(50, 7)]).drop [((50 : Nat), (7 : Nat))].length
          ↔ id = (Way_Skeleton.mk 1 [10, 11] []).id
              ∧ ((snapshot_in_window (Way_Skeleton.mk 1 [10, 11] []).nds 100 200 demo_nodes t
                    ∧ t ≠ NOW)
                  ∨ (true = true ∧ t = 200)) :=
  ⟨by decide,
   changelog_entries_exact (Way_Skeleton.mk 1 [10, 11] []) 100 200 demo_nodes true 0 0 [(50, 7)]
     (by decide)⟩


theorem changelog_entries_mono (sk : Way_Skeleton) (old new : Nat) (nb : Nodes_By_Id)
    (alv : Bool) (a ni : Nat) (result : List (Nat × Nat)) (x : Nat × Nat) (hx : x ∈ result) :
    x ∈ add_intermediate_changelog_entries sk old new nb alv a ni result := by
  rw [changelog_entries_append]
  exact List.mem_append.mpr (Or.inl hx)

theorem changelog_entries_last (sk : Way_Skeleton) (old new : Nat) (nb : Nodes_By_Id)
    (a ni : Nat) (result : List (Nat × Nat)) :
    (new, sk.id) ∈ add_intermediate_changelog_entries sk old new nb true a ni result := by
  rw [changelog_entries_append]
  simp

theorem changelog_entry_step_last_id (E : Env) (ctx : Attic_Context) (it : Entry)
    (next : Option Entry) (last_id : Nat) (result : List (Nat × Nat)) :
    (changelog_entry_step E ctx it next last_id result).1 = it.elem.id := by
  unfold changelog_entry_step
  simp only
  split
  · assumption
  · split
    · rfl
    · split <;> rfl

theorem changelog_entry_step_mono (E : Env) (ctx : Attic_Context) (it : Entry)
    (next : Option Entry) (last_id : Nat) (result : List (Nat × Nat)) (x : Nat × Nat)
    (hx : x ∈ result) : x ∈ (changelog_entry_step E ctx it next last_id result).2 := by
  have h1 : x ∈ (match next with
      | some nx =>
        if it.elem.id = nx.elem.id then
          add_intermediate_changelog_entries it.elem it.meta.timestamp nx.meta.timestamp
            ctx.nodes_by_id true 0 (changelog_next_idx E ctx nx) result
        else
          add_intermediate_changelog_entries it.elem it.meta.timestamp NOW ctx.nodes_by_id false
            0 0 result
      | none =>
        add_intermediate_changelog_entries it.elem it.meta.timestamp NOW ctx.nodes_by_id false 0
          0 result) := by
    split
    · split <;> exact changelog_entries_mono _ _ _ _ _ _ _ _ x hx
    · exact changelog_entries_mono _ _ _ _ _ _ _ _ x hx
  unfold changelog_entry_step
  simp only
  split
  · exact h1
  · split
    · exact List.mem_append.mpr (Or.inl h1)
    · split
      · exact h1
      · dsimp only
        exact changelog_entries_mono _ _ _ _ _ _ _ _ x h1

theorem changelog_batch_loop_mono (E : Env) (ctx : Attic_Context) (l : List Entry)
    (last_id : Nat) (result : List (Nat × Nat)) (x : Nat × Nat) (hx : x ∈ result) :
    x ∈ changelog_batch_loop E ctx l last_id result := by
  induction l generalizing last_id result with
  | nil => exact hx
  | cons it rest ih =>
    simp only [changelog_batch_loop]
    exact ih _ _ (changelog_entry_step_mono E ctx it _ last_id result x hx)

theorem changelog_entry_step_next (E : Env) (ctx : Attic_Context) (it nx : Entry)
    (last_id : Nat) (result : List (Nat × Nat)) (hid : it.elem.id = nx.elem.id) :
    (nx.meta.timestamp, nx.elem.id)
      ∈ (changelog_entry_step E ctx it (some nx) last_id result).2 := by
  have h1 : (nx.meta.timestamp, nx.elem.id)
      ∈ add_intermediate_changelog_entries it.elem it.meta.timestamp nx.meta.timestamp
          ctx.nodes_by_id true 0 (changelog_next_idx E ctx nx) result := by
    rw [← hid]
    exact changelog_entries_last _ _ _ _ _ _ _
  unfold changelog_entry_step
  simp only [if_pos hid]
  split
  · exact h1
  · split
    · exact List.mem_append.mpr (Or.inl h1)
    · split
      · exact h1
      · dsimp only
        exact changelog_entries_mono _ _ _ _ _ _ _ _ _ h1

theorem changelog_entry_step_first (E : Env) (ctx : Attic_Context) (it : Entry)
    (next : Option Entry) (last_id : Nat) (result : List (Nat × Nat))
    (hl : last_id ≠ it.elem.id)
    (hc : binary_pair_search ctx.existing_map_positions it.elem.id = none
      ∨ ∃ idx sk, binary_pair_search ctx.existing_map_positions it.elem.id = some idx
          ∧ find_attic_skeleton ctx.attic_skeletons idx it.elem.id = some sk) :
    (it.meta.timestamp, it.elem.id)
      ∈ (changelog_entry_step E ctx it next last_id result).2 := by
  unfold changelog_entry_step
  simp only [if_neg hl]
  rcases hc with h | ⟨idx, sk, h1, h2⟩
  · rw [h]
    simp
  · rw [h1]
    simp only [h2]
    rw [← find_attic_skeleton_id _ _ _ _ h2]
    exact changelog_entries_last _ _ _ _ _ _ _

theorem changelog_batch_loop_next (E : Env) (ctx : Attic_Context) (pre : List Entry)
    (p nx : Entry) (rest : List Entry) (last_id : Nat) (result : List (Nat × Nat))
    (hid : p.elem.id = nx.elem.id) :
    (nx.meta.timestamp, nx.elem.id)
      ∈ changelog_batch_loop E ctx (pre ++ p :: nx :: rest) last_id result := by
  induction pre generalizing last_id result with
  | nil =>
    simp only [List.nil_append, changelog_batch_loop, List.head?_cons]
    apply changelog_batch_loop_mono
    apply changelog_entry_step_mono
    exact changelog_entry_step_next E ctx p nx last_id result hid
  | cons e pre ih =>
    simp only [List.cons_append, changelog_batch_loop]
    exact ih _ _

theorem changelog_batch_loop_first (E : Env) (ctx : Attic_Context) (pre : List Entry)
    (it : Entry) (rest : List Entry) (last_id : Nat) (result : List (Nat × Nat))
    (hl : (pre.getLast?.map (fun q => q.elem.id)).getD last_id ≠ it.elem.id)
    (hc : binary_pair_search ctx.existing_map_positions it.elem.id = none
      ∨ ∃ idx sk, binary_pair_search ctx.existing_map_positions it.elem.id = some idx
          ∧ find_attic_skeleton ctx.attic_skeletons idx it.elem.id = some sk) :
    (it.meta.timestamp, it.elem.id)
      ∈ changelog_batch_loop E ctx (pre ++ it :: rest) last_id result := by
  induction pre generalizing last_id result with
  | nil =>
    simp only [List.nil_append, changelog_batch_loop]
    apply changelog_batch_loop_mono
    exact changelog_entry_step_first E ctx it _ last_id result (by simpa using hl) hc
  | cons e pre ih =>
    simp only [List.cons_append, changelog_batch_loop]
    apply ih
    rw [changelog_entry_step_last_id]
    cases pre with
    | nil => simpa using hl
    | cons e' pre' =>
      simpa [List.getLast?_cons_cons] using hl

theorem changelog_implicit_mono (ctx : Attic_Context) (l : List (Nat × Way_Skeleton))
    (result : List (Nat × Nat)) (x : Nat × Nat) (hx : x ∈ result) :
    x ∈ l.foldl (fun result p =>
      add_intermediate_changelog_entries p.2 0 NOW ctx.nodes_by_id false p.1 0 result)
      result := by
  induction l generalizing result with
  | nil => exact hx
  | cons p l ih =>
    rw [List.foldl_cons]
    exact ih _ (changelog_entries_mono _ _ _ _ _ _ _ _ x hx)

/-- Claim C18, counterexample. The batch holds one version of way 1 stamped 200; the directory
lists way 1 in bucket 5, but its skeleton is not among the loaded `attic_skeletons`, so the loop
skips the way (lines 750-752) and the changelog stays empty. -/
theorem changelog_counterexample :
    [Entry.mk 5 (Way_Skeleton.mk 1 [10] []) (Meta.mk 200)].Pairwise batch_lt
    ∧ compute_changelog demo_env demo_context_unloaded
        [Entry.mk 5 (Way_Skeleton.mk 1 [10] []) (Meta.mk 200)] [] = [] := by
  decide

/-- Claim C18, amended. For every batch whose first way id is not 0 and every entry of the batch
that directly follows an entry of the same way, or whose way has no current position, or whose
current skeleton is found in `attic_skeletons` under its current bucket, the changelog returned
by `compute_changelog` lists the id of the way under the timestamp of the entry. -/
theorem changelog_lists_entry (E : Env) (ctx : Attic_Context) (pre : List Entry) (it : Entry)
    (rest : List Entry) (implicit : List (Nat × Way_Skeleton))
    (hfirst : pre = [] → it.elem.id ≠ 0)
    (hcase : (∃ p, pre.getLast? = some p ∧ p.elem.id = it.elem.id)
      ∨ binary_pair_search ctx.existing_map_positions it.elem.id = none
      ∨ ∃ idx sk, binary_pair_search ctx.existing_map_positions it.elem.id = some idx
          ∧ find_attic_skeleton ctx.attic_skeletons idx it.elem.id = some sk) :
    (it.meta.timestamp, it.elem.id) ∈ compute_changelog E ctx (pre ++ it :: rest) implicit := by
  unfold compute_changelog
  apply changelog_implicit_mono
  by_cases hprev : ∃ p, pre.getLast? = some p ∧ p.elem.id = it.elem.id
  · obtain ⟨p, hp, hid⟩ := hprev
    obtain ⟨pre', rfl⟩ : ∃ pre', pre = pre' ++ [p] := by
      rcases List.eq_nil_or_concat pre with h | ⟨l, a, h⟩
      · rw [h] at hp
        simp at hp
      · rw [h, List.concat_eq_append] at hp
        simp at hp
        exact ⟨l, by rw [h, List.concat_eq_append, hp]⟩
    rw [List.append_assoc, List.singleton_append]
    exact changelog_batch_loop_next E ctx pre' p it rest 0 [] hid
  · apply changelog_batch_loop_first
    · cases hg : pre.getLast? with
      | none =>
        have : pre = [] := by simpa using hg
        simpa using fun h => hfirst this h.symm
      | some q =>
        simp only [Option.map_some', Option.getD_some]
        exact fun h => hprev ⟨q, hg, h⟩
    · rcases hcase with h | h
      · exact absurd h hprev
      · exact h

/-- Witness for claim C18 (amended): the second version of way 1 in `demo_batch`. -/
theorem changelog_lists_entry_witness :
    ([Entry.mk 9 (Way_Skeleton.mk 1 [10] []) (Meta.mk 100)] = [] →
        (Entry.mk 9 (Way_Skeleton.mk 1 [10, 11] []) (Meta.mk 200)).elem.id ≠ 0)
    ∧ ((∃ p, [Entry.mk 9 (Way_Skeleton.mk 1 [10] []) (Meta.mk 100)].getLast? = some p
          ∧ p.elem.id = (Entry.mk 9 (Way_Skeleton.mk 1 [10, 11] []) (Meta.mk 200)).elem.id)
        ∨ binary_pair_search demo_context.existing_map_positions
            (Entry.mk 9 (Way_Skeleton.mk 1 [10, 11] []) (Meta.mk 200)).elem.id = none
        ∨ ∃ idx sk, binary_pair_search demo_context.existing_map_positions
              (Entry.mk 9 (Way_Skeleton.mk 1 [10, 11] []) (Meta.mk 200)).elem.id = some idx
            ∧ find_attic_skeleton demo_context.attic_skeletons idx
              (Entry.mk 9 (Way_Skeleton.mk 1 [10, 11] []) (Meta.mk 200)).elem.id = some sk)
    ∧ ((Entry.mk 9 (Way_Skeleton.mk 1 [10, 11] []) (Meta.mk 200)).meta.timestamp,
        (Entry.mk 9 (Way_Skeleton.mk 1 [10, 11] []) (Meta.mk 200)).elem.id)
      ∈ compute_changelog demo_env demo_context
          ([Entry.mk 9 (Way_Skeleton.mk 1 [10] []) (Meta.mk 100)]
            ++ Entry.mk 9 (Way_Skeleton.mk 1 [10, 11] []) (Meta.mk 200) :: []) [] :=
  ⟨by simp, Or.inl ⟨_, rfl, rfl⟩,
   changelog_lists_entry demo_env demo_context
     [Entry.mk 9 (Way_Skeleton.mk 1 [10] []) (Meta.mk 100)]
     (Entry.mk 9 (Way_Skeleton.mk 1 [10, 11] []) (Meta.mk 200)) [] [] (by simp)
     (Or.inl ⟨_, rfl, rfl⟩)⟩


/-! ## The bucket that `add_intermediate_versions` reports -/

theorem reverse_walk_final (E : Env) (sk : Way_Skeleton) (nb : Nodes_By_Id) (a : Nat)
    (ts : List Nat) (li : Nat) (ls : Way_Skeleton) (st : Attic_Stores) :
    ((reverse_walk E sk nb a ts li ls st).1, (reverse_walk E sk nb a ts li ls st).2.1)
      = match ts.getLast? with
        | none => (li, ls)
        | some t => if a = 0 then compute_idx_and_geometry E sk t nb else (a, sk) := by
  induction ts generalizing li ls st with
  | nil => rfl
  | cons t rest ih =>
    simp only [reverse_walk]
    rw [ih]
    cases rest with
    | nil =>
      simp only [List.getLast?_nil, List.getLast?_singleton, ne_eq, not_true_eq_false, or_false]
    | cons t' rest' =>
      rw [List.getLast?_cons_cons]
      obtain ⟨x, hx⟩ : ∃ x, (t' :: rest').getLast? = some x :=
        ⟨_, List.getLast?_eq_getLast _ (by simp)⟩
      rw [hx]

theorem add_intermediate_versions_last_idx (E : Env) (sk ref : Way_Skeleton) (old new : Nat)
    (nb : Nodes_By_Id) (alv : Bool) (a : Nat) (st : Attic_Stores) :
    (add_intermediate_versions E sk ref old new nb alv a st).2.1
      = (match (walk_timestamps sk.nds old new nb alv).head? with
          | none => anchor E sk old new nb a
          | some t => if a = 0 then compute_idx_and_geometry E sk t nb else (a, sk)).1 := by
  have h := reverse_walk_final E sk nb a (walk_timestamps sk.nds old new nb alv).reverse
    (anchor E sk old new nb a).1 (anchor E sk old new nb a).2
    (if upper_endpoint_due sk.nds old new nb alv then
      store_version E sk.id (anchor E sk old new nb a).1 (anchor E sk old new nb a).2
        (reference_state E ref new nb).1 (reference_state E ref new nb).2 new st
    else st)
  rw [List.getLast?_reverse] at h
  have h1 := congrArg Prod.fst h
  simp only at h1
  unfold add_intermediate_versions
  simp only
  rw [h1]

theorem find_snapshot_stable (e1 e2 : Nat) (vs : List Node_Version) (hle : e1 ≤ e2)
    (h : ∀ v ∈ vs, e1 ≤ v.timestamp → e2 ≤ v.timestamp) :
    vs.find? (fun v => decide (e1 ≤ v.timestamp))
      = vs.find? (fun v => decide (e2 ≤ v.timestamp)) := by
  induction vs with
  | nil => rfl
  | cons v vs ih =>
    have ih' := ih (fun u hu => h u (by simp [hu]))
    rw [List.find?_cons, List.find?_cons]
    by_cases h1 : e1 ≤ v.timestamp
    · have h2 := h v (by simp) h1
      simp [h1, h2]
    · have h2 : ¬ e2 ≤ v.timestamp := by omega
      simp [h1, h2, ih']

theorem compute_idx_and_geometry_stable (E : Env) (sk : Way_Skeleton) (nb : Nodes_By_Id)
    (e1 e2 : Nat) (hle : e1 ≤ e2)
    (h : ∀ nd ∈ sk.nds, ∀ v ∈ (List.lookup nd nb).getD [], e1 ≤ v.timestamp →
      e2 ≤ v.timestamp) :
    compute_idx_and_geometry E sk e1 nb = compute_idx_and_geometry E sk e2 nb := by
  have hsel : sk.nds.filterMap (selected_snapshot nb e1)
      = sk.nds.filterMap (selected_snapshot nb e2) := by
    apply List.filterMap_congr
    intro nd hnd
    unfold selected_snapshot
    cases hl : List.lookup nd nb with
    | none => rfl
    | some vs =>
      simp only
      apply find_snapshot_stable e1 e2 vs hle
      have := h nd hnd
      rw [hl] at this
      exact this
  unfold compute_idx_and_geometry
  simp only [collect_geometry_selected, hsel]

theorem mem_walk_timestamps_of (nds : List Nat) (old new : Nat) (nb : Nodes_By_Id) (alv : Bool)
    (hnew : new ≤ NOW) (t : Nat) (ht : snapshot_in_window nds old new nb t) (h1 : t ≠ NOW)
    (h2 : t ≠ new) : t ∈ walk_timestamps nds old new nb alv := by
  have hp : t ∈ pop_back_if (relevant_timestamps nds old new nb) NOW :=
    (mem_pop_now nds old new nb hnew t).mpr ⟨ht, h1⟩
  unfold walk_timestamps
  split
  · exact (mem_pop_new nds old new nb t).mpr ⟨hp, h2⟩
  · exact hp

/-- The bucket that `add_intermediate_versions` reports in `last_idx` for prior bucket 0 is the
bucket of the way just after `old_timestamp`. -/
theorem last_idx_oldest (E : Env) (sk ref : Way_Skeleton) (old new : Nat) (nb : Nodes_By_Id)
    (alv : Bool) (st : Attic_Stores) (hlt : old < new) (hnew : new ≤ NOW) :
    (add_intermediate_versions E sk ref old new nb alv 0 st).2.1
      = (compute_idx_and_geometry E sk (old + 1) nb).1 := by
  rw [add_intermediate_versions_last_idx]
  have hwin : ∀ nd ∈ sk.nds, ∀ v ∈ (List.lookup nd nb).getD [], old + 1 ≤ v.timestamp →
      v.timestamp < new → v.timestamp ∈ walk_timestamps sk.nds old new nb alv := by
    intro nd hnd v hv h1 h2
    apply mem_walk_timestamps_of sk.nds old new nb alv hnew
    · exact ⟨nd, hnd, v, hv, rfl, by omega, by omega⟩
    · omega
    · omega
  cases hh : (walk_timestamps sk.nds old new nb alv).head? with
  | none =>
    have hnil : walk_timestamps sk.nds old new nb alv = [] := by simpa using hh
    simp only
    unfold anchor
    simp only [true_or, if_true]
    rw [compute_idx_and_geometry_stable E sk nb (old + 1) new (by omega)]
    intro nd hnd v hv h1
    by_contra hc
    have := hwin nd hnd v hv h1 (by omega)
    rw [hnil] at this
    simp at this
  | some t =>
    simp only [if_true]
    have htm : t ∈ walk_timestamps sk.nds old new nb alv := List.mem_of_mem_head? hh
    have hw := walk_timestamps_window sk.nds old new nb alv t htm
    rw [compute_idx_and_geometry_stable E sk nb (old + 1) t (by omega)]
    intro nd hnd v hv h1
    by_contra hc
    have hm := hwin nd hnd v hv h1 (by omega)
    have hs := walk_timestamps_strict sk.nds old new nb alv
    obtain ⟨tl, htl⟩ : ∃ tl, walk_timestamps sk.nds old new nb alv = t :: tl := by
      cases hwt : walk_timestamps sk.nds old new nb alv with
      | nil => rw [hwt] at hh; simp at hh
      | cons t0 tl =>
        rw [hwt] at hh
        simp at hh
        exact ⟨tl, by rw [hh]⟩
    rw [htl] at hm hs
    rcases List.mem_cons.mp hm with h | h
    · omega
    · have := (List.pairwise_cons.mp hs).1 _ h
      omega


/-! ## The loops of `compute_new_attic_skeletons` -/

theorem attic_entry_step_some (E : Env) (ctx : Attic_Context) (prev : Option Entry) (it : Entry)
    (next : Option Entry) (last_id : Nat) (u : Attic_Update)
    (hprev : last_id = it.elem.id → prev ≠ none) :
    ∃ u', attic_entry_step E ctx prev it next last_id u = some (it.elem.id, u') := by
  unfold attic_entry_step
  simp only
  by_cases h : last_id = it.elem.id
  · rw [if_pos h]
    cases prev with
    | none => exact absurd rfl (hprev h)
    | some last_it =>
      simp only
      split
      · exact ⟨_, by rw [h]⟩
      · exact ⟨_, by rw [h]⟩
  · rw [if_neg h]
    exact ⟨_, rfl⟩

theorem attic_batch_loop_invariant (E : Env) (ctx : Attic_Context) (P : Attic_Update → Prop)
    (l : List Entry) (prev : Option Entry) (last_id : Nat) (u : Attic_Update)
    (hprev : prev = none → ∀ e, l.head? = some e → last_id ≠ e.elem.id)
    (hP : P u)
    (hstep : ∀ e ∈ l, ∀ prev1 next last u1 r, P u1 →
      attic_entry_step E ctx prev1 e next last u1 = some r → P r.2) :
    ∃ u', attic_batch_loop E ctx prev l last_id u = some u' ∧ P u' := by
  induction l generalizing prev last_id u with
  | nil => exact ⟨u, rfl, hP⟩
  | cons it rest ih =>
    obtain ⟨u1, h1⟩ := attic_entry_step_some E ctx prev it rest.head? last_id u
      (fun h hp => hprev hp it rfl h)
    simp only [attic_batch_loop, h1]
    apply ih
    · intro h
      cases h
    · exact hstep it (by simp) _ _ _ _ _ hP h1
    · intro e he
      exact hstep e (by simp [he])

theorem attic_batch_loop_focus (E : Env) (ctx : Attic_Context) (P Q : Attic_Update → Prop)
    (pre : List Entry) (it : Entry) (rest : List Entry) (prev : Option Entry) (last_id : Nat)
    (u : Attic_Update)
    (hprev : prev = none → ∀ e, (pre ++ it :: rest).head? = some e → last_id ≠ e.elem.id)
    (hl : (pre.getLast?.map (fun e => e.elem.id)).getD last_id ≠ it.elem.id)
    (hP : P u)
    (hpre : ∀ e ∈ pre, ∀ prev1 next last u1 r, P u1 →
      attic_entry_step E ctx prev1 e next last u1 = some r → P r.2)
    (hit : ∀ prev1 last u1 r, last ≠ it.elem.id → P u1 →
      attic_entry_step E ctx prev1 it rest.head? last u1 = some r → Q r.2)
    (hrest : ∀ e ∈ rest, ∀ prev1 next last u1 r, Q u1 →
      attic_entry_step E ctx prev1 e next last u1 = some r → Q r.2) :
    ∃ u', attic_batch_loop E ctx prev (pre ++ it :: rest) last_id u = some u' ∧ Q u' := by
  induction pre generalizing prev last_id u with
  | nil =>
    simp only [List.getLast?_nil, Option.map_none', Option.getD_none] at hl
    obtain ⟨u1, h1⟩ := attic_entry_step_some E ctx prev it rest.head? last_id u
      (fun h => absurd h hl)
    simp only [List.nil_append, attic_batch_loop, h1]
    apply attic_batch_loop_invariant E ctx Q rest (some it) it.elem.id u1
    · intro h
      cases h
    · exact hit _ _ _ _ hl hP h1
    · exact hrest
  | cons e pre ih =>
    obtain ⟨u1, h1⟩ := attic_entry_step_some E ctx prev e (pre ++ it :: rest).head? last_id u
      (fun h hp => hprev hp e rfl h)
    rw [List.cons_append, attic_batch_loop, h1]
    apply ih
    · intro h
      cases h
    · cases pre with
      | nil => simpa using hl
      | cons e2 pre2 =>
        rw [List.getLast?_cons_cons] at hl
        obtain ⟨x, hx⟩ : ∃ x, (e2 :: pre2).getLast? = some x :=
          ⟨_, List.getLast?_eq_getLast _ (by simp)⟩
        rw [hx] at hl ⊢
        simpa using hl
    · exact hpre e (by simp) _ _ _ _ _ hP h1
    · intro e2 he2
      exact hpre e2 (by simp [he2])

theorem implicit_fold_invariant (E : Env) (ctx : Attic_Context) (P : Attic_Update → Prop)
    (l : List (Nat × Way_Skeleton)) (u : Attic_Update) (hP : P u)
    (hstep : ∀ q ∈ l, ∀ u1, P u1 → P (implicit_step E ctx u1 q)) :
    P (l.foldl (implicit_step E ctx) u) := by
  induction l generalizing u with
  | nil => exact hP
  | cons q l ih =>
    rw [List.foldl_cons]
    exact ih _ (hstep q (by simp) u hP) (fun q2 hq2 => hstep q2 (by simp [hq2]))

/-! ## Undelete entries are never removed -/

theorem add_intermediate_versions_undeleted_mono (E : Env) (sk ref : Way_Skeleton)
    (old new : Nat) (nb : Nodes_By_Id) (alv : Bool) (a : Nat) (st : Attic_Stores)
    (x : Nat × Attic Nat) (hx : x ∈ st.new_undeleted) :
    x ∈ (add_intermediate_versions E sk ref old new nb alv a st).2.2.new_undeleted := by
  rw [add_intermediate_versions_stores, mem_steps_new_undeleted]
  exact Or.inl hx

theorem entry_windows_undeleted_mono (E : Env) (ctx : Attic_Context) (it : Entry)
    (next : Option Entry) (st : Attic_Stores) (x : Nat × Attic Nat)
    (hx : x ∈ st.new_undeleted) : x ∈ (entry_windows E ctx it next st).2.new_undeleted := by
  unfold entry_windows
  split
  · split
    · split
      · exact add_intermediate_versions_undeleted_mono _ _ _ _ _ _ _ _ _ _ hx
      · exact hx
    · exact add_intermediate_versions_undeleted_mono _ _ _ _ _ _ _ _ _ _ hx
  · exact add_intermediate_versions_undeleted_mono _ _ _ _ _ _ _ _ _ _ hx

theorem undelete_created_mono (E : Env) (ctx : Attic_Context) (it : Entry) (it_idx : Nat)
    (st : Attic_Stores) (x : Nat × Attic Nat) (hx : x ∈ st.new_undeleted) :
    x ∈ (undelete_created E ctx it it_idx st).new_undeleted :=
  map_set_insert_subset _ _ _ _ _ hx

theorem entry_existing_undeleted_mono (E : Env) (ctx : Attic_Context) (it : Entry)
    (u : Attic_Update) (st : Attic_Stores) (x : Nat × Attic Nat)
    (hx : x ∈ st.new_undeleted) :
    x ∈ (entry_existing E ctx it u st).stores.new_undeleted := by
  unfold entry_existing
  split
  · exact hx
  · split
    · exact hx
    · split
      · exact add_intermediate_versions_undeleted_mono _ _ _ _ _ _ _ _ _ _ hx
      · simp only
        split
        · exact add_intermediate_versions_undeleted_mono _ _ _ _ _ _ _ _ _ _ hx
        · exact add_intermediate_versions_undeleted_mono _ _ _ _ _ _ _ _ _ _ hx

theorem attic_entry_step_undeleted_mono (E : Env) (ctx : Attic_Context) (prev : Option Entry)
    (it : Entry) (next : Option Entry) (last_id : Nat) (u : Attic_Update)
    (r : Nat × Attic_Update) (h : attic_entry_step E ctx prev it next last_id u = some r)
    (x : Nat × Attic Nat) (hx : x ∈ u.stores.new_undeleted) :
    x ∈ r.2.stores.new_undeleted := by
  have hw := entry_windows_undeleted_mono E ctx it next u.stores x hx
  unfold attic_entry_step at h
  simp only at h
  split at h
  · cases prev with
    | none => simp at h
    | some last_it =>
      simp only at h
      split at h
      · cases h
        exact undelete_created_mono _ _ _ _ _ _ hw
      · cases h
        exact hw
  · cases h
    apply entry_existing_undeleted_mono
    split
    · exact undelete_created_mono _ _ _ _ _ _ hw
    · exact hw

theorem implicit_step_undeleted_mono (E : Env) (ctx : Attic_Context) (u : Attic_Update)
    (q : Nat × Way_Skeleton) (x : Nat × Attic Nat) (hx : x ∈ u.stores.new_undeleted) :
    x ∈ (implicit_step E ctx u q).stores.new_undeleted := by
  unfold implicit_step
  split
  · exact add_intermediate_versions_undeleted_mono _ _ _ _ _ _ _ _ _ _ hx
  · simp only
    split
    · exact add_intermediate_versions_undeleted_mono _ _ _ _ _ _ _ _ _ _ hx
    · exact add_intermediate_versions_undeleted_mono _ _ _ _ _ _ _ _ _ _ hx


/-! ## Claim C11: the undelete entry of a version with unknown prior bucket -/

theorem entry_windows_first_idx (E : Env) (ctx : Attic_Context) (it : Entry)
    (next : Option Entry) (st : Attic_Stores) (hidx : it.idx ≠ 0)
    (hts : it.meta.timestamp < NOW)
    (hnext : ∀ nx, next = some nx → nx.elem.id = it.elem.id →
      it.meta.timestamp < nx.meta.timestamp ∧ nx.meta.timestamp ≤ NOW) :
    (entry_windows E ctx it next st).1
      = (compute_idx_and_geometry E it.elem (it.meta.timestamp + 1) ctx.nodes_by_id).1 := by
  unfold entry_windows
  cases next with
  | none => exact last_idx_oldest E _ _ _ _ _ _ _ hts (Nat.le_refl _)
  | some nx =>
    simp only
    by_cases h : it.elem.id = nx.elem.id
    · obtain ⟨h1, h2⟩ := hnext nx rfl h.symm
      rw [if_pos h, if_pos hidx]
      exact last_idx_oldest E _ _ _ _ _ _ _ h1 h2
    · rw [if_neg h]
      exact last_idx_oldest E _ _ _ _ _ _ _ hts (Nat.le_refl _)

theorem attic_entry_step_undelete (E : Env) (ctx : Attic_Context) (prev : Option Entry)
    (it : Entry) (next : Option Entry) (last_id : Nat) (u : Attic_Update)
    (r : Nat × Attic_Update) (hl : last_id ≠ it.elem.id) (hidx : it.idx ≠ 0)
    (hcur : binary_pair_search ctx.existing_map_positions it.elem.id = none)
    (hattic : (binary_pair_search ctx.attic_map_positions it.elem.id).isSome)
    (hts : it.meta.timestamp < NOW)
    (hnext : ∀ nx, next = some nx → nx.elem.id = it.elem.id →
      it.meta.timestamp < nx.meta.timestamp ∧ nx.meta.timestamp ≤ NOW)
    (h : attic_entry_step E ctx prev it next last_id u = some r) :
    ((compute_idx_and_geometry E it.elem (it.meta.timestamp + 1) ctx.nodes_by_id).1,
      Attic.mk it.elem.id it.meta.timestamp) ∈ r.2.stores.new_undeleted := by
  unfold attic_entry_step at h
  simp only at h
  rw [if_neg hl] at h
  cases h
  apply entry_existing_undeleted_mono
  rw [if_pos ⟨by simp [hcur], hattic⟩]
  unfold undelete_created
  simp only
  have hmod : (it.meta.timestamp + 1) % UINT64_MOD = it.meta.timestamp + 1 := by
    apply Nat.mod_eq_of_lt
    unfold NOW at hts
    unfold UINT64_MOD
    omega
  rw [hmod, entry_windows_first_idx E ctx it next u.stores hidx hts hnext, ite_self,
    mem_map_set_insert_iff same_attic_id same_attic_id_iff]
  exact Or.inr rfl

/-- Claim C11, counterexample. Way 1 is new: it has neither a current nor an attic position. Its
only version in the batch carries the bucket 0xff and is stamped 200; the bucket of the way at
time 201 is 7. The guard of line 354 does not hold, so no undelete entry is written. -/
theorem unknown_bucket_counterexample :
    (compute_idx_and_geometry demo_env (Way_Skeleton.mk 1 [10] []) 201
        demo_context_new.nodes_by_id).1 = 7
    ∧ (compute_new_attic_skeletons demo_env demo_context_new
        [Entry.mk 0xff (Way_Skeleton.mk 1 [10] []) (Meta.mk 200)] [] Attic_Update.empty).map
        (fun u => u.stores.new_undeleted) = some [] := by
  decide

/-- Claim C11, amended. Let the batch not start with way id 0 and let `it` be the first version
of its way in the batch, with bucket 0xff and a timestamp below `NOW`, followed by versions of the
same way only with greater timestamps. If the way has no current position but an attic position,
then `compute_new_attic_skeletons` returns and `new_undeleted` holds the undelete entry of the way
and the timestamp of `it` under the bucket that `compute_idx_and_geometry` yields for `it` at its
timestamp plus one. -/
theorem undelete_unknown_bucket (E : Env) (ctx : Attic_Context) (pre : List Entry) (it : Entry)
    (rest : List Entry) (implicitly_moved_skeletons : List (Nat × Way_Skeleton))
    (u : Attic_Update)
    (hhead : ∀ e, (pre ++ it :: rest).head? = some e → e.elem.id ≠ 0)
    (hfirst : ∀ e ∈ pre, e.elem.id ≠ it.elem.id)
    (hidx : it.idx = 0xff)
    (hcur : binary_pair_search ctx.existing_map_positions it.elem.id = none)
    (hattic : (binary_pair_search ctx.attic_map_positions it.elem.id).isSome)
    (hts : it.meta.timestamp < NOW)
    (hnext : ∀ nx, rest.head? = some nx → nx.elem.id = it.elem.id →
      it.meta.timestamp < nx.meta.timestamp ∧ nx.meta.timestamp ≤ NOW) :
    ∃ u', compute_new_attic_skeletons E ctx (pre ++ it :: rest) implicitly_moved_skeletons u
        = some u'
      ∧ ((compute_idx_and_geometry E it.elem (it.meta.timestamp + 1) ctx.nodes_by_id).1,
          Attic.mk it.elem.id it.meta.timestamp) ∈ u'.stores.new_undeleted := by
  have hne : it.idx ≠ 0 := by
    rw [hidx]
    decide
  obtain ⟨u1, hloop, hmem⟩ := attic_batch_loop_focus E ctx (fun _ => True)
    (fun v => ((compute_idx_and_geometry E it.elem (it.meta.timestamp + 1) ctx.nodes_by_id).1,
      Attic.mk it.elem.id it.meta.timestamp) ∈ v.stores.new_undeleted)
    pre it rest none 0 u
    (fun _ e he h => hhead e he h.symm)
    (by
      cases hg : pre.getLast? with
      | none =>
        have hnil : pre = [] := by simpa using hg
        simp only [Option.map_none', Option.getD_none]
        intro h
        exact hhead it (by rw [hnil]; rfl) h.symm
      | some q =>
        simp only [Option.map_some', Option.getD_some]
        exact hfirst q (List.mem_of_mem_getLast? hg))
    trivial
    (fun _ _ _ _ _ _ _ _ _ => trivial)
    (fun prev1 last u1 r hl _ h =>
      attic_entry_step_undelete E ctx prev1 it rest.head? last u1 r hl hne hcur hattic hts
        hnext h)
    (fun e _ prev1 next last u1 r hq h =>
      attic_entry_step_undeleted_mono E ctx prev1 e next last u1 r h _ hq)
  refine ⟨_, by unfold compute_new_attic_skeletons; rw [hloop], ?_⟩
  exact implicit_fold_invariant E ctx _ implicitly_moved_skeletons u1 hmem
    (fun q _ u2 h => implicit_step_undeleted_mono E ctx u2 q _ h)

/-- Witness for claim C11 (amended): the deleted way 1 comes back with a version that carries the
bucket 0xff. -/
theorem undelete_unknown_bucket_witness :
    (∀ e, (([] : List Entry) ++ Entry.mk 0xff (Way_Skeleton.mk 1 [10] []) (Meta.mk 200)
        :: []).head? = some e → e.elem.id ≠ 0)
    ∧ (∀ e ∈ ([] : List Entry),
        e.elem.id ≠ (Entry.mk 0xff (Way_Skeleton.mk 1 [10] []) (Meta.mk 200)).elem.id)
    ∧ (Entry.mk 0xff (Way_Skeleton.mk 1 [10] []) (Meta.mk 200)).idx = 0xff
    ∧ binary_pair_search demo_context_deleted.existing_map_positions
        (Entry.mk 0xff (Way_Skeleton.mk 1 [10] []) (Meta.mk 200)).elem.id = none
    ∧ (binary_pair_search demo_context_deleted.attic_map_positions
        (Entry.mk 0xff (Way_Skeleton.mk 1 [10] []) (Meta.mk 200)).elem.id).isSome
    ∧ (Entry.mk 0xff (Way_Skeleton.mk 1 [10] []) (Meta.mk 200)).meta.timestamp < NOW
    ∧ (∀ nx, ([] : List Entry).head? = some nx →
        nx.elem.id = (Entry.mk 0xff (Way_Skeleton.mk 1 [10] []) (Meta.mk 200)).elem.id →
        (Entry.mk 0xff (Way_Skeleton.mk 1 [10] []) (Meta.mk 200)).meta.timestamp
          < nx.meta.timestamp ∧ nx.meta.timestamp ≤ NOW)
    ∧ ∃ u', compute_new_attic_skeletons demo_env demo_context_deleted
          ([] ++ Entry.mk 0xff (Way_Skeleton.mk 1 [10] []) (Meta.mk 200) :: []) []
          Attic_Update.empty = some u'
        ∧ ((compute_idx_and_geometry demo_env
              (Entry.mk 0xff (Way_Skeleton.mk 1 [10] []) (Meta.mk 200)).elem
              ((Entry.mk 0xff (Way_Skeleton.mk 1 [10] []) (Meta.mk 200)).meta.timestamp + 1)
              demo_context_deleted.nodes_by_id).1,
            Attic.mk (Entry.mk 0xff (Way_Skeleton.mk 1 [10] []) (Meta.mk 200)).elem.id
              (Entry.mk 0xff (Way_Skeleton.mk 1 [10] []) (Meta.mk 200)).meta.timestamp)
          ∈ u'.stores.new_undeleted :=
  ⟨fun e h => by
      simp only [List.nil_append, List.head?_cons, Option.some.injEq] at h
      rw [← h]
      decide,
   by decide, rfl, by decide, by decide, by decide,
   fun nx h => by simp at h,
   undelete_unknown_bucket demo_env demo_context_deleted []
     (Entry.mk 0xff (Way_Skeleton.mk 1 [10] []) (Meta.mk 200)) [] [] Attic_Update.empty
     (fun e h => by
       simp only [List.nil_append, List.head?_cons, Option.some.injEq] at h
       rw [← h]
       decide)
     (by decide) rfl (by decide) (by decide) (by decide) (fun nx h => by simp at h)⟩

/-! ## Calls that do not concern a given way -/

theorem agree_on_way_refl (w : Nat) (s : Attic_Stores) : agree_on_way w s s :=
  ⟨fun _ _ => Iff.rfl, fun _ _ => Iff.rfl⟩

theorem agree_on_way_trans (w : Nat) (s1 s2 s3 : Attic_Stores) (h1 : agree_on_way w s1 s2)
    (h2 : agree_on_way w s2 s3) : agree_on_way w s1 s3 :=
  ⟨fun p hp => (h1.1 p hp).trans (h2.1 p hp), fun x hx => (h1.2 x hx).trans (h2.2 x hx)⟩

theorem add_intermediate_versions_other (E : Env) (hid : ∀ r s, (E.way_delta r s).id = s.id)
    (sk ref : Way_Skeleton) (old new : Nat) (nb : Nodes_By_Id) (alv : Bool) (a : Nat)
    (st : Attic_Stores) (w : Nat) (hw : sk.id ≠ w) :
    agree_on_way w (add_intermediate_versions E sk ref old new nb alv a st).2.2 st := by
  rw [add_intermediate_versions_stores]
  constructor
  · intro p hp
    constructor
    · intro h
      rcases mem_steps_full_attic E sk.id _ st p h with h1 | ⟨s, hs, h1⟩
      · exact h1
      · have := step_record_id E hid sk ref old new nb alv a s hs
        rw [← h1, hp] at this
        exact absurd this.symm hw
    · exact steps_full_attic_subset E sk.id _ st p
  · intro x hx
    rw [mem_steps_new_undeleted]
    constructor
    · rintro (h | ⟨s, _, _, _, h⟩)
      · exact h
      · rw [h] at hx
        exact absurd hx hw
    · exact Or.inl

theorem adapt_other (E : Env) (hid : ∀ r s, (E.way_delta r s).id = s.id)
    (hexp : ∀ d r, r.id = d.id → (E.expand d r).id = d.id)
    (old_idx new_idx : Nat) (d : Attic Way_Delta) (eref nref : Way_Skeleton)
    (td fa : List (Nat × Attic Way_Delta)) (w : Nat) (href : eref.id = d.elem.id)
    (hw : d.elem.id ≠ w) (p : Nat × Attic Way_Delta) (hp : p.2.elem.id = w) :
    p ∈ (adapt_newest_existing_attic E old_idx new_idx d eref nref td fa).2.1 ↔ p ∈ fa := by
  have hnew : (adapted_delta E old_idx new_idx d eref nref).id = d.elem.id := by
    unfold adapted_delta
    rw [hid, hexp _ _ href]
  unfold adapt_newest_existing_attic
  simp only
  split
  · constructor
    · intro h
      rcases mem_map_set_insert _ _ _ _ _ h with h1 | h1
      · exact h1
      · rw [h1] at hp
        simp only at hp
        rw [hnew] at hp
        exact absurd hp hw
    · exact map_set_insert_subset _ _ _ _ _
  · exact Iff.rfl

theorem entry_windows_other (E : Env) (hid : ∀ r s, (E.way_delta r s).id = s.id)
    (ctx : Attic_Context) (it : Entry) (next : Option Entry) (st : Attic_Stores) (w : Nat)
    (hw : it.elem.id ≠ w) : agree_on_way w (entry_windows E ctx it next st).2 st := by
  unfold entry_windows
  split
  · split
    · split
      · exact add_intermediate_versions_other E hid _ _ _ _ _ _ _ _ w hw
      · exact agree_on_way_refl w st
    · exact add_intermediate_versions_other E hid _ _ _ _ _ _ _ _ w hw
  · exact add_intermediate_versions_other E hid _ _ _ _ _ _ _ _ w hw

theorem undelete_created_other (E : Env) (ctx : Attic_Context) (it : Entry) (it_idx : Nat)
    (st : Attic_Stores) (w : Nat) (hw : it.elem.id ≠ w) :
    agree_on_way w (undelete_created E ctx it it_idx st) st := by
  refine ⟨fun _ _ => Iff.rfl, ?_⟩
  intro x hx
  unfold undelete_created
  simp only
  rw [mem_map_set_insert_iff same_attic_id same_attic_id_iff]
  constructor
  · rintro (h | h)
    · exact h
    · rw [h] at hx
      exact absurd hx hw
  · exact Or.inl

theorem entry_existing_other (E : Env) (hid : ∀ r s, (E.way_delta r s).id = s.id)
    (hexp : ∀ d r, r.id = d.id → (E.expand d r).id = d.id)
    (ctx : Attic_Context) (it : Entry) (u : Attic_Update) (st : Attic_Stores) (w : Nat)
    (hw : it.elem.id ≠ w) : agree_on_way w (entry_existing E ctx it u st).stores st := by
  unfold entry_existing
  split
  · exact agree_on_way_refl w st
  · rename_i idx _
    split
    · exact agree_on_way_refl w st
    · rename_i it_attic hfind
      have hsk : it_attic.id = it.elem.id := find_attic_skeleton_id _ _ _ _ hfind
      have hw2 : it_attic.id ≠ w := by
        rw [hsk]
        exact hw
      split
      · exact add_intermediate_versions_other E hid _ _ _ _ _ _ _ _ w hw2
      · rename_i it_attic_time _
        have hr := add_intermediate_versions_other E hid it_attic it.elem
          it_attic_time.2.timestamp it.meta.timestamp ctx.nodes_by_id
          (decide (it.idx = 0) || !geometrically_equal it_attic it.elem) idx st w hw2
        simp only
        split
        · rename_i hguard
          refine ⟨fun p hp => ?_, hr.2⟩
          simp only
          rw [adapt_other E hid hexp _ _ _ _ _ _ _ w (hsk.trans hguard.symm)
            (by rw [hguard]; exact hw) p hp]
          exact hr.1 p hp
        · exact hr

theorem attic_entry_step_other (E : Env) (hid : ∀ r s, (E.way_delta r s).id = s.id)
    (hexp : ∀ d r, r.id = d.id → (E.expand d r).id = d.id)
    (ctx : Attic_Context) (prev : Option Entry) (it : Entry) (next : Option Entry)
    (last_id : Nat) (u : Attic_Update) (r : Nat × Attic_Update) (w : Nat)
    (hw : it.elem.id ≠ w) (h : attic_entry_step E ctx prev it next last_id u = some r) :
    agree_on_way w r.2.stores u.stores := by
  have hwin := entry_windows_other E hid ctx it next u.stores w hw
  have hun := agree_on_way_trans w _ _ _
    (undelete_created_other E ctx it (entry_windows E ctx it next u.stores).1
      (entry_windows E ctx it next u.stores).2 w hw) hwin
  unfold attic_entry_step at h
  simp only at h
  split at h
  · cases prev with
    | none => simp at h
    | some last_it =>
      simp only at h
      split at h
      · cases h
        exact hun
      · cases h
        exact hwin
  · cases h
    apply agree_on_way_trans w _ _ _ (entry_existing_other E hid hexp ctx it u _ w hw)
    split
    · exact hun
    · exact hwin

theorem implicit_step_other (E : Env) (hid : ∀ r s, (E.way_delta r s).id = s.id)
    (hexp : ∀ d r, r.id = d.id → (E.expand d r).id = d.id)
    (ctx : Attic_Context) (u : Attic_Update) (q : Nat × Way_Skeleton) (w : Nat)
    (hw : q.2.id ≠ w) : agree_on_way w (implicit_step E ctx u q).stores u.stores := by
  unfold implicit_step
  split
  · exact add_intermediate_versions_other E hid _ _ _ _ _ _ _ _ w hw
  · rename_i it_attic_time _
    have hr := add_intermediate_versions_other E hid q.2 q.2 it_attic_time.2.timestamp NOW
      ctx.nodes_by_id false q.1 u.stores w hw
    simp only
    split
    · rename_i hguard
      refine ⟨fun p hp => ?_, hr.2⟩
      simp only
      rw [adapt_other E hid hexp _ _ _ _ _ _ _ w hguard.symm
        (by rw [hguard]; exact hw) p hp]
      exact hr.1 p hp
    · exact hr


/-! ## Calls with at most one step -/

theorem sorted_eq_singleton (l : List Nat) (t : Nat) (hs : l.Pairwise (fun a b => a < b))
    (hm : ∀ x, x ∈ l ↔ x = t) : l = [t] := by
  cases l with
  | nil => exact absurd ((hm t).mpr rfl) (by simp)
  | cons a l =>
    have ha : a = t := (hm a).mp (by simp)
    cases l with
    | nil => rw [ha]
    | cons b l =>
      have hb : b = t := (hm b).mp (by simp)
      have := (List.pairwise_cons.mp hs).1 b (by simp)
      omega

theorem mem_store_version_of_fresh (E : Env) (id idx : Nat) (cur : Way_Skeleton)
    (ref_idx : Nat) (ref_skeleton : Way_Skeleton) (ts : Nat) (st : Attic_Stores)
    (hne : idx ≠ ref_idx)
    (hfree : ∀ p ∈ st.full_attic, p.2.elem.id ≠ (E.way_delta Way_Skeleton.empty cur).id)
    (p : Nat × Attic Way_Delta) :
    p ∈ (store_version E id idx cur ref_idx ref_skeleton ts st).full_attic
      ↔ p ∈ st.full_attic ∨ p = (idx, Attic.mk (E.way_delta Way_Skeleton.empty cur) ts) := by
  unfold store_version
  simp only
  rw [if_neg hne, mem_map_set_insert_fresh_iff]
  constructor
  · rintro (h | h)
    · exact Or.inl h
    · exact Or.inr h.1
  · rintro (h | h)
    · exact Or.inl h
    · refine Or.inr ⟨h, ?_⟩
      intro p2 hp2 _
      have := hfree p2 hp2
      simp [same_attic_delta, this]

theorem all_steps_single (E : Env) (sk ref : Way_Skeleton) (old : Nat) (nb : Nodes_By_Id)
    (a t : Nat) (ha : a ≠ 0) (ht : t < NOW)
    (hsnap : snapshot_in_window sk.nds old NOW nb t)
    (honly : ∀ x, snapshot_in_window sk.nds old NOW nb x → x = t ∨ x = NOW) :
    all_steps E sk ref old NOW nb false a
      = [Walk_Step.mk t a sk (compute_idx_and_geometry E sk NOW nb).1
          (compute_idx_and_geometry E sk NOW nb).2] := by
  have hpop : pop_back_if (relevant_timestamps sk.nds old NOW nb) NOW = [t] := by
    apply sorted_eq_singleton _ _ (pop_now_strict sk.nds old NOW nb)
    intro x
    rw [mem_pop_now sk.nds old NOW nb (Nat.le_refl _)]
    constructor
    · rintro ⟨h1, h2⟩
      rcases honly x h1 with h | h
      · exact h
      · exact absurd h h2
    · intro h
      rw [h]
      exact ⟨hsnap, by omega⟩
  have hdue : ¬ upper_endpoint_due sk.nds old NOW nb false := by
    rw [upper_endpoint_due_iff, hpop]
    simp only [Bool.false_eq_true, false_and, false_or, List.mem_singleton]
    omega
  have hwalk : walk_timestamps sk.nds old NOW nb false = [t] := by
    unfold walk_timestamps
    rw [if_neg hdue, hpop]
  have hrel : relevant_timestamps sk.nds old NOW nb ≠ [] := by
    intro h
    have := (mem_relevant_timestamps sk.nds old NOW nb t).mpr hsnap
    rw [h] at this
    simp at this
  have hanchor : anchor E sk old NOW nb a = compute_idx_and_geometry E sk NOW nb := by
    unfold anchor
    rw [if_pos (Or.inr hrel)]
  unfold all_steps
  rw [if_neg hdue, hwalk, hanchor]
  simp [walk_steps, ha]

theorem relevant_timestamps_nil (nds : List Nat) (old new : Nat) (nb : Nodes_By_Id)
    (h : ∀ t, ¬ snapshot_in_window nds old new nb t) :
    relevant_timestamps nds old new nb = [] := by
  apply List.eq_nil_iff_forall_not_mem.mpr
  intro t ht
  exact h t ((mem_relevant_timestamps nds old new nb t).mp ht)

theorem add_intermediate_versions_no_window (E : Env) (sk ref : Way_Skeleton) (old new : Nat)
    (nb : Nodes_By_Id) (alv : Bool) (a : Nat) (st : Attic_Stores)
    (h : ∀ t, ¬ snapshot_in_window sk.nds old new nb t) :
    add_intermediate_versions E sk ref old new nb alv a st
      = (if (anchor E sk old new nb a).1 = a then (anchor E sk old new nb a).2
          else Way_Skeleton.empty,
         (anchor E sk old new nb a).1,
         if alv = true ∧ old < new then
           store_version E sk.id (anchor E sk old new nb a).1 (anchor E sk old new nb a).2
             (reference_state E ref new nb).1 (reference_state E ref new nb).2 new st
         else st) := by
  have hr := relevant_timestamps_nil sk.nds old new nb h
  have hdue : upper_endpoint_due sk.nds old new nb alv ↔ (alv = true ∧ old < new) := by
    unfold upper_endpoint_due
    rw [hr]
    simp [pop_back_if]
  have hwalk : walk_timestamps sk.nds old new nb alv = [] := by
    unfold walk_timestamps
    rw [hr]
    simp [pop_back_if]
  unfold add_intermediate_versions
  simp only [hwalk, List.reverse_nil, reverse_walk, hdue]

theorem anchor_no_window (E : Env) (sk : Way_Skeleton) (old new : Nat) (nb : Nodes_By_Id)
    (a : Nat) (ha : a ≠ 0) (h : ∀ t, ¬ snapshot_in_window sk.nds old new nb t) :
    anchor E sk old new nb a = (a, sk) := by
  unfold anchor
  rw [relevant_timestamps_nil sk.nds old new nb h]
  simp [ha]

theorem implicit_fold_focus (E : Env) (ctx : Attic_Context) (P Q : Attic_Update → Prop)
    (ipre : List (Nat × Way_Skeleton)) (q : Nat × Way_Skeleton)
    (irest : List (Nat × Way_Skeleton)) (u : Attic_Update) (hP : P u)
    (hpre : ∀ q2 ∈ ipre, ∀ u1, P u1 → P (implicit_step E ctx u1 q2))
    (hq : ∀ u1, P u1 → Q (implicit_step E ctx u1 q))
    (hrest : ∀ q2 ∈ irest, ∀ u1, Q u1 → Q (implicit_step E ctx u1 q2)) :
    Q ((ipre ++ q :: irest).foldl (implicit_step E ctx) u) := by
  rw [List.foldl_append, List.foldl_cons]
  exact implicit_fold_invariant E ctx Q irest _
    (hq _ (implicit_fold_invariant E ctx P ipre u hP hpre)) hrest

/-! ## Claim C20: a way that moved only through its nodes -/

theorem implicit_step_single (E : Env) (ctx : Attic_Context) (u : Attic_Update)
    (q : Nat × Way_Skeleton) (t : Nat) (hA : q.1 ≠ 0)
    (hprior : List.lookup q.2.id ctx.existing_attic_skeleton_timestamps = none)
    (ht : t < NOW)
    (hsnap : snapshot_in_window q.2.nds 0 NOW ctx.nodes_by_id t)
    (honly : ∀ x, snapshot_in_window q.2.nds 0 NOW ctx.nodes_by_id x → x = t ∨ x = NOW) :
    (implicit_step E ctx u q).stores
      = store_version E q.2.id q.1 q.2 (compute_idx_and_geometry E q.2 NOW ctx.nodes_by_id).1
          (compute_idx_and_geometry E q.2 NOW ctx.nodes_by_id).2 t u.stores := by
  unfold implicit_step
  rw [hprior]
  simp only
  rw [add_intermediate_versions_stores,
    all_steps_single E q.2 q.2 0 ctx.nodes_by_id q.1 t hA ht hsnap honly]
  rfl

/-- Claim C20. Let way `q.2` be stored under the bucket `q.1`, which is not 0, let it be moved
implicitly and not occur in the batch, and let it have no attic version. Let one of its nodes
have a snapshot stamped `t` with `0 < t < NOW`, let every other snapshot of its nodes be stamped
`NOW`, and let the bucket of the way computed at `NOW` differ from `q.1` and from 0xfe. Assume
that a delta carries the id of the skeleton it encodes and that expanding a delta against a
reference of the same id keeps the id. Then `compute_new_attic_skeletons`, started without
records of the way, returns; the only attic delta of the way in `full_attic` is the delta of `q.2`
against the empty skeleton, stamped `t` and stored under `q.1`; and `new_undeleted` holds the
entry of the way and `t` under the bucket computed at `NOW`. -/
theorem implicit_move_records (E : Env) (hid : ∀ r s, (E.way_delta r s).id = s.id)
    (hexp : ∀ d r, r.id = d.id → (E.expand d r).id = d.id) (ctx : Attic_Context)
    (new_data : List Entry) (ipre : List (Nat × Way_Skeleton)) (q : Nat × Way_Skeleton)
    (irest : List (Nat × Way_Skeleton)) (u : Attic_Update) (t : Nat)
    (hhead : ∀ e, new_data.head? = some e → e.elem.id ≠ 0)
    (hbatch : ∀ e ∈ new_data, e.elem.id ≠ q.2.id)
    (hipre : ∀ q2 ∈ ipre, q2.2.id ≠ q.2.id)
    (hirest : ∀ q2 ∈ irest, q2.2.id ≠ q.2.id)
    (hA : q.1 ≠ 0)
    (hprior : List.lookup q.2.id ctx.existing_attic_skeleton_timestamps = none)
    (ht0 : 0 < t) (ht : t < NOW)
    (hsnap : ∃ nd ∈ q.2.nds, ∃ v ∈ (List.lookup nd ctx.nodes_by_id).getD [], v.timestamp = t)
    (honly : ∀ nd ∈ q.2.nds, ∀ v ∈ (List.lookup nd ctx.nodes_by_id).getD [],
      v.timestamp = t ∨ v.timestamp = NOW)
    (hB : (compute_idx_and_geometry E q.2 NOW ctx.nodes_by_id).1 ≠ q.1)
    (hB2 : (compute_idx_and_geometry E q.2 NOW ctx.nodes_by_id).1 ≠ 0xfe)
    (hfresh : ∀ p ∈ u.stores.full_attic, p.2.elem.id ≠ q.2.id) :
    ∃ u', compute_new_attic_skeletons E ctx new_data (ipre ++ q :: irest) u = some u'
      ∧ (∀ p : Nat × Attic Way_Delta, p.2.elem.id = q.2.id →
          (p ∈ u'.stores.full_attic
            ↔ p = (q.1, Attic.mk (E.way_delta Way_Skeleton.empty q.2) t)))
      ∧ ((compute_idx_and_geometry E q.2 NOW ctx.nodes_by_id).1, Attic.mk q.2.id t)
          ∈ u'.stores.new_undeleted := by
  have hsnap2 : snapshot_in_window q.2.nds 0 NOW ctx.nodes_by_id t := by
    obtain ⟨nd, hnd, v, hv, h⟩ := hsnap
    exact ⟨nd, hnd, v, hv, h, ht0, by omega⟩
  have honly2 : ∀ x, snapshot_in_window q.2.nds 0 NOW ctx.nodes_by_id x → x = t ∨ x = NOW := by
    rintro x ⟨nd, hnd, v, hv, h, _, _⟩
    rw [← h]
    exact honly nd hnd v hv
  obtain ⟨u1, hloop, hP1⟩ := attic_batch_loop_invariant E ctx
    (fun v => agree_on_way q.2.id v.stores u.stores) new_data none 0 u
    (fun _ e he h => hhead e he h.symm) (agree_on_way_refl _ _)
    (fun e he prev1 next last v r hv h =>
      agree_on_way_trans _ _ _ _
        (attic_entry_step_other E hid hexp ctx prev1 e next last v r q.2.id (hbatch e he) h) hv)
  refine ⟨_, by unfold compute_new_attic_skeletons; rw [hloop], ?_⟩
  apply implicit_fold_focus E ctx (fun v => agree_on_way q.2.id v.stores u.stores)
    (fun v => (∀ p : Nat × Attic Way_Delta, p.2.elem.id = q.2.id →
        (p ∈ v.stores.full_attic
          ↔ p = (q.1, Attic.mk (E.way_delta Way_Skeleton.empty q.2) t)))
      ∧ ((compute_idx_and_geometry E q.2 NOW ctx.nodes_by_id).1, Attic.mk q.2.id t)
          ∈ v.stores.new_undeleted) ipre q irest u1 hP1
  · intro q2 hq2 v hv
    exact agree_on_way_trans _ _ _ _
      (implicit_step_other E hid hexp ctx v q2 q.2.id (hipre q2 hq2)) hv
  · intro v hv
    rw [implicit_step_single E ctx v q t hA hprior ht hsnap2 honly2]
    have hfree : ∀ p ∈ v.stores.full_attic,
        p.2.elem.id ≠ (E.way_delta Way_Skeleton.empty q.2).id := by
      intro p hp hc
      rw [hid] at hc
      exact hfresh p ((hv.1 p hc).mp hp) hc
    constructor
    · intro p hp
      rw [mem_store_version_of_fresh E _ _ _ _ _ _ _ (Ne.symm hB) hfree]
      constructor
      · rintro (h | h)
        · exact absurd hp (hfresh p ((hv.1 p hp).mp h))
        · exact h
      · exact Or.inr
    · unfold store_version
      simp only
      rw [if_pos ⟨Ne.symm hB, hB2⟩, mem_map_set_insert_iff same_attic_id same_attic_id_iff]
      exact Or.inr rfl
  · intro q2 hq2 v hv
    have hag := implicit_step_other E hid hexp ctx v q2 q.2.id (hirest q2 hq2)
    exact ⟨fun p hp => (hag.1 p hp).trans (hv.1 p hp),
      implicit_step_undeleted_mono E ctx v q2 _ hv.2⟩

/-- Witness for claim C20: way 3 in bucket 5, whose node 10 moved to bucket 9 at time 300, next
to a batch with a version of way 1. -/
theorem implicit_move_records_witness :
    (∀ r s, (demo_env.way_delta r s).id = s.id)
    ∧ (∀ d r, r.id = d.id → (demo_env.expand d r).id = d.id)
    ∧ (∀ e, [Entry.mk 7 (Way_Skeleton.mk 1 [11] []) (Meta.mk 200)].head? = some e →
        e.elem.id ≠ 0)
    ∧ (∀ e ∈ [Entry.mk 7 (Way_Skeleton.mk 1 [11] []) (Meta.mk 200)], e.elem.id ≠ 3)
    ∧ ((5 : Nat) ≠ 0)
    ∧ List.lookup 3 demo_context_moved.existing_attic_skeleton_timestamps = none
    ∧ 0 < 300 ∧ 300 < NOW
    ∧ (∃ nd ∈ [10], ∃ v ∈ (List.lookup nd demo_context_moved.nodes_by_id).getD [],
        v.timestamp = 300)
    ∧ (∀ nd ∈ [10], ∀ v ∈ (List.lookup nd demo_context_moved.nodes_by_id).getD [],
        v.timestamp = 300 ∨ v.timestamp = NOW)
    ∧ (compute_idx_and_geometry demo_env (Way_Skeleton.mk 3 [10] []) NOW
        demo_context_moved.nodes_by_id).1 = 9
    ∧ ∃ u', compute_new_attic_skeletons demo_env demo_context_moved
          [Entry.mk 7 (Way_Skeleton.mk 1 [11] []) (Meta.mk 200)]
          ([] ++ (5, Way_Skeleton.mk 3 [10] []) :: []) Attic_Update.empty = some u'
        ∧ (∀ p : Nat × Attic Way_Delta, p.2.elem.id = 3 →
            (p ∈ u'.stores.full_attic
              ↔ p = (5, Attic.mk
                  (demo_env.way_delta Way_Skeleton.empty (Way_Skeleton.mk 3 [10] [])) 300)))
        ∧ ((compute_idx_and_geometry demo_env (Way_Skeleton.mk 3 [10] []) NOW
              demo_context_moved.nodes_by_id).1, Attic.mk 3 300)
            ∈ u'.stores.new_undeleted :=
  ⟨demo_env_delta_id, demo_env_expand_id,
   fun e h => by
     simp only [List.head?_cons, Option.some.injEq] at h
     rw [← h]
     decide,
   by decide, by decide, by decide, by decide, by decide, by decide, by decide, by decide,
   implicit_move_records demo_env demo_env_delta_id demo_env_expand_id demo_context_moved
     [Entry.mk 7 (Way_Skeleton.mk 1 [11] []) (Meta.mk 200)] []
     (5, Way_Skeleton.mk 3 [10] []) [] Attic_Update.empty 300
     (fun e h => by
       simp only [List.head?_cons, Option.some.injEq] at h
       rw [← h]
       decide)
     (by decide) (by simp) (by simp) (by decide) (by decide) (by decide) (by decide)
     (by decide) (by decide) (by decide) (by decide) (by simp [Attic_Update.empty,
       Attic_Stores.empty])⟩

/-! ## Claim C19: an explicit deletion -/

theorem compute_idx_and_geometry_no_nodes (E : Env) (sk : Way_Skeleton) (e : Nat)
    (nb : Nodes_By_Id) (h : sk.nds = []) :
    (compute_idx_and_geometry E sk e nb).1 = E.calc_index [] := by
  unfold compute_idx_and_geometry collect_geometry
  rw [h]
  simp only [List.foldl_nil]
  split <;> rfl

theorem add_intermediate_versions_deletion (E : Env) (sk ref : Way_Skeleton) (old new : Nat)
    (nb : Nodes_By_Id) (a : Nat) (st : Attic_Stores) (ha : a ≠ 0) (hlt : old < new)
    (hwin : ∀ t, ¬ snapshot_in_window sk.nds old new nb t) :
    add_intermediate_versions E sk ref old new nb true a st
      = (sk, a, store_version E sk.id a sk (reference_state E ref new nb).1
          (reference_state E ref new nb).2 new st) := by
  rw [add_intermediate_versions_no_window E sk ref old new nb true a st hwin,
    anchor_no_window E sk old new nb a ha hwin]
  simp [hlt]

theorem entry_windows_no_nodes (E : Env) (ctx : Attic_Context) (it : Entry)
    (next : Option Entry) (st : Attic_Stores) (hnds : it.elem.nds = [])
    (hnext : ∀ nx, next = some nx → nx.elem.id ≠ it.elem.id) :
    (entry_windows E ctx it next st).2 = st := by
  have hwin : ∀ new t, ¬ snapshot_in_window it.elem.nds it.meta.timestamp new
      ctx.nodes_by_id t := by
    rintro new t ⟨nd, hnd, _⟩
    rw [hnds] at hnd
    simp at hnd
  have hcall : (add_intermediate_versions E it.elem Way_Skeleton.empty it.meta.timestamp NOW
      ctx.nodes_by_id false 0 st).2.2 = st := by
    rw [add_intermediate_versions_no_window E _ _ _ _ _ _ _ _ (hwin NOW)]
    simp
  unfold entry_windows
  cases next with
  | none => exact hcall
  | some nx =>
    simp only
    rw [if_neg (fun h => hnext nx rfl h.symm)]
    exact hcall

theorem adapt_mem_fresh (E : Env) (old_idx new_idx : Nat) (d : Attic Way_Delta)
    (eref nref : Way_Skeleton) (td fa : List (Nat × Attic Way_Delta))
    (hfree : ∀ p ∈ fa, p.2.elem.id = (adapted_delta E old_idx new_idx d eref nref).id →
      p.2.timestamp ≠ d.timestamp)
    (p : Nat × Attic Way_Delta) :
    p ∈ (adapt_newest_existing_attic E old_idx new_idx d eref nref td fa).2.1
      ↔ p ∈ fa ∨ p ∈ (adapt_newest_existing_attic E old_idx new_idx d eref nref [] []).2.1 := by
  unfold adapt_newest_existing_attic
  simp only
  split
  · rw [mem_map_set_insert_fresh_iff]
    simp only [map_set_insert, List.any_nil, Bool.false_eq_true, if_false, List.nil_append,
      List.mem_singleton]
    constructor
    · rintro (h | h)
      · exact Or.inl h
      · exact Or.inr h.1
    · rintro (h | h)
      · exact Or.inl h
      · refine Or.inr ⟨h, ?_⟩
        intro p2 hp2 _
        by_contra hc
        simp only [same_attic_delta, Bool.and_eq_false_iff, decide_eq_false_iff_not, not_or,
          not_not] at hc
        exact hfree p2 hp2 hc.1 hc.2
  · simp

theorem entry_existing_deletion (E : Env) (hid : ∀ r s, (E.way_delta r s).id = s.id)
    (hexp : ∀ d r, r.id = d.id → (E.expand d r).id = d.id)
    (ctx : Attic_Context) (it : Entry) (u : Attic_Update) (st : Attic_Stores) (A : Nat)
    (sk : Way_Skeleton) (hidx : it.idx = 0) (hnds : it.elem.nds = [])
    (hcur : binary_pair_search ctx.existing_map_positions it.elem.id = some A)
    (hsk : find_attic_skeleton ctx.attic_skeletons A it.elem.id = some sk)
    (hA0 : A ≠ 0) (hAe : A ≠ 0xfe) (hempty : E.calc_index [] = 0xfe)
    (hold : prior_timestamp ctx it.elem.id < it.meta.timestamp)
    (hwin : ∀ x, ¬ snapshot_in_window sk.nds (prior_timestamp ctx it.elem.id)
      it.meta.timestamp ctx.nodes_by_id x)
    (hfree : ∀ p ∈ st.full_attic, p.2.elem.id ≠ it.elem.id) :
    (∀ p, p ∈ (entry_existing E ctx it u st).stores.full_attic
        ↔ p ∈ st.full_attic
          ∨ p = (A, Attic.mk (E.way_delta Way_Skeleton.empty sk) it.meta.timestamp)
          ∨ p ∈ rewritten_prior E ctx it.elem.id A sk sk)
    ∧ (entry_existing E ctx it u st).stores.new_undeleted = st.new_undeleted := by
  have hskid : sk.id = it.elem.id := find_attic_skeleton_id _ _ _ _ hsk
  have halv : (decide (it.idx = 0) || !geometrically_equal sk it.elem) = true := by
    simp [hidx]
  have href : (reference_state E it.elem it.meta.timestamp ctx.nodes_by_id).1 = 0xfe := by
    unfold reference_state
    rw [compute_idx_and_geometry_no_nodes E it.elem _ _ hnds, hempty]
  have hcall := add_intermediate_versions_deletion E sk it.elem
    (prior_timestamp ctx it.elem.id) it.meta.timestamp ctx.nodes_by_id A st hA0 hold hwin
  rw [href] at hcall
  have hfree2 : ∀ p ∈ st.full_attic,
      p.2.elem.id ≠ (E.way_delta Way_Skeleton.empty sk).id := by
    intro p hp
    rw [hid, hskid]
    exact hfree p hp
  have hfa := mem_store_version_of_fresh E sk.id A sk 0xfe
    (reference_state E it.elem it.meta.timestamp ctx.nodes_by_id).2 it.meta.timestamp st hAe
    hfree2
  have hnu : (store_version E sk.id A sk 0xfe
      (reference_state E it.elem it.meta.timestamp ctx.nodes_by_id).2 it.meta.timestamp
      st).new_undeleted = st.new_undeleted := by
    unfold store_version
    simp
  unfold entry_existing rewritten_prior
  rw [hcur]
  simp only
  rw [hsk]
  simp only
  unfold prior_timestamp at hcall hold
  cases hl : List.lookup it.elem.id ctx.existing_attic_skeleton_timestamps with
  | none =>
    rw [hl] at hcall
    simp only at hcall
    simp only [halv, hcall, List.not_mem_nil, or_false]
    exact ⟨hfa, hnu⟩
  | some pr =>
    rw [hl] at hcall hold
    simp only at hcall hold
    simp only [halv, hcall, if_pos hold]
    by_cases hg : pr.2.elem.id = it.elem.id
    · simp only [if_pos hg]
      refine ⟨fun p => ?_, hnu⟩
      rw [adapt_mem_fresh, hfa, or_assoc]
      intro p2 hp2 hp2id
      have hnew : (adapted_delta E pr.1 A pr.2 sk sk).id = it.elem.id := by
        unfold adapted_delta
        rw [hid, hexp _ _ (hskid.trans hg.symm), hg]
      rw [hnew] at hp2id
      rcases (hfa p2).mp hp2 with h | h
      · exact absurd hp2id (hfree p2 h)
      · rw [h]
        simp only
        omega
    · simp only [if_neg hg, List.not_mem_nil, or_false]
      exact ⟨hfa, hnu⟩

theorem attic_entry_step_deletion (E : Env) (hid : ∀ r s, (E.way_delta r s).id = s.id)
    (hexp : ∀ d r, r.id = d.id → (E.expand d r).id = d.id)
    (ctx : Attic_Context) (prev : Option Entry) (it : Entry) (next : Option Entry)
    (last_id : Nat) (u : Attic_Update) (r : Nat × Attic_Update) (A : Nat) (sk : Way_Skeleton)
    (hl : last_id ≠ it.elem.id)
    (hnext : ∀ nx, next = some nx → nx.elem.id ≠ it.elem.id)
    (hidx : it.idx = 0) (hnds : it.elem.nds = [])
    (hcur : binary_pair_search ctx.existing_map_positions it.elem.id = some A)
    (hsk : find_attic_skeleton ctx.attic_skeletons A it.elem.id = some sk)
    (hA0 : A ≠ 0) (hAe : A ≠ 0xfe) (hempty : E.calc_index [] = 0xfe)
    (hold : prior_timestamp ctx it.elem.id < it.meta.timestamp)
    (hwin : ∀ x, ¬ snapshot_in_window sk.nds (prior_timestamp ctx it.elem.id)
      it.meta.timestamp ctx.nodes_by_id x)
    (hfree : ∀ p ∈ u.stores.full_attic, p.2.elem.id ≠ it.elem.id)
    (h : attic_entry_step E ctx prev it next last_id u = some r) :
    (∀ p, p ∈ r.2.stores.full_attic
        ↔ p ∈ u.stores.full_attic
          ∨ p = (A, Attic.mk (E.way_delta Way_Skeleton.empty sk) it.meta.timestamp)
          ∨ p ∈ rewritten_prior E ctx it.elem.id A sk sk)
    ∧ r.2.stores.new_undeleted = u.stores.new_undeleted := by
  unfold attic_entry_step at h
  simp only at h
  rw [if_neg hl] at h
  cases h
  simp only [hcur, Option.isNone_some, Bool.false_eq_true, false_and, if_false]
  rw [entry_windows_no_nodes E ctx it next u.stores hnds hnext]
  exact entry_existing_deletion E hid hexp ctx it u u.stores A sk hidx hnds hcur hsk hA0 hAe
    hempty hold hwin hfree

/-- Claim C19, counterexample. Way 1 is current in bucket 5, the bucket of the empty node list is
0xfe, no node of the way has a snapshot below `NOW`, and the only version of the way in the batch
is a deletion stamped 400, later than the attic version stamped 150. Two attic deltas of way 1
are written: the delta stamped 400 and the attic version stamped 150, which
`adapt_newest_existing_attic` encodes anew. -/
theorem deletion_counterexample :
    demo_env.calc_index [] = 0xfe
    ∧ (compute_new_attic_skeletons demo_env demo_context_stale
        [Entry.mk 0 (Way_Skeleton.mk 1 [] []) (Meta.mk 400)] [] Attic_Update.empty).map
        (fun u => u.stores.full_attic.map (fun p => (p.1, p.2.elem.id, p.2.timestamp)))
      = some [(5, 1, 400), (5, 1, 150)] := by
  decide

/-- Claim C19, amended. Let way `it.elem.id` be current in bucket `A` with `A` neither 0 nor
0xfe and with the skeleton `sk` loaded in `attic_skeletons`, let the bucket of the empty node list
be 0xfe, let `it` be the only version of the way in the batch, with bucket 0, an empty node list
and a timestamp greater than the timestamp of the youngest attic version of the way (0 without
one), let no node of `sk` have a snapshot in between, and let the way not be moved implicitly.
Assume that a delta carries the id of the skeleton it encodes and that expanding a delta against a
reference of the same id keeps the id. Then `compute_new_attic_skeletons`, started without records
of the way in a batch that does not begin with way id 0, returns; the attic deltas of the way in
`full_attic` are the delta of `sk` against the empty skeleton, stamped with the timestamp of `it`
and stored under `A`, and the record that `adapt_newest_existing_attic` encodes anew for the
youngest attic version, if it does; and no undelete entry of the way is added. -/
theorem deletion_records (E : Env) (hid : ∀ r s, (E.way_delta r s).id = s.id)
    (hexp : ∀ d r, r.id = d.id → (E.expand d r).id = d.id) (ctx : Attic_Context)
    (pre : List Entry) (it : Entry) (rest : List Entry)
    (implicitly_moved_skeletons : List (Nat × Way_Skeleton)) (u : Attic_Update) (A : Nat)
    (sk : Way_Skeleton)
    (hhead : ∀ e, (pre ++ it :: rest).head? = some e → e.elem.id ≠ 0)
    (hpre : ∀ e ∈ pre, e.elem.id ≠ it.elem.id)
    (hrest : ∀ e ∈ rest, e.elem.id ≠ it.elem.id)
    (himpl : ∀ q ∈ implicitly_moved_skeletons, q.2.id ≠ it.elem.id)
    (hidx : it.idx = 0) (hnds : it.elem.nds = [])
    (hcur : binary_pair_search ctx.existing_map_positions it.elem.id = some A)
    (hsk : find_attic_skeleton ctx.attic_skeletons A it.elem.id = some sk)
    (hA0 : A ≠ 0) (hAe : A ≠ 0xfe) (hempty : E.calc_index [] = 0xfe)
    (hold : prior_timestamp ctx it.elem.id < it.meta.timestamp)
    (hwin : ∀ nd ∈ sk.nds, ∀ v ∈ (List.lookup nd ctx.nodes_by_id).getD [],
      ¬ (prior_timestamp ctx it.elem.id < v.timestamp ∧ v.timestamp ≤ it.meta.timestamp))
    (hfresh : ∀ p ∈ u.stores.full_attic, p.2.elem.id ≠ it.elem.id) :
    ∃ u', compute_new_attic_skeletons E ctx (pre ++ it :: rest) implicitly_moved_skeletons u
        = some u'
      ∧ (∀ p : Nat × Attic Way_Delta, p.2.elem.id = it.elem.id →
          (p ∈ u'.stores.full_attic
            ↔ p = (A, Attic.mk (E.way_delta Way_Skeleton.empty sk) it.meta.timestamp)
              ∨ p ∈ rewritten_prior E ctx it.elem.id A sk sk))
      ∧ (∀ x : Nat × Attic Nat, x.2.elem = it.elem.id →
          (x ∈ u'.stores.new_undeleted ↔ x ∈ u.stores.new_undeleted)) := by
  have hwin2 : ∀ x, ¬ snapshot_in_window sk.nds (prior_timestamp ctx it.elem.id)
      it.meta.timestamp ctx.nodes_by_id x := by
    rintro x ⟨nd, hnd, v, hv, h1, h2, h3⟩
    apply hwin nd hnd v hv
    rw [h1]
    exact ⟨h2, h3⟩
  obtain ⟨u1, hloop, hQ1⟩ := attic_batch_loop_focus E ctx
    (fun v => agree_on_way it.elem.id v.stores u.stores)
    (fun v => (∀ p : Nat × Attic Way_Delta, p.2.elem.id = it.elem.id →
        (p ∈ v.stores.full_attic
          ↔ p = (A, Attic.mk (E.way_delta Way_Skeleton.empty sk) it.meta.timestamp)
            ∨ p ∈ rewritten_prior E ctx it.elem.id A sk sk))
      ∧ (∀ x : Nat × Attic Nat, x.2.elem = it.elem.id →
          (x ∈ v.stores.new_undeleted ↔ x ∈ u.stores.new_undeleted)))
    pre it rest none 0 u
    (fun _ e he h => hhead e he h.symm)
    (by
      cases hg : pre.getLast? with
      | none =>
        have hnil : pre = [] := by simpa using hg
        simp only [Option.map_none', Option.getD_none]
        intro h
        exact hhead it (by rw [hnil]; rfl) h.symm
      | some q =>
        simp only [Option.map_some', Option.getD_some]
        exact hpre q (List.mem_of_mem_getLast? hg))
    (agree_on_way_refl _ _)
    (fun e he prev1 next last v r hv h =>
      agree_on_way_trans _ _ _ _
        (attic_entry_step_other E hid hexp ctx prev1 e next last v r it.elem.id (hpre e he) h)
        hv)
    (by
      intro prev1 last v r hl hv h
      have hfree : ∀ p ∈ v.stores.full_attic, p.2.elem.id ≠ it.elem.id :=
        fun p hp hc => hfresh p ((hv.1 p hc).mp hp) hc
      obtain ⟨h1, h2⟩ := attic_entry_step_deletion E hid hexp ctx prev1 it rest.head? last v r
        A sk hl (fun nx hnx => hrest nx (List.mem_of_mem_head? hnx)) hidx hnds hcur hsk hA0 hAe
        hempty hold hwin2 hfree h
      constructor
      · intro p hp
        rw [h1]
        constructor
        · rintro (h3 | h3)
          · exact absurd hp (hfree p h3)
          · exact h3
        · exact Or.inr
      · intro x hx
        rw [h2]
        exact hv.2 x hx)
    (by
      intro e he prev1 next last v r hv h
      have hag := attic_entry_step_other E hid hexp ctx prev1 e next last v r it.elem.id
        (hrest e he) h
      exact ⟨fun p hp => (hag.1 p hp).trans (hv.1 p hp),
        fun x hx => (hag.2 x hx).trans (hv.2 x hx)⟩)
  refine ⟨_, by unfold compute_new_attic_skeletons; rw [hloop], ?_⟩
  apply implicit_fold_invariant E ctx
    (fun v => (∀ p : Nat × Attic Way_Delta, p.2.elem.id = it.elem.id →
        (p ∈ v.stores.full_attic
          ↔ p = (A, Attic.mk (E.way_delta Way_Skeleton.empty sk) it.meta.timestamp)
            ∨ p ∈ rewritten_prior E ctx it.elem.id A sk sk))
      ∧ (∀ x : Nat × Attic Nat, x.2.elem = it.elem.id →
          (x ∈ v.stores.new_undeleted ↔ x ∈ u.stores.new_undeleted)))
    implicitly_moved_skeletons u1 hQ1
  intro q hq v hv
  have hag := implicit_step_other E hid hexp ctx v q it.elem.id (himpl q hq)
  exact ⟨fun p hp => (hag.1 p hp).trans (hv.1 p hp),
    fun x hx => (hag.2 x hx).trans (hv.2 x hx)⟩

/-- Witness for claim C19 (amended): way 1 of `demo_context`, current in bucket 5 with an attic
version stamped 150, is deleted at time 400 in a batch that also holds a version of way 2. The
attic version on disk is encoded as `adapt_newest_existing_attic` encodes it, so the delta stamped
400 is the only one. -/
theorem deletion_records_witness :
    (∀ r s, (demo_env.way_delta r s).id = s.id)
    ∧ (∀ d r, r.id = d.id → (demo_env.expand d r).id = d.id)
    ∧ (∀ e, ([] ++ demo_deletion
        :: [Entry.mk 7 (Way_Skeleton.mk 2 [10] []) (Meta.mk 300)]).head? = some e →
        e.elem.id ≠ 0)
    ∧ (∀ e ∈ [Entry.mk 7 (Way_Skeleton.mk 2 [10] []) (Meta.mk 300)],
        e.elem.id ≠ demo_deletion.elem.id)
    ∧ demo_deletion.idx = 0 ∧ demo_deletion.elem.nds = []
    ∧ binary_pair_search demo_context.existing_map_positions demo_deletion.elem.id = some 5
    ∧ find_attic_skeleton demo_context.attic_skeletons 5 demo_deletion.elem.id
        = some (Way_Skeleton.mk 1 [10] [])
    ∧ demo_env.calc_index [] = 0xfe
    ∧ prior_timestamp demo_context demo_deletion.elem.id < demo_deletion.meta.timestamp
    ∧ (∀ nd ∈ (Way_Skeleton.mk 1 [10] []).nds,
        ∀ v ∈ (List.lookup nd demo_context.nodes_by_id).getD [],
          ¬ (prior_timestamp demo_context demo_deletion.elem.id < v.timestamp
              ∧ v.timestamp ≤ demo_deletion.meta.timestamp))
    ∧ rewritten_prior demo_env demo_context demo_deletion.elem.id 5
        (Way_Skeleton.mk 1 [10] []) (Way_Skeleton.mk 1 [10] []) = []
    ∧ ∃ u', compute_new_attic_skeletons demo_env demo_context
          ([] ++ demo_deletion :: [Entry.mk 7 (Way_Skeleton.mk 2 [10] []) (Meta.mk 300)]) []
          Attic_Update.empty = some u'
        ∧ (∀ p : Nat × Attic Way_Delta, p.2.elem.id = demo_deletion.elem.id →
            (p ∈ u'.stores.full_attic
              ↔ p = (5, Attic.mk
                    (demo_env.way_delta Way_Skeleton.empty (Way_Skeleton.mk 1 [10] []))
                    demo_deletion.meta.timestamp)
                ∨ p ∈ rewritten_prior demo_env demo_context demo_deletion.elem.id 5
                    (Way_Skeleton.mk 1 [10] []) (Way_Skeleton.mk 1 [10] [])))
        ∧ (∀ x : Nat × Attic Nat, x.2.elem = demo_deletion.elem.id →
            (x ∈ u'.stores.new_undeleted ↔ x ∈ Attic_Update.empty.stores.new_undeleted)) :=
  ⟨demo_env_delta_id, demo_env_expand_id,
   fun e h => by
     simp only [List.nil_append, List.head?_cons, Option.some.injEq] at h
     rw [← h]
     decide,
   by decide, rfl, rfl, by decide, by decide, by decide, by decide, by decide, by decide,
   deletion_records demo_env demo_env_delta_id demo_env_expand_id demo_context []
     demo_deletion [Entry.mk 7 (Way_Skeleton.mk 2 [10] []) (Meta.mk 300)] []
     Attic_Update.empty 5 (Way_Skeleton.mk 1 [10] [])
     (fun e h => by
       simp only [List.nil_append, List.head?_cons, Option.some.injEq] at h
       rw [← h]
       decide)
     (by simp) (by decide) (by simp) rfl rfl (by decide) (by decide) (by decide) (by decide)
     (by decide) (by decide) (by decide) (by simp [Attic_Update.empty, Attic_Stores.empty])⟩

/-! ## Claims C27, C28, C29: the entries and the result of one call -/

theorem walk_steps_ne_nil (E : Env) (sk : Way_Skeleton) (nb : Nodes_By_Id) (a : Nat)
    (t : Nat) (rest : List Nat) (li : Nat) (ls : Way_Skeleton) :
    walk_steps E sk nb a (t :: rest) li ls ≠ [] := by
  simp [walk_steps]

theorem reverse_walk_final_step (E : Env) (sk : Way_Skeleton) (nb : Nodes_By_Id) (a : Nat)
    (ts : List Nat) (li : Nat) (ls : Way_Skeleton) (st : Attic_Stores) :
    ((reverse_walk E sk nb a ts li ls st).1, (reverse_walk E sk nb a ts li ls st).2.1)
      = match (walk_steps E sk nb a ts li ls).getLast? with
        | none => (li, ls)
        | some s => (s.idx, s.skeleton) := by
  induction ts generalizing li ls st with
  | nil => rfl
  | cons t rest ih =>
    simp only [reverse_walk, walk_steps]
    rw [ih]
    cases rest with
    | nil => simp [walk_steps]
    | cons t2 rest2 =>
      obtain ⟨x, l, hx⟩ := List.exists_cons_of_ne_nil
        (walk_steps_ne_nil E sk nb a t2 rest2
          (if a = 0 ∨ t2 :: rest2 ≠ [] then compute_idx_and_geometry E sk t nb else (a, sk)).1
          (if a = 0 ∨ t2 :: rest2 ≠ [] then compute_idx_and_geometry E sk t nb else (a, sk)).2)
      rw [hx, List.getLast?_cons_cons]
      obtain ⟨y, hy⟩ : ∃ y, (x :: l).getLast? = some y :=
        ⟨_, List.getLast?_eq_getLast _ (by simp)⟩
      rw [hy]

theorem walk_steps_head (E : Env) (sk : Way_Skeleton) (nb : Nodes_By_Id) (a : Nat)
    (ts : List Nat) (li : Nat) (ls : Way_Skeleton) (s : Walk_Step) (l : List Walk_Step)
    (h : walk_steps E sk nb a ts li ls = s :: l) :
    (s.last_idx, s.last_skeleton) = (li, ls) := by
  cases ts with
  | nil => simp [walk_steps] at h
  | cons t rest =>
    simp only [walk_steps, List.cons.injEq] at h
    rw [← h.1]

theorem walk_steps_chain (E : Env) (sk : Way_Skeleton) (nb : Nodes_By_Id) (a : Nat)
    (ts : List Nat) (li : Nat) (ls : Way_Skeleton) (l1 : List Walk_Step) (s s2 : Walk_Step)
    (l2 : List Walk_Step) (h : walk_steps E sk nb a ts li ls = l1 ++ s :: s2 :: l2) :
    (s2.last_idx, s2.last_skeleton) = (s.idx, s.skeleton) := by
  induction ts generalizing li ls l1 with
  | nil => simp [walk_steps] at h
  | cons t rest ih =>
    simp only [walk_steps] at h
    cases l1 with
    | nil =>
      simp only [List.nil_append, List.cons.injEq] at h
      have := walk_steps_head E sk nb a rest _ _ s2 l2 h.2
      rw [this, ← h.1]
    | cons x l1 =>
      simp only [List.cons_append, List.cons.injEq] at h
      exact ih _ _ l1 h.2

theorem walk_steps_state_eq (E : Env) (sk : Way_Skeleton) (nb : Nodes_By_Id) (a : Nat)
    (ts : List Nat) (li : Nat) (ls : Way_Skeleton) (hts : ts.Pairwise (fun x y => y < x))
    (s : Walk_Step) (hs : s ∈ walk_steps E sk nb a ts li ls) :
    (s.idx, s.skeleton)
      = if a = 0 ∨ ∃ t2 ∈ ts, t2 < s.timestamp then compute_idx_and_geometry E sk s.timestamp nb
        else (a, sk) := by
  obtain ⟨h1, h2⟩ := walk_steps_state E sk nb a ts li ls hts s hs
  by_cases hc : a = 0 ∨ ∃ t2 ∈ ts, t2 < s.timestamp
  · rw [if_pos hc]
    exact h2 hc
  · rw [if_neg hc]
    clear h1 h2
    induction ts generalizing li ls with
    | nil => simp [walk_steps] at hs
    | cons t rest ih =>
      have hts2 := List.pairwise_cons.mp hts
      simp only [walk_steps, List.mem_cons] at hs
      rcases hs with rfl | hs
      · simp only at hc ⊢
        have hrest : rest = [] := by
          cases rest with
          | nil => rfl
          | cons t2 rest2 =>
            exact absurd (Or.inr ⟨t2, by simp, hts2.1 t2 (by simp)⟩) hc
        have ha : ¬ a = 0 := fun h => hc (Or.inl h)
        simp [hrest, ha]
      · apply ih _ _ hts2.2 hs
        rintro (h | ⟨t2, ht2, hlt⟩)
        · exact hc (Or.inl h)
        · exact hc (Or.inr ⟨t2, by simp [ht2], hlt⟩)

/-- Claim C27. Started with an empty `full_attic`, a call of `add_intermediate_versions` with
`new_timestamp` in the range of `uint64` leaves an entry stamped `new_timestamp` if and only if
`add_last_version` holds with `old_timestamp < new_timestamp`, or a node of the way has a snapshot
stamped `new_timestamp` and `new_timestamp` is not `NOW` (the largest relevant timestamp other
than `NOW` is `new_timestamp`). That entry is stored under the anchored bucket; its delta encodes
the anchored skeleton against the reference recomputed at `new_timestamp + 1` (in `uint64`
arithmetic) when the anchored bucket equals the bucket of that reference, and against the empty
skeleton otherwise. -/
theorem upper_endpoint_entry (E : Env) (sk ref : Way_Skeleton) (old new : Nat)
    (nb : Nodes_By_Id) (alv : Bool) (a : Nat) (nu : List (Nat × Attic Nat))
    (il : List (Nat × Nat)) (hnew : new ≤ NOW) :
    ((∃ p ∈ (add_intermediate_versions E sk ref old new nb alv a
          (Attic_Stores.mk [] nu il)).2.2.full_attic, p.2.timestamp = new)
      ↔ ((alv = true ∧ old < new) ∨ (snapshot_in_window sk.nds old new nb new ∧ new ≠ NOW)))
    ∧ ∀ p ∈ (add_intermediate_versions E sk ref old new nb alv a
          (Attic_Stores.mk [] nu il)).2.2.full_attic, p.2.timestamp = new →
        p = ((anchor E sk old new nb a).1,
          Attic.mk
            (if (anchor E sk old new nb a).1
                = (compute_idx_and_geometry E ref ((new + 1) % UINT64_MOD) nb).1 then
              E.way_delta (compute_idx_and_geometry E ref ((new + 1) % UINT64_MOD) nb).2
                (anchor E sk old new nb a).2
            else E.way_delta Way_Skeleton.empty (anchor E sk old new nb a).2) new) := by
  rw [stores_from_empty]
  constructor
  · have hm := mem_all_steps_timestamps E sk ref old new nb alv a hnew new
    rw [List.mem_map] at hm
    constructor
    · rintro ⟨p, hp, hpt⟩
      rw [List.mem_map] at hp
      obtain ⟨s, hs, rfl⟩ := hp
      rcases hm.mp ⟨s, hs, hpt⟩ with h | h
      · exact Or.inr h
      · exact Or.inl ⟨h.1, h.2.1⟩
    · intro h
      have h2 : (snapshot_in_window sk.nds old new nb new ∧ new ≠ NOW)
          ∨ (alv = true ∧ old < new ∧ new = new) := by
        rcases h with h | h
        · exact Or.inr ⟨h.1, h.2, rfl⟩
        · exact Or.inl h
      obtain ⟨s, hs, hst⟩ := hm.mpr h2
      exact ⟨step_record E s, List.mem_map_of_mem _ hs, hst⟩
  · intro p hp hpt
    rw [List.mem_map] at hp
    obtain ⟨s, hs, rfl⟩ := hp
    have hst : s.timestamp = new := hpt
    unfold all_steps at hs
    rcases List.mem_append.mp hs with h | h
    · by_cases hup : upper_endpoint_due sk.nds old new nb alv
      · rw [if_pos hup, List.mem_singleton] at h
        rw [h]
        rfl
      · rw [if_neg hup] at h
        simp at h
    · exfalso
      have hm := List.mem_map_of_mem (fun s => s.timestamp) h
      rw [walk_steps_timestamps, List.mem_reverse] at hm
      have hm2 : s.timestamp ∈ walk_timestamps sk.nds old new nb alv := hm
      rw [hst] at hm2
      clear hm
      have hm := hm2
      unfold walk_timestamps at hm
      by_cases hup : upper_endpoint_due sk.nds old new nb alv
      · rw [if_pos hup, mem_pop_new] at hm
        exact hm.2 rfl
      · rw [if_neg hup] at hm
        exact hup ((upper_endpoint_due_iff sk.nds old new nb alv).mpr (Or.inr hm))

/-- Witness for claim C27: way 1 with the nodes 10 and 11 of `demo_nodes` in the window from 100
to 200 with `add_last_version`. -/
theorem upper_endpoint_entry_witness :
    (200 ≤ NOW)
    ∧ ((∃ p ∈ (add_intermediate_versions demo_env (Way_Skeleton.mk 1 [10, 11] [])
          (Way_Skeleton.mk 1 [10] []) 100 200 demo_nodes true 3
          (Attic_Stores.mk [] [] [])).2.2.full_attic, p.2.timestamp = 200)
      ↔ (((true : Bool) = true ∧ 100 < 200)
          ∨ (snapshot_in_window (Way_Skeleton.mk 1 [10, 11] []).nds 100 200 demo_nodes 200
              ∧ 200 ≠ NOW)))
    ∧ ∀ p ∈ (add_intermediate_versions demo_env (Way_Skeleton.mk 1 [10, 11] [])
          (Way_Skeleton.mk 1 [10] []) 100 200 demo_nodes true 3
          (Attic_Stores.mk [] [] [])).2.2.full_attic, p.2.timestamp = 200 →
        p = ((anchor demo_env (Way_Skeleton.mk 1 [10, 11] []) 100 200 demo_nodes 3).1,
          Attic.mk
            (if (anchor demo_env (Way_Skeleton.mk 1 [10, 11] []) 100 200 demo_nodes 3).1
                = (compute_idx_and_geometry demo_env (Way_Skeleton.mk 1 [10] [])
                    ((200 + 1) % UINT64_MOD) demo_nodes).1 then
              demo_env.way_delta (compute_idx_and_geometry demo_env (Way_Skeleton.mk 1 [10] [])
                  ((200 + 1) % UINT64_MOD) demo_nodes).2
                (anchor demo_env (Way_Skeleton.mk 1 [10, 11] []) 100 200 demo_nodes 3).2
            else demo_env.way_delta Way_Skeleton.empty
              (anchor demo_env (Way_Skeleton.mk 1 [10, 11] []) 100 200 demo_nodes 3).2) 200) :=
  ⟨by decide,
   upper_endpoint_entry demo_env (Way_Skeleton.mk 1 [10, 11] []) (Way_Skeleton.mk 1 [10] [])
     100 200 demo_nodes true 3 [] [] (by decide)⟩

/-- Claim C28. Let `W` be the steps of the reverse walk of one call of
`add_intermediate_versions`. Started with an empty `full_attic`, the call leaves the upper
endpoint entry, if it is due, followed by the records of `W`; the timestamps of `W` are the
remaining relevant timestamps from newest to oldest; the record of a step is stored under the
bucket of the step and encodes its skeleton against the skeleton of the next-younger step when
the two buckets agree and against the empty skeleton otherwise; the state of a step is the one
computed at its timestamp, except that the oldest step keeps the prior bucket and the skeleton
passed in when the prior bucket is not 0; the next-younger step of the first step of `W` is the
anchored state, and that of every other step is the state of the step before it in `W`. -/
theorem reverse_walk_entries (E : Env) (sk ref : Way_Skeleton) (old new : Nat)
    (nb : Nodes_By_Id) (alv : Bool) (a : Nat) (nu : List (Nat × Attic Nat))
    (il : List (Nat × Nat)) :
    (add_intermediate_versions E sk ref old new nb alv a
        (Attic_Stores.mk [] nu il)).2.2.full_attic
      = (if upper_endpoint_due sk.nds old new nb alv then
          [step_record E (Walk_Step.mk new (anchor E sk old new nb a).1
            (anchor E sk old new nb a).2 (reference_state E ref new nb).1
            (reference_state E ref new nb).2)]
        else [])
        ++ (walk_steps E sk nb a (walk_timestamps sk.nds old new nb alv).reverse
            (anchor E sk old new nb a).1 (anchor E sk old new nb a).2).map (step_record E)
    ∧ (walk_steps E sk nb a (walk_timestamps sk.nds old new nb alv).reverse
          (anchor E sk old new nb a).1 (anchor E sk old new nb a).2).map
        (fun s => s.timestamp) = (walk_timestamps sk.nds old new nb alv).reverse
    ∧ (∀ s ∈ walk_steps E sk nb a (walk_timestamps sk.nds old new nb alv).reverse
          (anchor E sk old new nb a).1 (anchor E sk old new nb a).2,
        step_record E s
          = (s.idx, Attic.mk
              (if s.idx = s.last_idx then E.way_delta s.last_skeleton s.skeleton
               else E.way_delta Way_Skeleton.empty s.skeleton) s.timestamp)
        ∧ (s.idx, s.skeleton)
          = if a = 0 ∨ ∃ t2 ∈ walk_timestamps sk.nds old new nb alv, t2 < s.timestamp then
              compute_idx_and_geometry E sk s.timestamp nb
            else (a, sk))
    ∧ (∀ s l, walk_steps E sk nb a (walk_timestamps sk.nds old new nb alv).reverse
          (anchor E sk old new nb a).1 (anchor E sk old new nb a).2 = s :: l →
        (s.last_idx, s.last_skeleton) = anchor E sk old new nb a)
    ∧ ∀ l1 s s2 l2, walk_steps E sk nb a (walk_timestamps sk.nds old new nb alv).reverse
          (anchor E sk old new nb a).1 (anchor E sk old new nb a).2 = l1 ++ s :: s2 :: l2 →
        (s2.last_idx, s2.last_skeleton) = (s.idx, s.skeleton) := by
  have hrev : (walk_timestamps sk.nds old new nb alv).reverse.Pairwise (fun x y => y < x) := by
    rw [List.pairwise_reverse]
    exact walk_timestamps_strict sk.nds old new nb alv
  refine ⟨?_, walk_steps_timestamps E sk nb a _ _ _, ?_, ?_, ?_⟩
  · rw [stores_from_empty]
    unfold all_steps
    rw [List.map_append]
    split <;> rfl
  · intro s hs
    refine ⟨rfl, ?_⟩
    rw [walk_steps_state_eq E sk nb a _ _ _ hrev s hs]
    simp only [List.mem_reverse]
  · intro s l h
    exact walk_steps_head E sk nb a _ _ _ s l h
  · intro l1 s s2 l2 h
    exact walk_steps_chain E sk nb a _ _ _ l1 s s2 l2 h

/-- Claim C29. The skeleton that `add_intermediate_versions` returns is the skeleton of the
oldest state of the window (the last step of the reverse walk, or the anchored state when the walk
has no step) when the bucket of that state equals `attic_idx`, and the empty skeleton otherwise;
the out-parameter `last_idx` holds the bucket of that state in both cases. -/
theorem returned_skeleton (E : Env) (sk ref : Way_Skeleton) (old new : Nat)
    (nb : Nodes_By_Id) (alv : Bool) (a : Nat) (st : Attic_Stores) :
    (add_intermediate_versions E sk ref old new nb alv a st).2.1
        = (oldest_state E sk old new nb alv a).1
    ∧ (add_intermediate_versions E sk ref old new nb alv a st).1
        = (if (oldest_state E sk old new nb alv a).1 = a then
            (oldest_state E sk old new nb alv a).2
          else Way_Skeleton.empty)
    ∧ ((oldest_state E sk old new nb alv a).1 = a →
        (add_intermediate_versions E sk ref old new nb alv a st).1
          = (oldest_state E sk old new nb alv a).2)
    ∧ ((oldest_state E sk old new nb alv a).1 ≠ a →
        (add_intermediate_versions E sk ref old new nb alv a st).1 = Way_Skeleton.empty) := by
  have h := reverse_walk_final_step E sk nb a (walk_timestamps sk.nds old new nb alv).reverse
    (anchor E sk old new nb a).1 (anchor E sk old new nb a).2
    (if upper_endpoint_due sk.nds old new nb alv then
      store_version E sk.id (anchor E sk old new nb a).1 (anchor E sk old new nb a).2
        (reference_state E ref new nb).1 (reference_state E ref new nb).2 new st
    else st)
  have hfin : ((add_intermediate_versions E sk ref old new nb alv a st).2.1,
      (reverse_walk E sk nb a (walk_timestamps sk.nds old new nb alv).reverse
        (anchor E sk old new nb a).1 (anchor E sk old new nb a).2
        (if upper_endpoint_due sk.nds old new nb alv then
          store_version E sk.id (anchor E sk old new nb a).1 (anchor E sk old new nb a).2
            (reference_state E ref new nb).1 (reference_state E ref new nb).2 new st
        else st)).2.1) = oldest_state E sk old new nb alv a := by
    unfold oldest_state
    rw [← h]
    rfl
  have h1 : (add_intermediate_versions E sk ref old new nb alv a st).2.1
      = (oldest_state E sk old new nb alv a).1 := by
    rw [← hfin]
  have h2 : (add_intermediate_versions E sk ref old new nb alv a st).1
      = (if (oldest_state E sk old new nb alv a).1 = a then
          (oldest_state E sk old new nb alv a).2
        else Way_Skeleton.empty) := by
    rw [← hfin]
    rfl
  refine ⟨h1, h2, ?_, ?_⟩
  · intro hc
    rw [h2, if_pos hc]
  · intro hc
    rw [h2, if_neg hc]

/-! ## Claim C30: the adaption after a change of bucket -/

theorem add_intermediate_versions_idx_lists_other (E : Env) (sk ref : Way_Skeleton)
    (old new : Nat) (nb : Nodes_By_Id) (alv : Bool) (a : Nat) (st : Attic_Stores)
    (x : Nat × Nat) (hx : x.1 ≠ sk.id) :
    x ∈ (add_intermediate_versions E sk ref old new nb alv a st).2.2.idx_lists
      ↔ x ∈ st.idx_lists := by
  rw [add_intermediate_versions_stores, mem_steps_idx_lists]
  constructor
  · rintro (h | ⟨s, _, h⟩)
    · exact h
    · rw [h] at hx
      exact absurd rfl hx
  · exact Or.inl

theorem entry_windows_idx_lists_other (E : Env) (ctx : Attic_Context) (it : Entry)
    (next : Option Entry) (st : Attic_Stores) (x : Nat × Nat) (hx : x.1 ≠ it.elem.id) :
    x ∈ (entry_windows E ctx it next st).2.idx_lists ↔ x ∈ st.idx_lists := by
  unfold entry_windows
  split
  · split
    · split
      · exact add_intermediate_versions_idx_lists_other E _ _ _ _ _ _ _ _ x hx
      · exact Iff.rfl
    · exact add_intermediate_versions_idx_lists_other E _ _ _ _ _ _ _ _ x hx
  · exact add_intermediate_versions_idx_lists_other E _ _ _ _ _ _ _ _ x hx

theorem entry_existing_idx_lists_other (E : Env) (ctx : Attic_Context) (it : Entry)
    (u : Attic_Update) (st : Attic_Stores) (x : Nat × Nat) (hx : x.1 ≠ it.elem.id) :
    x ∈ (entry_existing E ctx it u st).stores.idx_lists ↔ x ∈ st.idx_lists := by
  unfold entry_existing
  split
  · exact Iff.rfl
  · split
    · exact Iff.rfl
    · rename_i it_attic hfind
      have hsk : it_attic.id = it.elem.id := find_attic_skeleton_id _ _ _ _ hfind
      have hx2 : x.1 ≠ it_attic.id := by
        rw [hsk]
        exact hx
      split
      · exact add_intermediate_versions_idx_lists_other E _ _ _ _ _ _ _ _ x hx2
      · simp only
        split
        · exact add_intermediate_versions_idx_lists_other E _ _ _ _ _ _ _ _ x hx2
        · exact add_intermediate_versions_idx_lists_other E _ _ _ _ _ _ _ _ x hx2

theorem attic_entry_step_idx_lists_other (E : Env) (ctx : Attic_Context) (prev : Option Entry)
    (it : Entry) (next : Option Entry) (last_id : Nat) (u : Attic_Update)
    (r : Nat × Attic_Update) (h : attic_entry_step E ctx prev it next last_id u = some r)
    (x : Nat × Nat) (hx : x.1 ≠ it.elem.id) :
    x ∈ r.2.stores.idx_lists ↔ x ∈ u.stores.idx_lists := by
  have hw := entry_windows_idx_lists_other E ctx it next u.stores x hx
  have hun : ∀ i, x ∈ (undelete_created E ctx it i
      (entry_windows E ctx it next u.stores).2).idx_lists ↔ x ∈ u.stores.idx_lists :=
    fun _ => hw
  unfold attic_entry_step at h
  simp only at h
  split at h
  · cases prev with
    | none => simp at h
    | some last_it =>
      simp only at h
      split at h
      · cases h
        exact hun _
      · cases h
        exact hw
  · cases h
    rw [entry_existing_idx_lists_other E ctx it u _ x hx]
    split
    · exact hun _
    · exact hw

theorem implicit_step_idx_lists_other (E : Env) (ctx : Attic_Context) (u : Attic_Update)
    (q : Nat × Way_Skeleton) (x : Nat × Nat) (hx : x.1 ≠ q.2.id) :
    x ∈ (implicit_step E ctx u q).stores.idx_lists ↔ x ∈ u.stores.idx_lists := by
  unfold implicit_step
  split
  · exact add_intermediate_versions_idx_lists_other E _ _ _ _ _ _ _ _ x hx
  · simp only
    split
    · exact add_intermediate_versions_idx_lists_other E _ _ _ _ _ _ _ _ x hx
    · exact add_intermediate_versions_idx_lists_other E _ _ _ _ _ _ _ _ x hx

/-- Claim C21, counterexample. Scenario S3: way 3 of `demo_context_moved` is stored under
bucket 5, its node 10 moved at time 300, its bucket computed from the current positions is 9, and
its bucket list is empty before. After `compute_new_attic_skeletons` the bucket list of way 3
holds bucket 5 only. -/
theorem bucket_list_counterexample :
    (compute_idx_and_geometry demo_env (Way_Skeleton.mk 3 [10] []) NOW
        demo_context_moved.nodes_by_id).1 = 9
    ∧ (compute_new_attic_skeletons demo_env demo_context_moved []
        [(5, Way_Skeleton.mk 3 [10] [])] Attic_Update.empty).map
        (fun u => u.stores.idx_lists) = some [(3, 5)] := by
  decide

/-- Claim C21, amended. Let way `q.2` be stored under the bucket `q.1`, which is not 0, let it
be moved implicitly and not occur in the batch, and let it have no attic version. Let one of its
nodes have a snapshot stamped `t` with `0 < t < NOW`, and let every other snapshot of its nodes be
stamped `NOW`. Then `compute_new_attic_skeletons` returns, and the bucket list of the way holds
afterwards what it held before and the bucket `q.1`, under which the attic delta is stored. The
bucket computed at `NOW` for the current version is not added. -/
theorem implicit_move_bucket_list (E : Env) (ctx : Attic_Context) (new_data : List Entry)
    (ipre : List (Nat × Way_Skeleton)) (q : Nat × Way_Skeleton)
    (irest : List (Nat × Way_Skeleton)) (u : Attic_Update) (t : Nat)
    (hhead : ∀ e, new_data.head? = some e → e.elem.id ≠ 0)
    (hbatch : ∀ e ∈ new_data, e.elem.id ≠ q.2.id)
    (hipre : ∀ q2 ∈ ipre, q2.2.id ≠ q.2.id)
    (hirest : ∀ q2 ∈ irest, q2.2.id ≠ q.2.id)
    (hA : q.1 ≠ 0)
    (hprior : List.lookup q.2.id ctx.existing_attic_skeleton_timestamps = none)
    (ht0 : 0 < t) (ht : t < NOW)
    (hsnap : ∃ nd ∈ q.2.nds, ∃ v ∈ (List.lookup nd ctx.nodes_by_id).getD [], v.timestamp = t)
    (honly : ∀ nd ∈ q.2.nds, ∀ v ∈ (List.lookup nd ctx.nodes_by_id).getD [],
      v.timestamp = t ∨ v.timestamp = NOW) :
    ∃ u', compute_new_attic_skeletons E ctx new_data (ipre ++ q :: irest) u = some u'
      ∧ ∀ b, ((q.2.id, b) ∈ u'.stores.idx_lists
          ↔ (q.2.id, b) ∈ u.stores.idx_lists ∨ b = q.1) := by
  have hsnap2 : snapshot_in_window q.2.nds 0 NOW ctx.nodes_by_id t := by
    obtain ⟨nd, hnd, v, hv, h⟩ := hsnap
    exact ⟨nd, hnd, v, hv, h, ht0, by omega⟩
  have honly2 : ∀ x, snapshot_in_window q.2.nds 0 NOW ctx.nodes_by_id x → x = t ∨ x = NOW := by
    rintro x ⟨nd, hnd, v, hv, h, _, _⟩
    rw [← h]
    exact honly nd hnd v hv
  obtain ⟨u1, hloop, hP1⟩ := attic_batch_loop_invariant E ctx
    (fun v => ∀ b, ((q.2.id, b) ∈ v.stores.idx_lists ↔ (q.2.id, b) ∈ u.stores.idx_lists))
    new_data none 0 u
    (fun _ e he h => hhead e he h.symm) (fun _ => Iff.rfl)
    (fun e he prev1 next last v r hv h b =>
      (attic_entry_step_idx_lists_other E ctx prev1 e next last v r h (q.2.id, b)
        (fun hc => hbatch e he hc.symm)).trans (hv b))
  refine ⟨_, by unfold compute_new_attic_skeletons; rw [hloop], ?_⟩
  apply implicit_fold_focus E ctx
    (fun v => ∀ b, ((q.2.id, b) ∈ v.stores.idx_lists ↔ (q.2.id, b) ∈ u.stores.idx_lists))
    (fun v => ∀ b, ((q.2.id, b) ∈ v.stores.idx_lists
      ↔ (q.2.id, b) ∈ u.stores.idx_lists ∨ b = q.1)) ipre q irest u1 hP1
  · intro q2 hq2 v hv b
    exact (implicit_step_idx_lists_other E ctx v q2 (q.2.id, b)
      (fun hc => hipre q2 hq2 hc.symm)).trans (hv b)
  · intro v hv b
    rw [implicit_step_single E ctx v q t hA hprior ht hsnap2 honly2]
    unfold store_version
    simp only
    rw [mem_map_set_insert_iff same_idx same_idx_iff, hv b]
    simp
  · intro q2 hq2 v hv b
    exact (implicit_step_idx_lists_other E ctx v q2 (q.2.id, b)
      (fun hc => hirest q2 hq2 hc.symm)).trans (hv b)

/-- Witness for claim C21 (amended): way 3 of `demo_context_moved` next to a batch with a
version of way 1. -/
theorem implicit_move_bucket_list_witness :
    (∀ e, [Entry.mk 7 (Way_Skeleton.mk 1 [11] []) (Meta.mk 200)].head? = some e →
        e.elem.id ≠ 0)
    ∧ (∀ e ∈ [Entry.mk 7 (Way_Skeleton.mk 1 [11] []) (Meta.mk 200)], e.elem.id ≠ 3)
    ∧ ((5 : Nat) ≠ 0)
    ∧ List.lookup 3 demo_context_moved.existing_attic_skeleton_timestamps = none
    ∧ 0 < 300 ∧ 300 < NOW
    ∧ (∃ nd ∈ [10], ∃ v ∈ (List.lookup nd demo_context_moved.nodes_by_id).getD [],
        v.timestamp = 300)
    ∧ (∀ nd ∈ [10], ∀ v ∈ (List.lookup nd demo_context_moved.nodes_by_id).getD [],
        v.timestamp = 300 ∨ v.timestamp = NOW)
    ∧ ∃ u', compute_new_attic_skeletons demo_env demo_context_moved
          [Entry.mk 7 (Way_Skeleton.mk 1 [11] []) (Meta.mk 200)]
          ([] ++ (5, Way_Skeleton.mk 3 [10] []) :: []) Attic_Update.empty = some u'
        ∧ ∀ b, ((3, b) ∈ u'.stores.idx_lists
            ↔ (3, b) ∈ Attic_Update.empty.stores.idx_lists ∨ b = 5) :=
  ⟨fun e h => by
     simp only [List.head?_cons, Option.some.injEq] at h
     rw [← h]
     decide,
   by decide, by decide, by decide, by decide, by decide, by decide, by decide,
   implicit_move_bucket_list demo_env demo_context_moved
     [Entry.mk 7 (Way_Skeleton.mk 1 [11] []) (Meta.mk 200)] []
     (5, Way_Skeleton.mk 3 [10] []) [] Attic_Update.empty 300
     (fun e h => by
       simp only [List.head?_cons, Option.some.injEq] at h
       rw [← h]
       decide)
     (by decide) (by simp) (by simp) (by decide) (by decide) (by decide) (by decide)
     (by decide) (by decide)⟩

/-! ## Windows with snapshots stamped `NOW` only, or with one more snapshot -/

theorem all_steps_only_now (E : Env) (sk ref : Way_Skeleton) (old new : Nat)
    (nb : Nodes_By_Id) (alv : Bool) (a : Nat) (hnew : new ≤ NOW)
    (honly : ∀ x, snapshot_in_window sk.nds old new nb x → x = NOW) :
    all_steps E sk ref old new nb alv a
      = if alv = true ∧ old < new then
          [Walk_Step.mk new (anchor E sk old new nb a).1 (anchor E sk old new nb a).2
            (reference_state E ref new nb).1 (reference_state E ref new nb).2]
        else [] := by
  have hpop : pop_back_if (relevant_timestamps sk.nds old new nb) NOW = [] := by
    apply List.eq_nil_iff_forall_not_mem.mpr
    intro x hx
    rw [mem_pop_now sk.nds old new nb hnew] at hx
    exact hx.2 (honly x hx.1)
  have hdue : upper_endpoint_due sk.nds old new nb alv ↔ (alv = true ∧ old < new) := by
    rw [upper_endpoint_due_iff, hpop]
    simp
  have hwalk : walk_timestamps sk.nds old new nb alv = [] := by
    unfold walk_timestamps
    rw [hpop]
    simp [pop_back_if]
  unfold all_steps
  rw [hwalk]
  by_cases h : alv = true ∧ old < new
  · rw [if_pos (hdue.mpr h), if_pos h]
    rfl
  · rw [if_neg (fun hc => h (hdue.mp hc)), if_neg h]
    rfl

theorem all_steps_one_snapshot (E : Env) (sk ref : Way_Skeleton) (old new : Nat)
    (nb : Nodes_By_Id) (alv : Bool) (a t : Nat) (ha : a ≠ 0) (hnew : new ≤ NOW)
    (ht : t < new) (hsnap : snapshot_in_window sk.nds old new nb t)
    (honly : ∀ x, snapshot_in_window sk.nds old new nb x → x = t ∨ x = NOW) :
    all_steps E sk ref old new nb alv a
      = (if alv = true ∧ old < new then
          [Walk_Step.mk new (compute_idx_and_geometry E sk new nb).1
            (compute_idx_and_geometry E sk new nb).2
            (reference_state E ref new nb).1 (reference_state E ref new nb).2]
        else [])
        ++ [Walk_Step.mk t a sk (compute_idx_and_geometry E sk new nb).1
            (compute_idx_and_geometry E sk new nb).2] := by
  have hpop : pop_back_if (relevant_timestamps sk.nds old new nb) NOW = [t] := by
    apply sorted_eq_singleton _ _ (pop_now_strict sk.nds old new nb)
    intro x
    rw [mem_pop_now sk.nds old new nb hnew]
    constructor
    · rintro ⟨h1, h2⟩
      rcases honly x h1 with h | h
      · exact h
      · exact absurd h h2
    · intro h
      rw [h]
      exact ⟨hsnap, by omega⟩
  have hdue : upper_endpoint_due sk.nds old new nb alv ↔ (alv = true ∧ old < new) := by
    rw [upper_endpoint_due_iff, hpop]
    simp only [List.mem_singleton]
    constructor
    · rintro (h | h)
      · exact h
      · omega
    · exact Or.inl
  have hwalk : walk_timestamps sk.nds old new nb alv = [t] := by
    unfold walk_timestamps
    rw [hpop]
    have hp : pop_back_if [t] new = [t] := by
      unfold pop_back_if
      rw [if_neg]
      simp only [List.getLast?_singleton, Option.some.injEq]
      omega
    rw [hp, ite_self]
  have hrel : relevant_timestamps sk.nds old new nb ≠ [] := by
    intro h
    have := (mem_relevant_timestamps sk.nds old new nb t).mpr hsnap
    rw [h] at this
    simp at this
  have hanchor : anchor E sk old new nb a = compute_idx_and_geometry E sk new nb := by
    unfold anchor
    rw [if_pos (Or.inr hrel)]
  unfold all_steps
  rw [hwalk, hanchor]
  by_cases h : alv = true ∧ old < new
  · rw [if_pos (hdue.mpr h), if_pos h]
    simp [walk_steps, ha]
  · rw [if_neg (fun hc => h (hdue.mp hc)), if_neg h]
    simp [walk_steps, ha]

theorem attic_entry_step_first (E : Env) (ctx : Attic_Context) (prev : Option Entry)
    (it : Entry) (next : Option Entry) (last_id : Nat) (u : Attic_Update)
    (hl : last_id ≠ it.elem.id) :
    attic_entry_step E ctx prev it next last_id u
      = some (it.elem.id, entry_existing E ctx it u
          (if (binary_pair_search ctx.existing_map_positions it.elem.id).isNone
              ∧ (binary_pair_search ctx.attic_map_positions it.elem.id).isSome then
            undelete_created E ctx it (entry_windows E ctx it next u.stores).1
              (entry_windows E ctx it next u.stores).2
          else (entry_windows E ctx it next u.stores).2)) := by
  unfold attic_entry_step
  simp only
  rw [if_neg hl]

theorem entry_existing_no_prior (E : Env) (ctx : Attic_Context) (it : Entry)
    (u : Attic_Update) (st : Attic_Stores) (A : Nat) (sk : Way_Skeleton)
    (hcur : binary_pair_search ctx.existing_map_positions it.elem.id = some A)
    (hsk : find_attic_skeleton ctx.attic_skeletons A it.elem.id = some sk)
    (hprior : List.lookup it.elem.id ctx.existing_attic_skeleton_timestamps = none) :
    (entry_existing E ctx it u st).stores
      = (add_intermediate_versions E sk it.elem 0 it.meta.timestamp ctx.nodes_by_id
          (decide (it.idx = 0) || !geometrically_equal sk it.elem) A st).2.2 := by
  unfold entry_existing
  rw [hcur]
  simp only
  rw [hsk]
  simp only
  rw [hprior]

theorem entry_windows_only_now (E : Env) (ctx : Attic_Context) (it : Entry)
    (next : Option Entry) (st : Attic_Stores)
    (hnext : ∀ nx, next = some nx → nx.elem.id ≠ it.elem.id)
    (honly : ∀ nd ∈ it.elem.nds, ∀ v ∈ (List.lookup nd ctx.nodes_by_id).getD [],
      v.timestamp ≤ it.meta.timestamp ∨ v.timestamp = NOW) :
    (entry_windows E ctx it next st).2 = st := by
  have hcall : (add_intermediate_versions E it.elem Way_Skeleton.empty it.meta.timestamp NOW
      ctx.nodes_by_id false 0 st).2.2 = st := by
    rw [add_intermediate_versions_stores,
      all_steps_only_now E _ _ _ _ _ _ _ (Nat.le_refl _)]
    · simp
    · rintro x ⟨nd, hnd, v, hv, h1, h2, _⟩
      rcases honly nd hnd v hv with h | h
      · omega
      · rw [← h1]
        exact h
  unfold entry_windows
  cases next with
  | none => exact hcall
  | some nx =>
    simp only
    rw [if_neg (fun h => hnext nx rfl h.symm)]
    exact hcall

/-! ## Claim C22: scenario S1, an edit that keeps the bucket -/

theorem timestamp_succ_mod (t : Nat) (ht : t < NOW) : (t + 1) % UINT64_MOD = t + 1 := by
  apply Nat.mod_eq_of_lt
  unfold NOW at ht
  unfold UINT64_MOD
  omega

/-- Claim C22, counterexample. Scenario S1 with bucket 5 for A: the only attic delta written for
way 1 is stamped 200, not 100, and it encodes the old version against the new version (node 12
is removed), not against the empty skeleton. -/
theorem edit_in_place_counterexample :
    (compute_new_attic_skeletons demo_env_relative demo_context_s1 [demo_batch_s1] []
        Attic_Update.empty).map (fun u => u.stores.full_attic)
      = some [(5, Attic.mk (Way_Delta.mk 1 false [12] [] [] []) 200)]
    ∧ demo_env_relative.way_delta Way_Skeleton.empty (Way_Skeleton.mk 1 [10, 11] [])
      = Way_Delta.mk 1 true [] [(0, 10), (0, 11)] [] [] := by
  decide

/-- Claim C22, amended. Scenario S1 in general form: the way is current in bucket `A`, which is
not 0, with the skeleton `sk` and without attic version; the batch holds the single version `it`
of the way with another node list and a timestamp `t` with `0 < t < NOW`; no node of the old or
the new version has a snapshot below `NOW`; the bucket of the new version computed at `t + 1` is
`A`. Then `compute_new_attic_skeletons`, started with empty stores, writes exactly one attic
delta: it is stored under `A`, stamped `t`, and encodes `sk` against the new version with the
geometry computed at `t + 1`. -/
theorem edit_in_place_record (E : Env) (ctx : Attic_Context) (it : Entry) (A : Nat)
    (sk : Way_Skeleton) (hid0 : it.elem.id ≠ 0)
    (hcur : binary_pair_search ctx.existing_map_positions it.elem.id = some A)
    (hsk : find_attic_skeleton ctx.attic_skeletons A it.elem.id = some sk)
    (hprior : List.lookup it.elem.id ctx.existing_attic_skeleton_timestamps = none)
    (hA0 : A ≠ 0) (hnds : sk.nds ≠ it.elem.nds)
    (ht0 : 0 < it.meta.timestamp) (ht : it.meta.timestamp < NOW)
    (hold : ∀ nd ∈ sk.nds, ∀ v ∈ (List.lookup nd ctx.nodes_by_id).getD [], v.timestamp = NOW)
    (hnew : ∀ nd ∈ it.elem.nds, ∀ v ∈ (List.lookup nd ctx.nodes_by_id).getD [],
      v.timestamp = NOW)
    (hsame : (compute_idx_and_geometry E it.elem (it.meta.timestamp + 1) ctx.nodes_by_id).1
      = A) :
    (compute_new_attic_skeletons E ctx [it] [] Attic_Update.empty).map
        (fun u => u.stores.full_attic)
      = some [(A, Attic.mk
          (E.way_delta
            (compute_idx_and_geometry E it.elem (it.meta.timestamp + 1) ctx.nodes_by_id).2 sk)
          it.meta.timestamp)] := by
  have halv : (decide (it.idx = 0) || !geometrically_equal sk it.elem) = true := by
    simp [geometrically_equal, hnds]
  have hwin : ∀ x, ¬ snapshot_in_window sk.nds 0 it.meta.timestamp ctx.nodes_by_id x := by
    rintro x ⟨nd, hnd, v, hv, h1, _, h3⟩
    have := hold nd hnd v hv
    omega
  have hwindows : (entry_windows E ctx it ([] : List Entry).head? Attic_Update.empty.stores).2
      = Attic_Update.empty.stores :=
    entry_windows_only_now E ctx it _ _ (fun nx h => by simp at h)
      (fun nd hnd v hv => Or.inr (hnew nd hnd v hv))
  unfold compute_new_attic_skeletons
  simp only [attic_batch_loop]
  rw [attic_entry_step_first E ctx none it _ 0 _ (Ne.symm hid0)]
  simp only [attic_batch_loop, List.foldl_nil, Option.map_some', Option.some.injEq]
  rw [entry_existing_no_prior E ctx it _ _ A sk hcur hsk hprior, halv]
  simp only [hcur, Option.isNone_some, Bool.false_eq_true, false_and, if_false]
  rw [hwindows, add_intermediate_versions_deletion E sk it.elem 0 it.meta.timestamp
    ctx.nodes_by_id A _ hA0 ht0 hwin]
  unfold store_version reference_state
  rw [timestamp_succ_mod _ ht]
  simp [hsame, Attic_Update.empty, Attic_Stores.empty, map_set_insert]

/-- Witness for claim C22 (amended): scenario S1 with bucket 5 for A. -/
theorem edit_in_place_record_witness :
    demo_batch_s1.elem.id ≠ 0
    ∧ binary_pair_search demo_context_s1.existing_map_positions demo_batch_s1.elem.id = some 5
    ∧ find_attic_skeleton demo_context_s1.attic_skeletons 5 demo_batch_s1.elem.id
        = some (Way_Skeleton.mk 1 [10, 11] [])
    ∧ List.lookup demo_batch_s1.elem.id demo_context_s1.existing_attic_skeleton_timestamps
        = none
    ∧ (Way_Skeleton.mk 1 [10, 11] []).nds ≠ demo_batch_s1.elem.nds
    ∧ 0 < demo_batch_s1.meta.timestamp ∧ demo_batch_s1.meta.timestamp < NOW
    ∧ (∀ nd ∈ (Way_Skeleton.mk 1 [10, 11] []).nds,
        ∀ v ∈ (List.lookup nd demo_context_s1.nodes_by_id).getD [], v.timestamp = NOW)
    ∧ (∀ nd ∈ demo_batch_s1.elem.nds,
        ∀ v ∈ (List.lookup nd demo_context_s1.nodes_by_id).getD [], v.timestamp = NOW)
    ∧ (compute_idx_and_geometry demo_env_relative demo_batch_s1.elem
        (demo_batch_s1.meta.timestamp + 1) demo_context_s1.nodes_by_id).1 = 5
    ∧ (compute_new_attic_skeletons demo_env_relative demo_context_s1 [demo_batch_s1] []
        Attic_Update.empty).map (fun u => u.stores.full_attic)
      = some [(5, Attic.mk
          (demo_env_relative.way_delta
            (compute_idx_and_geometry demo_env_relative demo_batch_s1.elem
              (demo_batch_s1.meta.timestamp + 1) demo_context_s1.nodes_by_id).2
            (Way_Skeleton.mk 1 [10, 11] []))
          demo_batch_s1.meta.timestamp)] :=
  ⟨by decide, by decide, by decide, by decide, by decide, by decide, by decide, by decide,
   by decide, by decide,
   edit_in_place_record demo_env_relative demo_context_s1 demo_batch_s1 5
     (Way_Skeleton.mk 1 [10, 11] []) (by decide) (by decide) (by decide) (by decide)
     (by decide) (by decide) (by decide) (by decide) (by decide) (by decide) (by decide)⟩

/-! ## Claim C23: scenario S2, an edit after a node move -/

/-- Claim C23, counterexample. Scenario S2 with bucket 5 for A and bucket 9 for B: the only
undelete entry written for way 2 is (9, 2, 150); the entry (5, 2, 200) is not written. -/
theorem edit_after_move_counterexample :
    (compute_new_attic_skeletons demo_env demo_context_s2 [demo_batch_s2] []
        Attic_Update.empty).map (fun u => u.stores.new_undeleted)
      = some [(9, Attic.mk 2 150)] := by
  decide

/-- Claim C23, amended. Scenario S2 in general form: the way is current in bucket `A`, which is
not 0, with the skeleton `sk` and without attic version; a node of `sk` has a snapshot stamped
`t1`, and every other snapshot of the nodes of the old and the new version is stamped `NOW`; the
batch holds the single version `it` of the way with another node list and a timestamp `t` with
`0 < t1 < t < NOW`; the bucket `B` of `sk` computed at `t` differs from `A` and from 0xfe, and the
bucket of the new version computed at `t + 1` is `B`. Then the undelete entries that
`compute_new_attic_skeletons`, started with empty stores, writes are exactly the entry of the way
and `t1` under `B`. -/
theorem edit_after_move_undelete (E : Env) (ctx : Attic_Context) (it : Entry) (A : Nat)
    (sk : Way_Skeleton) (t1 : Nat) (hid0 : it.elem.id ≠ 0)
    (hcur : binary_pair_search ctx.existing_map_positions it.elem.id = some A)
    (hsk : find_attic_skeleton ctx.attic_skeletons A it.elem.id = some sk)
    (hprior : List.lookup it.elem.id ctx.existing_attic_skeleton_timestamps = none)
    (hA0 : A ≠ 0) (hnds : sk.nds ≠ it.elem.nds)
    (ht0 : 0 < t1) (ht1 : t1 < it.meta.timestamp) (ht : it.meta.timestamp < NOW)
    (hsnap : ∃ nd ∈ sk.nds, ∃ v ∈ (List.lookup nd ctx.nodes_by_id).getD [], v.timestamp = t1)
    (hold : ∀ nd ∈ sk.nds, ∀ v ∈ (List.lookup nd ctx.nodes_by_id).getD [],
      v.timestamp = t1 ∨ v.timestamp = NOW)
    (hnew : ∀ nd ∈ it.elem.nds, ∀ v ∈ (List.lookup nd ctx.nodes_by_id).getD [],
      v.timestamp = t1 ∨ v.timestamp = NOW)
    (hBA : (compute_idx_and_geometry E sk it.meta.timestamp ctx.nodes_by_id).1 ≠ A)
    (hBe : (compute_idx_and_geometry E sk it.meta.timestamp ctx.nodes_by_id).1 ≠ 0xfe)
    (hland : (compute_idx_and_geometry E it.elem (it.meta.timestamp + 1) ctx.nodes_by_id).1
      = (compute_idx_and_geometry E sk it.meta.timestamp ctx.nodes_by_id).1) :
    (compute_new_attic_skeletons E ctx [it] [] Attic_Update.empty).map
        (fun u => u.stores.new_undeleted)
      = some [((compute_idx_and_geometry E sk it.meta.timestamp ctx.nodes_by_id).1,
          Attic.mk it.elem.id t1)] := by
  have hskid : sk.id = it.elem.id := find_attic_skeleton_id _ _ _ _ hsk
  have halv : (decide (it.idx = 0) || !geometrically_equal sk it.elem) = true := by
    simp [geometrically_equal, hnds]
  have hsnap2 : snapshot_in_window sk.nds 0 it.meta.timestamp ctx.nodes_by_id t1 := by
    obtain ⟨nd, hnd, v, hv, h⟩ := hsnap
    exact ⟨nd, hnd, v, hv, h, ht0, by omega⟩
  have honly2 : ∀ x, snapshot_in_window sk.nds 0 it.meta.timestamp ctx.nodes_by_id x →
      x = t1 ∨ x = NOW := by
    rintro x ⟨nd, hnd, v, hv, h, _, _⟩
    rw [← h]
    exact hold nd hnd v hv
  have hwindows : (entry_windows E ctx it ([] : List Entry).head? Attic_Update.empty.stores).2
      = Attic_Update.empty.stores :=
    entry_windows_only_now E ctx it _ _ (fun nx h => by simp at h)
      (fun nd hnd v hv => (hnew nd hnd v hv).imp (fun h => by omega) id)
  unfold compute_new_attic_skeletons
  simp only [attic_batch_loop]
  rw [attic_entry_step_first E ctx none it _ 0 _ (Ne.symm hid0)]
  simp only [attic_batch_loop, List.foldl_nil, Option.map_some', Option.some.injEq]
  rw [entry_existing_no_prior E ctx it _ _ A sk hcur hsk hprior, halv]
  simp only [hcur, Option.isNone_some, Bool.false_eq_true, false_and, if_false]
  rw [hwindows, add_intermediate_versions_stores,
    all_steps_one_snapshot E sk it.elem 0 it.meta.timestamp ctx.nodes_by_id true A t1 hA0
      (by omega) ht1 hsnap2 honly2]
  have hpos : 0 < it.meta.timestamp := by omega
  unfold reference_state
  rw [timestamp_succ_mod _ ht, hland, hskid]
  simp [hpos, apply_step, store_version, Ne.symm hBA, hBe, Attic_Update.empty,
    Attic_Stores.empty, map_set_insert]

/-- Witness for claim C23 (amended): scenario S2 with bucket 5 for A and bucket 9 for B. -/
theorem edit_after_move_undelete_witness :
    demo_batch_s2.elem.id ≠ 0
    ∧ binary_pair_search demo_context_s2.existing_map_positions demo_batch_s2.elem.id = some 5
    ∧ find_attic_skeleton demo_context_s2.attic_skeletons 5 demo_batch_s2.elem.id
        = some (Way_Skeleton.mk 2 [20, 21] [])
    ∧ List.lookup demo_batch_s2.elem.id demo_context_s2.existing_attic_skeleton_timestamps
        = none
    ∧ (Way_Skeleton.mk 2 [20, 21] []).nds ≠ demo_batch_s2.elem.nds
    ∧ 0 < 150 ∧ 150 < demo_batch_s2.meta.timestamp ∧ demo_batch_s2.meta.timestamp < NOW
    ∧ (∃ nd ∈ (Way_Skeleton.mk 2 [20, 21] []).nds,
        ∃ v ∈ (List.lookup nd demo_context_s2.nodes_by_id).getD [], v.timestamp = 150)
    ∧ (∀ nd ∈ (Way_Skeleton.mk 2 [20, 21] []).nds,
        ∀ v ∈ (List.lookup nd demo_context_s2.nodes_by_id).getD [],
          v.timestamp = 150 ∨ v.timestamp = NOW)
    ∧ (∀ nd ∈ demo_batch_s2.elem.nds,
        ∀ v ∈ (List.lookup nd demo_context_s2.nodes_by_id).getD [],
          v.timestamp = 150 ∨ v.timestamp = NOW)
    ∧ (compute_idx_and_geometry demo_env (Way_Skeleton.mk 2 [20, 21] [])
        demo_batch_s2.meta.timestamp demo_context_s2.nodes_by_id).1 = 9
    ∧ (compute_idx_and_geometry demo_env demo_batch_s2.elem
        (demo_batch_s2.meta.timestamp + 1) demo_context_s2.nodes_by_id).1 = 9
    ∧ (compute_new_attic_skeletons demo_env demo_context_s2 [demo_batch_s2] []
        Attic_Update.empty).map (fun u => u.stores.new_undeleted)
      = some [((compute_idx_and_geometry demo_env (Way_Skeleton.mk 2 [20, 21] [])
            demo_batch_s2.meta.timestamp demo_context_s2.nodes_by_id).1,
          Attic.mk demo_batch_s2.elem.id 150)] :=
  ⟨by decide, by decide, by decide, by decide, by decide, by decide, by decide, by decide,
   by decide, by decide, by decide, by decide, by decide,
   edit_after_move_undelete demo_env demo_context_s2 demo_batch_s2 5
     (Way_Skeleton.mk 2 [20, 21] []) 150 (by decide) (by decide) (by decide) (by decide)
     (by decide) (by decide) (by decide) (by decide) (by decide) (by decide) (by decide)
     (by decide) (by decide) (by decide) (by decide)⟩

/-! ## Claim C24: scenario S5, a way created and deleted in one batch -/

theorem attic_entry_step_later (E : Env) (ctx : Attic_Context) (last_it it : Entry)
    (next : Option Entry) (last_id : Nat) (u : Attic_Update) (hl : last_id = it.elem.id)
    (hidx : last_it.idx ≠ 0) :
    attic_entry_step E ctx (some last_it) it next last_id u
      = some (last_id, Attic_Update.mk (entry_windows E ctx it next u.stores).2
          u.attic_skeletons_to_delete u.log) := by
  unfold attic_entry_step
  simp only
  rw [if_pos hl, if_neg hidx]

theorem entry_existing_no_current (E : Env) (ctx : Attic_Context) (it : Entry)
    (u : Attic_Update) (st : Attic_Stores)
    (hcur : binary_pair_search ctx.existing_map_positions it.elem.id = none) :
    entry_existing E ctx it u st = Attic_Update.mk st u.attic_skeletons_to_delete u.log := by
  unfold entry_existing
  rw [hcur]

theorem undelete_created_full_attic (E : Env) (ctx : Attic_Context) (it : Entry) (i : Nat)
    (st : Attic_Stores) (c : Prop) [Decidable c] :
    (if c then undelete_created E ctx it i st else st).full_attic = st.full_attic := by
  split <;> rfl

/-- Claim C24, counterexample. Scenario S5 with bucket 5 for A: the only attic delta written for
way 5 is stamped 600; no delta stamped 500 is written. -/
theorem create_then_delete_counterexample :
    (compute_new_attic_skeletons demo_env demo_context_s5 [demo_created_s5, demo_deleted_s5] []
        Attic_Update.empty).map
        (fun u => u.stores.full_attic.map (fun p => (p.1, p.2.elem.id, p.2.timestamp)))
      = some [(5, 5, 600)] := by
  decide

/-- Claim C24, amended. Scenario S5 in general form: the way has no current position; the batch
holds the version `v1` with a bucket other than 0, followed by the deletion `v2` of the same way
(bucket 0, no nodes) with a greater timestamp below `NOW`; no node of `v1` has a snapshot below
`NOW`. Then `compute_new_attic_skeletons`, started with empty stores, writes exactly one attic
delta: it is stamped with the timestamp of `v2`, at which `v1` ceased to be current, and stored
under the bucket of `v1` computed at that timestamp; it encodes `v1` against the empty skeleton,
unless that bucket is the bucket of the empty node list. -/
theorem create_then_delete_record (E : Env) (ctx : Attic_Context) (v1 v2 : Entry)
    (hid : v2.elem.id = v1.elem.id) (hid0 : v1.elem.id ≠ 0)
    (hcur : binary_pair_search ctx.existing_map_positions v1.elem.id = none)
    (hidx1 : v1.idx ≠ 0) (hidx2 : v2.idx = 0) (hnds2 : v2.elem.nds = [])
    (hlt : v1.meta.timestamp < v2.meta.timestamp) (ht : v2.meta.timestamp < NOW)
    (hsnap : ∀ nd ∈ v1.elem.nds, ∀ v ∈ (List.lookup nd ctx.nodes_by_id).getD [],
      v.timestamp = NOW) :
    (compute_new_attic_skeletons E ctx [v1, v2] [] Attic_Update.empty).map
        (fun u => u.stores.full_attic)
      = some [((compute_idx_and_geometry E v1.elem v2.meta.timestamp ctx.nodes_by_id).1,
          Attic.mk
            (if (compute_idx_and_geometry E v1.elem v2.meta.timestamp ctx.nodes_by_id).1
                = (compute_idx_and_geometry E v2.elem (v2.meta.timestamp + 1)
                    ctx.nodes_by_id).1 then
              E.way_delta
                (compute_idx_and_geometry E v2.elem (v2.meta.timestamp + 1) ctx.nodes_by_id).2
                (compute_idx_and_geometry E v1.elem v2.meta.timestamp ctx.nodes_by_id).2
            else E.way_delta Way_Skeleton.empty
              (compute_idx_and_geometry E v1.elem v2.meta.timestamp ctx.nodes_by_id).2)
            v2.meta.timestamp)] := by
  have halv : (decide (v2.idx = 0) || !geometrically_equal v1.elem v2.elem) = true := by
    simp [hidx2]
  have honly : ∀ x, snapshot_in_window v1.elem.nds v1.meta.timestamp v2.meta.timestamp
      ctx.nodes_by_id x → x = NOW := by
    rintro x ⟨nd, hnd, v, hv, h, _, _⟩
    rw [← h]
    exact hsnap nd hnd v hv
  have hanchor : anchor E v1.elem v1.meta.timestamp v2.meta.timestamp ctx.nodes_by_id 0
      = compute_idx_and_geometry E v1.elem v2.meta.timestamp ctx.nodes_by_id := by
    unfold anchor
    rw [if_pos (Or.inl rfl)]
  have hwin1 : (entry_windows E ctx v1 (some v2) Attic_Update.empty.stores).2.full_attic
      = [((compute_idx_and_geometry E v1.elem v2.meta.timestamp ctx.nodes_by_id).1,
          Attic.mk
            (if (compute_idx_and_geometry E v1.elem v2.meta.timestamp ctx.nodes_by_id).1
                = (compute_idx_and_geometry E v2.elem (v2.meta.timestamp + 1)
                    ctx.nodes_by_id).1 then
              E.way_delta
                (compute_idx_and_geometry E v2.elem (v2.meta.timestamp + 1) ctx.nodes_by_id).2
                (compute_idx_and_geometry E v1.elem v2.meta.timestamp ctx.nodes_by_id).2
            else E.way_delta Way_Skeleton.empty
              (compute_idx_and_geometry E v1.elem v2.meta.timestamp ctx.nodes_by_id).2)
            v2.meta.timestamp)] := by
    unfold entry_windows
    simp only
    rw [if_pos hid.symm, if_pos hidx1, halv, add_intermediate_versions_stores,
      all_steps_only_now E _ _ _ _ _ _ _ (by omega) honly, if_pos ⟨rfl, hlt⟩, hanchor]
    unfold reference_state
    rw [timestamp_succ_mod _ ht]
    simp only [List.foldl_cons, List.foldl_nil, apply_step, store_version, Attic_Update.empty,
      Attic_Stores.empty]
    split <;> simp [map_set_insert]
  unfold compute_new_attic_skeletons
  rw [attic_batch_loop, attic_entry_step_first E ctx none v1 _ 0 _ (Ne.symm hid0)]
  simp only [List.head?_cons]
  rw [attic_batch_loop, attic_entry_step_later E ctx v1 v2 _ _ _ hid.symm hidx1]
  simp only [attic_batch_loop, List.foldl_nil, Option.map_some', Option.some.injEq]
  rw [entry_windows_no_nodes E ctx v2 _ _ hnds2 (fun nx h => by simp at h),
    entry_existing_no_current E ctx v1 _ _ hcur]
  simp only
  rw [undelete_created_full_attic, hwin1]

/-- Witness for claim C24 (amended): scenario S5 with bucket 5 for A. -/
theorem create_then_delete_record_witness :
    demo_deleted_s5.elem.id = demo_created_s5.elem.id
    ∧ demo_created_s5.elem.id ≠ 0
    ∧ binary_pair_search demo_context_s5.existing_map_positions demo_created_s5.elem.id = none
    ∧ demo_created_s5.idx ≠ 0 ∧ demo_deleted_s5.idx = 0 ∧ demo_deleted_s5.elem.nds = []
    ∧ demo_created_s5.meta.timestamp < demo_deleted_s5.meta.timestamp
    ∧ demo_deleted_s5.meta.timestamp < NOW
    ∧ (∀ nd ∈ demo_created_s5.elem.nds,
        ∀ v ∈ (List.lookup nd demo_context_s5.nodes_by_id).getD [], v.timestamp = NOW)
    ∧ (compute_idx_and_geometry demo_env demo_created_s5.elem demo_deleted_s5.meta.timestamp
        demo_context_s5.nodes_by_id).1 = 5
    ∧ (compute_new_attic_skeletons demo_env demo_context_s5 [demo_created_s5, demo_deleted_s5]
        [] Attic_Update.empty).map (fun u => u.stores.full_attic)
      = some [((compute_idx_and_geometry demo_env demo_created_s5.elem
            demo_deleted_s5.meta.timestamp demo_context_s5.nodes_by_id).1,
          Attic.mk
            (if (compute_idx_and_geometry demo_env demo_created_s5.elem
                  demo_deleted_s5.meta.timestamp demo_context_s5.nodes_by_id).1
                = (compute_idx_and_geometry demo_env demo_deleted_s5.elem
                    (demo_deleted_s5.meta.timestamp + 1) demo_context_s5.nodes_by_id).1 then
              demo_env.way_delta
                (compute_idx_and_geometry demo_env demo_deleted_s5.elem
                  (demo_deleted_s5.meta.timestamp + 1) demo_context_s5.nodes_by_id).2
                (compute_idx_and_geometry demo_env demo_created_s5.elem
                  demo_deleted_s5.meta.timestamp demo_context_s5.nodes_by_id).2
            else demo_env.way_delta Way_Skeleton.empty
              (compute_idx_and_geometry demo_env demo_created_s5.elem
                demo_deleted_s5.meta.timestamp demo_context_s5.nodes_by_id).2)
            demo_deleted_s5.meta.timestamp)] :=
  ⟨by decide, by decide, by decide, by decide, by decide, by decide, by decide, by decide,
   by decide, by decide,
   create_then_delete_record demo_env demo_context_s5 demo_created_s5 demo_deleted_s5
     (by decide) (by decide) (by decide) (by decide) (by decide) (by decide) (by decide)
     (by decide) (by decide)⟩

/-! ## Claims C25 and C26: the files of partial updates -/

theorem suffix_plus_level_zero (k : Nat) (hk : k < 16) :
    suffix_plus ".0a" k = String.push ".0" (Char.ofNat (97 + k)) := by
  unfold suffix_plus
  have h : (".0a" : String).data = ['.', '0', 'a'] := rfl
  have h2 : (".0" : String) = String.mk ['.', '0'] := rfl
  have h3 : ('a' : Char).toNat = 97 := rfl
  rw [h, h2]
  simp only [List.getD_cons_succ, List.getD_cons_zero, List.set, h3, String.push]
  rw [Nat.mod_eq_of_lt (by omega)]
  rfl

theorem suffix_plus_level_one (k : Nat) (hk : k < 16) :
    suffix_plus ".1a" k = String.push ".1" (Char.ofNat (97 + k)) := by
  unfold suffix_plus
  have h : (".1a" : String).data = ['.', '1', 'a'] := rfl
  have h2 : (".1" : String) = String.mk ['.', '1'] := rfl
  have h3 : ('a' : Char).toNat = 97 := rfl
  rw [h, h2]
  simp only [List.getD_cons_succ, List.getD_cons_zero, List.set, h3, String.push]
  rw [Nat.mod_eq_of_lt (by omega)]
  rfl

theorem update_files_commit (counter_mod : Nat) (has_meta : Bool) (s : Updater_State)
    (hpp : s.partial_possible = true) (hM : s.update_counter + 1 < counter_mod) :
    update_files counter_mod has_meta true s
      = ([File_Op.rename_referred_file Way_File.WAYS ""
            (suffix_plus ".0a" (s.update_counter % 16)),
          File_Op.rename_referred_file Way_File.WAY_TAGS_LOCAL ""
            (suffix_plus ".0a" (s.update_counter % 16)),
          File_Op.rename_referred_file Way_File.WAY_TAGS_GLOBAL ""
            (suffix_plus ".0a" (s.update_counter % 16))]
          ++ (if has_meta = true then
                [File_Op.rename_referred_file Way_File.WAYS_META ""
                  (suffix_plus ".0a" (s.update_counter % 16))]
              else [])
          ++ (if (s.update_counter + 1) % 16 = 0 then
                [File_Op.merge_files (froms_loop ".0a" 16)
                  (suffix_plus ".1a" (((s.update_counter + 1) / 16 - 1) % 16))]
              else [])
          ++ (if (s.update_counter + 1) % 256 = 0 then
                [File_Op.merge_files (froms_loop ".1a" 16) ".2"]
              else []),
         Updater_State.mk (s.update_counter + 1) s.partial_possible) := by
  have hmod : (s.update_counter + 1) % counter_mod = s.update_counter + 1 :=
    Nat.mod_eq_of_lt hM
  unfold update_files
  rw [if_neg (by simp), if_pos ⟨hpp, rfl⟩]
  simp only [hmod]
  by_cases h16 : (s.update_counter + 1) % 16 = 0
  · have hge : 1 ≤ (s.update_counter + 1) / 16 := by omega
    have hsub : ((s.update_counter + 1) / 16 + counter_mod - 1) % counter_mod
        = (s.update_counter + 1) / 16 - 1 := by
      have hlt : (s.update_counter + 1) / 16 - 1 < counter_mod := by omega
      have heq : (s.update_counter + 1) / 16 + counter_mod - 1
          = ((s.update_counter + 1) / 16 - 1) + counter_mod := by omega
      rw [heq, Nat.add_mod_right, Nat.mod_eq_of_lt hlt]
    rw [hsub]
  · simp only [if_neg h16]

/-- Claim C25, counterexample. With `update_counter = 0` the sink of a partial batch is ".0a",
a name of three characters, and with `update_counter = 15` it is ".0p" and the sinks ".0a" to
".0p" are merged into ".1a": the third character is advanced, no hexadecimal digit is
appended. -/
theorem sink_suffix_counterexample :
    (update_files (2 ^ 32) false true (Updater_State.mk 0 true)).1
      = [File_Op.rename_referred_file Way_File.WAYS "" ".0a",
         File_Op.rename_referred_file Way_File.WAY_TAGS_LOCAL "" ".0a",
         File_Op.rename_referred_file Way_File.WAY_TAGS_GLOBAL "" ".0a"]
    ∧ (update_files (2 ^ 32) false true (Updater_State.mk 15 true)).1
      = [File_Op.rename_referred_file Way_File.WAYS "" ".0p",
         File_Op.rename_referred_file Way_File.WAY_TAGS_LOCAL "" ".0p",
         File_Op.rename_referred_file Way_File.WAY_TAGS_GLOBAL "" ".0p",
         File_Op.merge_files
           [ ".0a", ".0b", ".0c", ".0d", ".0e", ".0f", ".0g", ".0h", ".0i", ".0j", ".0k", ".0l",
             ".0m", ".0n", ".0o", ".0p" ] ".1a"] := by
  decide

/-- Claim C25, amended. In a partial commit with `update_counter = n` that does not overflow the
counter, every file is renamed from the empty suffix to the suffix ".0" followed by the letter at
distance `n mod 16` from the letter a (".0a" to ".0p"), and every merge that the commit issues
goes into ".2" or into ".1" followed by the letter at distance `((n + 1) / 16 - 1) mod 16` from
the letter a (".1a" to ".1p"). -/
theorem sink_suffix_letter (counter_mod : Nat) (has_meta : Bool) (s : Updater_State)
    (hpp : s.partial_possible = true) (hM : s.update_counter + 1 < counter_mod) :
    (∀ f src tgt, File_Op.rename_referred_file f src tgt
        ∈ (update_files counter_mod has_meta true s).1 →
      src = "" ∧ tgt = String.push ".0" (Char.ofNat (97 + s.update_counter % 16)))
    ∧ File_Op.rename_referred_file Way_File.WAYS ""
        (String.push ".0" (Char.ofNat (97 + s.update_counter % 16)))
        ∈ (update_files counter_mod has_meta true s).1
    ∧ ∀ froms into, File_Op.merge_files froms into
        ∈ (update_files counter_mod has_meta true s).1 →
      into = ".2"
        ∨ into = String.push ".1" (Char.ofNat (97 + ((s.update_counter + 1) / 16 - 1) % 16)) := by
  rw [update_files_commit counter_mod has_meta s hpp hM,
    suffix_plus_level_zero _ (Nat.mod_lt _ (by decide)),
    suffix_plus_level_one _ (Nat.mod_lt _ (by decide))]
  refine ⟨?_, by simp, ?_⟩
  · intro f src tgt h
    simp only [List.mem_append, List.mem_cons, List.mem_singleton, List.not_mem_nil,
      File_Op.rename_referred_file.injEq, or_false] at h
    rcases h with ((h | h) | h) | h
    · rcases h with h | h | h
      · exact ⟨h.2.1, h.2.2⟩
      · exact ⟨h.2.1, h.2.2⟩
      · exact ⟨h.2.1, h.2.2⟩
    · split at h
      · simp only [List.mem_singleton, File_Op.rename_referred_file.injEq] at h
        exact ⟨h.2.1, h.2.2⟩
      · simp at h
    · split at h <;> simp at h
    · split at h <;> simp at h
  · intro froms into h
    simp only [List.mem_append, List.mem_cons, List.mem_singleton, List.not_mem_nil,
      or_false] at h
    rcases h with ((h | h) | h) | h
    · simp at h
    · split at h <;> simp at h
    · split at h
      · simp only [List.mem_singleton, File_Op.merge_files.injEq] at h
        exact Or.inr h.2
      · simp at h
    · split at h
      · simp only [List.mem_singleton, File_Op.merge_files.injEq] at h
        exact Or.inl h.2
      · simp at h

/-- Witness for claim C25 (amended): the partial commit with `update_counter = 15` of a counter
with 32 bits. -/
theorem sink_suffix_letter_witness :
    (Updater_State.mk 15 true).partial_possible = true
    ∧ (Updater_State.mk 15 true).update_counter + 1 < 2 ^ 32
    ∧ (∀ f src tgt, File_Op.rename_referred_file f src tgt
          ∈ (update_files (2 ^ 32) true true (Updater_State.mk 15 true)).1 →
        src = ""
          ∧ tgt = String.push ".0"
              (Char.ofNat (97 + (Updater_State.mk 15 true).update_counter % 16)))
    ∧ File_Op.rename_referred_file Way_File.WAYS ""
        (String.push ".0" (Char.ofNat (97 + (Updater_State.mk 15 true).update_counter % 16)))
        ∈ (update_files (2 ^ 32) true true (Updater_State.mk 15 true)).1
    ∧ ∀ froms into, File_Op.merge_files froms into
        ∈ (update_files (2 ^ 32) true true (Updater_State.mk 15 true)).1 →
      into = ".2"
        ∨ into = String.push ".1"
            (Char.ofNat (97 + (((Updater_State.mk 15 true).update_counter + 1) / 16 - 1) % 16)) :=
  ⟨rfl, by decide,
   sink_suffix_letter (2 ^ 32) true (Updater_State.mk 15 true) rfl (by decide)⟩

theorem froms_loop_length (base : String) (n : Nat) : (froms_loop base n).length = n := by
  simp [froms_loop]

theorem froms_loop_levels : froms_loop ".0a" 16 ≠ froms_loop ".1a" 16 := by
  decide

theorem update_files_flush (counter_mod : Nat) (has_meta : Bool) (s : Updater_State)
    (hpp : s.partial_possible = true) (hpos : 0 < s.update_counter) :
    update_files counter_mod has_meta false s
      = ([File_Op.merge_files (froms_loop ".0a" (s.update_counter % 16)) ""]
          ++ (if s.update_counter ≥ 256 then [File_Op.merge_files [ ".2" ] ".1"] else [])
          ++ (if s.update_counter ≥ 16 then
                [File_Op.merge_files (froms_loop ".1a" (s.update_counter / 16 % 16)) ".1",
                 File_Op.merge_files [ ".1" ] ""]
              else []),
         Updater_State.mk 0 s.partial_possible) := by
  unfold update_files
  rw [if_pos ⟨hpp, rfl, hpos⟩]

theorem froms_loop_level_zero (m : Nat) (hm : m ≤ 16) :
    froms_loop ".0a" m
      = (List.range m).map (fun i => String.push ".0" (Char.ofNat (97 + i))) := by
  unfold froms_loop
  apply List.map_congr_left
  intro i hi
  exact suffix_plus_level_zero i (by have := List.mem_range.mp hi; omega)

theorem froms_loop_level_one (m : Nat) (hm : m ≤ 16) :
    froms_loop ".1a" m
      = (List.range m).map (fun i => String.push ".1" (Char.ofNat (97 + i))) := by
  unfold froms_loop
  apply List.map_congr_left
  intro i hi
  exact suffix_plus_level_one i (by have := List.mem_range.mp hi; omega)

theorem mem_froms_loop (base : String) (k m : Nat) (h : k < m) :
    suffix_plus base k ∈ froms_loop base m :=
  List.mem_map.mpr ⟨k, List.mem_range.mpr h, rfl⟩

theorem update_files_commit_rename (counter_mod : Nat) (has_meta : Bool) (s : Updater_State)
    (hpp : s.partial_possible = true) (hM : s.update_counter + 1 < counter_mod)
    (f : Way_File) (src tgt : String)
    (h : File_Op.rename_referred_file f src tgt ∈ (update_files counter_mod has_meta true s).1) :
    src = "" ∧ tgt = suffix_plus ".0a" (s.update_counter % 16) := by
  rw [update_files_commit counter_mod has_meta s hpp hM] at h
  simp only [List.mem_append, List.mem_cons, List.mem_singleton, List.not_mem_nil,
    File_Op.rename_referred_file.injEq, or_false] at h
  rcases h with ((h | h) | h) | h
  · rcases h with h | h | h
    · exact ⟨h.2.1, h.2.2⟩
    · exact ⟨h.2.1, h.2.2⟩
    · exact ⟨h.2.1, h.2.2⟩
  · split at h
    · simp only [List.mem_singleton, File_Op.rename_referred_file.injEq] at h
      exact ⟨h.2.1, h.2.2⟩
    · simp at h
  · split at h <;> simp at h
  · split at h <;> simp at h

theorem update_files_commit_merge (counter_mod : Nat) (has_meta : Bool) (s : Updater_State)
    (hpp : s.partial_possible = true) (hM : s.update_counter + 1 < counter_mod)
    (froms : List String) (into : String)
    (h : File_Op.merge_files froms into ∈ (update_files counter_mod has_meta true s).1) :
    ((s.update_counter + 1) % 16 = 0 ∧ froms = froms_loop ".0a" 16
        ∧ into = suffix_plus ".1a" (((s.update_counter + 1) / 16 - 1) % 16))
      ∨ ((s.update_counter + 1) % 256 = 0 ∧ froms = froms_loop ".1a" 16 ∧ into = ".2") := by
  rw [update_files_commit counter_mod has_meta s hpp hM] at h
  simp only [List.mem_append, List.mem_cons, List.mem_singleton, List.not_mem_nil,
    or_false] at h
  rcases h with ((h | h) | h) | h
  · simp at h
  · split at h <;> simp at h
  · split at h
    · rename_i h16
      simp only [List.mem_singleton, File_Op.merge_files.injEq] at h
      exact Or.inl ⟨h16, h.1, h.2⟩
    · simp at h
  · split at h
    · rename_i h256
      simp only [List.mem_singleton, File_Op.merge_files.injEq] at h
      exact Or.inr ⟨h256, h.1, h.2⟩
    · simp at h

/-- Claim C26. Both constructors set `update_counter` to 0. A partial commit that does not
overflow the counter increments `update_counter` by one; it merges the 16 sinks of level 0
(".0a" to ".0p") into a sink of level 1 if and only if the incremented counter is a multiple
of 16, and the 16 sinks of level 1 (".1a" to ".1p") into ".2" if and only if it is a multiple
of 256. A flush that is not partial with `update_counter = n > 0` sets `update_counter` to 0 and
issues exactly these merges, in this order: the `n mod 16` sinks of level 0 into the sink with the
empty suffix; for `n ≥ 256` the sink ".2" into ".1"; for `n ≥ 16` the `(n / 16) mod 16` sinks of
level 1 into ".1" and then ".1" into the sink with the empty suffix. So every sink that a partial
commit has written since the last merge of level 0, and every sink of level 1 that a merge of
level 0 has written since the last merge into ".2", is an input of a merge of the flush that ends
in the sink with the empty suffix. No merge has more than 16 inputs. -/
theorem partial_counter_machine (counter_mod : Nat) (has_meta : Bool) (s : Updater_State)
    (hpp : s.partial_possible = true) (hM : s.update_counter + 1 < counter_mod) :
    Way_Updater_external.update_counter = 0
    ∧ (∀ file_exists, (Way_Updater_db_dir file_exists).update_counter = 0)
    ∧ (update_files counter_mod has_meta true s).2.update_counter = s.update_counter + 1
    ∧ ((∃ into, File_Op.merge_files (froms_loop ".0a" 16) into
          ∈ (update_files counter_mod has_meta true s).1)
        ↔ (s.update_counter + 1) % 16 = 0)
    ∧ (File_Op.merge_files (froms_loop ".1a" 16) ".2"
          ∈ (update_files counter_mod has_meta true s).1
        ↔ (s.update_counter + 1) % 256 = 0)
    ∧ (∀ m, m ≤ 16 →
        froms_loop ".0a" m
            = (List.range m).map (fun i => String.push ".0" (Char.ofNat (97 + i)))
          ∧ froms_loop ".1a" m
            = (List.range m).map (fun i => String.push ".1" (Char.ofNat (97 + i))))
    ∧ ((s.update_counter + 1) % 16 = 0 →
        File_Op.merge_files (froms_loop ".0a" 16)
            (String.push ".1" (Char.ofNat (97 + ((s.update_counter + 1) / 16 - 1) % 16)))
          ∈ (update_files counter_mod has_meta true s).1)
    ∧ (0 < s.update_counter →
        (update_files counter_mod has_meta false s).2.update_counter = 0
          ∧ (update_files counter_mod has_meta false s).1
              = [File_Op.merge_files (froms_loop ".0a" (s.update_counter % 16)) ""]
                ++ (if 256 ≤ s.update_counter then [File_Op.merge_files [ ".2" ] ".1"]
                    else [])
                ++ (if 16 ≤ s.update_counter then
                      [File_Op.merge_files (froms_loop ".1a" (s.update_counter / 16 % 16))
                         ".1",
                       File_Op.merge_files [ ".1" ] ""]
                    else [])
          ∧ (∀ k, s.update_counter - s.update_counter % 16 ≤ k → k < s.update_counter →
              ∀ f src tgt, File_Op.rename_referred_file f src tgt
                  ∈ (update_files counter_mod has_meta true
                      (Updater_State.mk k s.partial_possible)).1 →
                ∃ froms, File_Op.merge_files froms ""
                    ∈ (update_files counter_mod has_meta false s).1 ∧ tgt ∈ froms)
          ∧ (∀ k, s.update_counter - s.update_counter % 256 ≤ k → k < s.update_counter →
              ∀ froms into, File_Op.merge_files froms into
                  ∈ (update_files counter_mod has_meta true
                      (Updater_State.mk k s.partial_possible)).1 →
                ∃ froms2, File_Op.merge_files froms2 ".1"
                    ∈ (update_files counter_mod has_meta false s).1 ∧ into ∈ froms2
                  ∧ File_Op.merge_files [ ".1" ] ""
                    ∈ (update_files counter_mod has_meta false s).1))
    ∧ ∀ b froms into, File_Op.merge_files froms into
        ∈ (update_files counter_mod has_meta b s).1 → froms.length ≤ 16 := by
  have hcommit := update_files_commit counter_mod has_meta s hpp hM
  refine ⟨rfl, fun _ => rfl, by rw [hcommit], ?_, ?_, ?_, ?_, ?_, ?_⟩
  · rw [hcommit]
    constructor
    · rintro ⟨into, h⟩
      simp only [List.mem_append, List.mem_cons, List.mem_singleton, List.not_mem_nil,
        or_false] at h
      rcases h with ((h | h) | h) | h
      · simp at h
      · split at h <;> simp at h
      · split at h
        · assumption
        · simp at h
      · split at h
        · simp only [List.mem_singleton, File_Op.merge_files.injEq] at h
          exact absurd h.1 froms_loop_levels
        · simp at h
    · intro h
      exact ⟨suffix_plus ".1a" (((s.update_counter + 1) / 16 - 1) % 16), by simp [h]⟩
  · rw [hcommit]
    constructor
    · intro h
      simp only [List.mem_append, List.mem_cons, List.mem_singleton, List.not_mem_nil,
        or_false] at h
      rcases h with ((h | h) | h) | h
      · simp at h
      · split at h <;> simp at h
      · split at h
        · simp only [List.mem_singleton, File_Op.merge_files.injEq] at h
          exact absurd h.1.symm froms_loop_levels
        · simp at h
      · split at h
        · assumption
        · simp at h
    · intro h
      simp [h]
  · intro m hm
    exact ⟨froms_loop_level_zero m hm, froms_loop_level_one m hm⟩
  · intro h16
    rw [hcommit, ← suffix_plus_level_one _ (Nat.mod_lt _ (by decide))]
    simp [h16]
  · intro hpos
    have hflush := update_files_flush counter_mod has_meta s hpp hpos
    refine ⟨by rw [hflush], by rw [hflush], ?_, ?_⟩
    · intro k hk1 hk2 f src tgt h
      have hr := update_files_commit_rename counter_mod has_meta
        (Updater_State.mk k s.partial_possible) hpp (by simp only; omega) f src tgt h
      refine ⟨froms_loop ".0a" (s.update_counter % 16), by rw [hflush]; simp, ?_⟩
      rw [hr.2]
      apply mem_froms_loop
      simp only
      omega
    · intro k hk1 hk2 froms into h
      have hm := update_files_commit_merge counter_mod has_meta
        (Updater_State.mk k s.partial_possible) hpp (by simp only; omega) froms into h
      simp only at hm
      rcases hm with ⟨h16, _, hinto⟩ | ⟨h256, _, _⟩
      · have hge : 16 ≤ s.update_counter := by omega
        refine ⟨froms_loop ".1a" (s.update_counter / 16 % 16), ?_, ?_, ?_⟩
        · rw [hflush]
          simp [hge]
        · rw [hinto]
          apply mem_froms_loop
          omega
        · rw [hflush]
          simp [hge]
      · omega
  · intro b froms into h
    cases b with
    | true =>
      rcases update_files_commit_merge counter_mod has_meta s hpp hM froms into h with
        ⟨_, hf, _⟩ | ⟨_, hf, _⟩
      · rw [hf, froms_loop_length]
      · rw [hf, froms_loop_length]
    | false =>
      by_cases hpos : s.update_counter > 0
      · rw [update_files_flush counter_mod has_meta s hpp hpos] at h
        simp only [List.mem_append, List.mem_cons, List.mem_singleton, List.not_mem_nil,
          or_false] at h
        rcases h with (h | h) | h
        · simp only [File_Op.merge_files.injEq] at h
          rw [h.1, froms_loop_length]
          have := Nat.mod_lt s.update_counter (show 0 < 16 by decide)
          omega
        · split at h
          · simp only [List.mem_singleton, File_Op.merge_files.injEq] at h
            rw [h.1]
            simp
          · simp at h
        · split at h
          · simp only [List.mem_cons, List.mem_singleton, File_Op.merge_files.injEq,
              List.not_mem_nil, or_false] at h
            rcases h with h | h
            · rw [h.1, froms_loop_length]
              have := Nat.mod_lt (s.update_counter / 16) (show 0 < 16 by decide)
              omega
            · rw [h.1]
              simp
          · simp at h
      · unfold update_files at h
        rw [if_neg (fun hc => hpos hc.2.2), if_neg (by simp)] at h
        simp at h

/-- Witness for claim C26: the state with `update_counter = 255` of a counter with 32 bits. The
partial commit makes both merges due; the flush merges the 15 sinks ".0a" to ".0o" into the sink
with the empty suffix, the 15 sinks ".1a" to ".1o" into ".1", and ".1" into the sink with the
empty suffix. -/
theorem partial_counter_machine_witness :
    (Updater_State.mk 255 true).partial_possible = true
    ∧ (Updater_State.mk 255 true).update_counter + 1 < 2 ^ 32
    ∧ Way_Updater_external.update_counter = 0
    ∧ (∀ file_exists, (Way_Updater_db_dir file_exists).update_counter = 0)
    ∧ (update_files (2 ^ 32) true true (Updater_State.mk 255 true)).2.update_counter
        = (Updater_State.mk 255 true).update_counter + 1
    ∧ ((∃ into, File_Op.merge_files (froms_loop ".0a" 16) into
          ∈ (update_files (2 ^ 32) true true (Updater_State.mk 255 true)).1)
        ↔ ((Updater_State.mk 255 true).update_counter + 1) % 16 = 0)
    ∧ (File_Op.merge_files (froms_loop ".1a" 16) ".2"
          ∈ (update_files (2 ^ 32) true true (Updater_State.mk 255 true)).1
        ↔ ((Updater_State.mk 255 true).update_counter + 1) % 256 = 0)
    ∧ (∀ m, m ≤ 16 →
        froms_loop ".0a" m
            = (List.range m).map (fun i => String.push ".0" (Char.ofNat (97 + i)))
          ∧ froms_loop ".1a" m
            = (List.range m).map (fun i => String.push ".1" (Char.ofNat (97 + i))))
    ∧ (((Updater_State.mk 255 true).update_counter + 1) % 16 = 0 →
        File_Op.merge_files (froms_loop ".0a" 16)
            (String.push ".1"
              (Char.ofNat (97 + (((Updater_State.mk 255 true).update_counter + 1) / 16 - 1) % 16)))
          ∈ (update_files (2 ^ 32) true true (Updater_State.mk 255 true)).1)
    ∧ (0 < (Updater_State.mk 255 true).update_counter →
        (update_files (2 ^ 32) true false (Updater_State.mk 255 true)).2.update_counter = 0
          ∧ (update_files (2 ^ 32) true false (Updater_State.mk 255 true)).1
              = [File_Op.merge_files
                  (froms_loop ".0a" ((Updater_State.mk 255 true).update_counter % 16)) ""]
                ++ (if 256 ≤ (Updater_State.mk 255 true).update_counter then
                      [File_Op.merge_files [ ".2" ] ".1"]
                    else [])
                ++ (if 16 ≤ (Updater_State.mk 255 true).update_counter then
                      [File_Op.merge_files
                         (froms_loop ".1a" ((Updater_State.mk 255 true).update_counter / 16 % 16))
                         ".1",
                       File_Op.merge_files [ ".1" ] ""]
                    else [])
          ∧ (∀ k, (Updater_State.mk 255 true).update_counter
                  - (Updater_State.mk 255 true).update_counter % 16 ≤ k →
              k < (Updater_State.mk 255 true).update_counter →
              ∀ f src tgt, File_Op.rename_referred_file f src tgt
                  ∈ (update_files (2 ^ 32) true true
                      (Updater_State.mk k (Updater_State.mk 255 true).partial_possible)).1 →
                ∃ froms, File_Op.merge_files froms ""
                    ∈ (update_files (2 ^ 32) true false (Updater_State.mk 255 true)).1
                  ∧ tgt ∈ froms)
          ∧ (∀ k, (Updater_State.mk 255 true).update_counter
                  - (Updater_State.mk 255 true).update_counter % 256 ≤ k →
              k < (Updater_State.mk 255 true).update_counter →
              ∀ froms into, File_Op.merge_files froms into
                  ∈ (update_files (2 ^ 32) true true
                      (Updater_State.mk k (Updater_State.mk 255 true).partial_possible)).1 →
                ∃ froms2, File_Op.merge_files froms2 ".1"
                    ∈ (update_files (2 ^ 32) true false (Updater_State.mk 255 true)).1
                  ∧ into ∈ froms2
                  ∧ File_Op.merge_files [ ".1" ] ""
                    ∈ (update_files (2 ^ 32) true false (Updater_State.mk 255 true)).1))
    ∧ ∀ b froms into, File_Op.merge_files froms into
        ∈ (update_files (2 ^ 32) true b (Updater_State.mk 255 true)).1 → froms.length ≤ 16 :=
  ⟨rfl, by decide,
   partial_counter_machine (2 ^ 32) true (Updater_State.mk 255 true) rfl (by decide)⟩

/-! ## Claim C32: the bucket reported for prior bucket 0 -/

/-- Claim C32. For `attic_idx = 0` and `old_timestamp < new_timestamp`, with `new_timestamp` in
the range of `uint64`, the bucket that `add_intermediate_versions` reports in `last_idx`, which is
the bucket of the oldest state of the window, is the bucket that `compute_idx_and_geometry`
computes for the skeleton at `old_timestamp + 1`, whatever the resolver holds; no snapshot of a
node of the way is stamped after `old_timestamp` and before the oldest timestamp of the walk. -/
theorem last_idx_at_window_start (E : Env) (sk ref : Way_Skeleton) (old new : Nat)
    (nb : Nodes_By_Id) (alv : Bool) (st : Attic_Stores) (hlt : old < new) (hnew : new ≤ NOW) :
    (add_intermediate_versions E sk ref old new nb alv 0 st).2.1
        = (compute_idx_and_geometry E sk (old + 1) nb).1
    ∧ (oldest_state E sk old new nb alv 0).1 = (compute_idx_and_geometry E sk (old + 1) nb).1
    ∧ ∀ t, (walk_timestamps sk.nds old new nb alv).head? = some t →
        ∀ nd ∈ sk.nds, ∀ v ∈ (List.lookup nd nb).getD [], old < v.timestamp →
          t ≤ v.timestamp := by
  have h1 := last_idx_oldest E sk ref old new nb alv st hlt hnew
  refine ⟨h1, ?_, ?_⟩
  · have h2 := reverse_walk_final_step E sk nb 0 (walk_timestamps sk.nds old new nb alv).reverse
      (anchor E sk old new nb 0).1 (anchor E sk old new nb 0).2
      (if upper_endpoint_due sk.nds old new nb alv then
        store_version E sk.id (anchor E sk old new nb 0).1 (anchor E sk old new nb 0).2
          (reference_state E ref new nb).1 (reference_state E ref new nb).2 new st
      else st)
    have h3 : (oldest_state E sk old new nb alv 0).1
        = (add_intermediate_versions E sk ref old new nb alv 0 st).2.1 := by
      unfold oldest_state
      rw [← h2]
      rfl
    rw [h3, h1]
  · intro t ht nd hnd v hv hold
    have htm : t ∈ walk_timestamps sk.nds old new nb alv := List.mem_of_mem_head? ht
    have hw := walk_timestamps_window sk.nds old new nb alv t htm
    by_contra hc
    have hm : v.timestamp ∈ walk_timestamps sk.nds old new nb alv := by
      apply mem_walk_timestamps_of sk.nds old new nb alv hnew
      · exact ⟨nd, hnd, v, hv, rfl, hold, by omega⟩
      · omega
      · omega
    have hs := walk_timestamps_strict sk.nds old new nb alv
    obtain ⟨tl, htl⟩ : ∃ tl, walk_timestamps sk.nds old new nb alv = t :: tl := by
      cases hwt : walk_timestamps sk.nds old new nb alv with
      | nil => rw [hwt] at ht; simp at ht
      | cons t0 tl =>
        rw [hwt] at ht
        simp at ht
        exact ⟨tl, by rw [ht]⟩
    rw [htl] at hm hs
    rcases List.mem_cons.mp hm with h | h
    · omega
    · have := (List.pairwise_cons.mp hs).1 _ h
      omega

/-- Witness for claim C32: way 1 with the nodes 10 and 11 of `demo_nodes` in the window from 100
to 200. -/
theorem last_idx_at_window_start_witness :
    100 < 200 ∧ 200 ≤ NOW
    ∧ (add_intermediate_versions demo_env (Way_Skeleton.mk 1 [10, 11] [])
        (Way_Skeleton.mk 1 [10] []) 100 200 demo_nodes true 0 Attic_Stores.empty).2.1
        = (compute_idx_and_geometry demo_env (Way_Skeleton.mk 1 [10, 11] []) (100 + 1)
            demo_nodes).1
    ∧ (oldest_state demo_env (Way_Skeleton.mk 1 [10, 11] []) 100 200 demo_nodes true 0).1
        = (compute_idx_and_geometry demo_env (Way_Skeleton.mk 1 [10, 11] []) (100 + 1)
            demo_nodes).1
    ∧ ∀ t, (walk_timestamps (Way_Skeleton.mk 1 [10, 11] []).nds 100 200 demo_nodes true).head?
          = some t →
        ∀ nd ∈ (Way_Skeleton.mk 1 [10, 11] []).nds,
          ∀ v ∈ (List.lookup nd demo_nodes).getD [], 100 < v.timestamp → t ≤ v.timestamp :=
  ⟨by decide, by decide,
   last_idx_at_window_start demo_env (Way_Skeleton.mk 1 [10, 11] []) (Way_Skeleton.mk 1 [10] [])
     100 200 demo_nodes true Attic_Stores.empty (by decide) (by decide)⟩

/-! ## Claim C33: open-ended windows -/

/-- Claim C33. With `new_timestamp = NOW` and `add_last_version = false` the upper endpoint
entry is never due: started with empty stores, the call leaves no attic delta and no undelete
entry stamped `NOW`, and its result does not depend on the reference, the only thing that is
evaluated at `new_timestamp + 1`. -/
theorem open_window_no_upper_endpoint (E : Env) (sk ref : Way_Skeleton) (old : Nat)
    (nb : Nodes_By_Id) (a : Nat) (st : Attic_Stores) :
    ¬ upper_endpoint_due sk.nds old NOW nb false
    ∧ (∀ p ∈ (add_intermediate_versions E sk ref old NOW nb false a
          Attic_Stores.empty).2.2.full_attic, p.2.timestamp < NOW)
    ∧ (∀ x ∈ (add_intermediate_versions E sk ref old NOW nb false a
          Attic_Stores.empty).2.2.new_undeleted, x.2.timestamp < NOW)
    ∧ ∀ ref2, add_intermediate_versions E sk ref2 old NOW nb false a st
        = add_intermediate_versions E sk ref old NOW nb false a st := by
  have hdue : ¬ upper_endpoint_due sk.nds old NOW nb false := by
    rw [upper_endpoint_due_iff, mem_pop_now sk.nds old NOW nb (Nat.le_refl _)]
    simp
  have hts : ∀ s ∈ all_steps E sk ref old NOW nb false a, s.timestamp < NOW := by
    intro s hs
    have hm := List.mem_map_of_mem (fun s => s.timestamp) hs
    rw [mem_all_steps_timestamps E sk ref old NOW nb false a (Nat.le_refl _)] at hm
    rcases hm with h | h
    · have hle := h.1
      obtain ⟨_, _, _, _, _, _, h3⟩ := hle
      have hne := h.2
      have hlt : s.timestamp ≤ NOW := h3
      have hne2 : s.timestamp ≠ NOW := hne
      omega
    · simp at h
  refine ⟨hdue, ?_, ?_, ?_⟩
  · intro p hp
    rw [show Attic_Stores.empty = Attic_Stores.mk [] [] [] from rfl, stores_from_empty,
      List.mem_map] at hp
    obtain ⟨s, hs, rfl⟩ := hp
    exact hts s hs
  · intro x hx
    rw [add_intermediate_versions_stores, mem_steps_new_undeleted] at hx
    rcases hx with h | ⟨s, hs, _, _, h⟩
    · simp [Attic_Stores.empty] at h
    · rw [h]
      exact hts s hs
  · intro ref2
    unfold add_intermediate_versions
    simp only [if_neg hdue]

/-! ## Claim C31: recomputing at every timestamp -/

theorem reverse_walk_recomputing_eq (E : Env) (sk : Way_Skeleton) (nb : Nodes_By_Id) (a : Nat)
    (ts : List Nat) (li : Nat) (ls : Way_Skeleton) (st : Attic_Stores)
    (h : a ≠ 0 → ∀ t, ts.getLast? = some t → compute_idx_and_geometry E sk t nb = (a, sk)) :
    reverse_walk_recomputing E sk nb ts li ls st = reverse_walk E sk nb a ts li ls st := by
  induction ts generalizing li ls st with
  | nil => rfl
  | cons t rest ih =>
    simp only [reverse_walk_recomputing, reverse_walk]
    have hcur : (if a = 0 ∨ rest ≠ [] then compute_idx_and_geometry E sk t nb else (a, sk))
        = compute_idx_and_geometry E sk t nb := by
      by_cases hc : a = 0 ∨ rest ≠ []
      · rw [if_pos hc]
      · rw [if_neg hc]
        have ha : a ≠ 0 := fun h0 => hc (Or.inl h0)
        have hr : rest = [] := by
          by_contra hr
          exact hc (Or.inr hr)
        rw [h ha t (by rw [hr]; rfl)]
    rw [hcur]
    apply ih
    intro ha t2 ht2
    apply h ha t2
    cases rest with
    | nil => simp at ht2
    | cons t3 rest3 =>
      rw [List.getLast?_cons_cons]
      exact ht2

/-- Claim C31, counterexample. Way 1 is passed in with prior bucket 5 and without geometry, its
node 10 lies in bucket 7, and the window from 100 to 200 holds no snapshot. The function keeps
bucket 5 and the skeleton passed in; the variant computes bucket 7 and the geometry. The attic
delta, the undelete entries, the bucket list, `last_idx` and the returned skeleton all differ. -/
theorem recomputing_counterexample :
    add_intermediate_versions demo_env (Way_Skeleton.mk 1 [10] [])
        (Way_Skeleton.mk 1 [10, 11] []) 100 200 demo_nodes_fixed true 5 Attic_Stores.empty
      = (Way_Skeleton.mk 1 [10] [], 5,
          Attic_Stores.mk [(5, Attic.mk (Way_Delta.mk 1 true [] [(0, 10)] [] []) 200)]
            [(7, Attic.mk 1 200)] [(1, 5)])
    ∧ add_intermediate_versions_recomputing demo_env (Way_Skeleton.mk 1 [10] [])
        (Way_Skeleton.mk 1 [10, 11] []) 100 200 demo_nodes_fixed true 5 Attic_Stores.empty
      = (Way_Skeleton.empty, 7,
          Attic_Stores.mk
            [(7, Attic.mk (Way_Delta.mk 1 true [] [(0, 10)] [] [(0, Quad_Coord.mk 7 0)]) 200)]
            [] [(1, 7)]) := by
  decide

/-- Claim C31, amended. The variant that computes bucket and skeleton at every timestamp yields
the same returned skeleton, `last_idx` and stores as `add_intermediate_versions` whenever
`attic_idx` is 0, or the computations that the function skips would return the prior bucket and
the skeleton passed in: the one for the anchor when no relevant timestamp exists, and the one at
the oldest timestamp of the walk. -/
theorem recomputing_agrees (E : Env) (sk ref : Way_Skeleton) (old new : Nat)
    (nb : Nodes_By_Id) (alv : Bool) (a : Nat) (st : Attic_Stores)
    (hanchor : a ≠ 0 → relevant_timestamps sk.nds old new nb = [] →
      compute_idx_and_geometry E sk new nb = (a, sk))
    (hwalk : a ≠ 0 → ∀ t, (walk_timestamps sk.nds old new nb alv).head? = some t →
      compute_idx_and_geometry E sk t nb = (a, sk)) :
    add_intermediate_versions_recomputing E sk ref old new nb alv a st
      = add_intermediate_versions E sk ref old new nb alv a st := by
  have hanc : anchor E sk old new nb a = compute_idx_and_geometry E sk new nb := by
    unfold anchor
    by_cases hc : a = 0 ∨ relevant_timestamps sk.nds old new nb ≠ []
    · rw [if_pos hc]
    · rw [if_neg hc]
      have ha : a ≠ 0 := fun h0 => hc (Or.inl h0)
      have hr : relevant_timestamps sk.nds old new nb = [] := by
        by_contra hr
        exact hc (Or.inr hr)
      rw [hanchor ha hr]
  unfold add_intermediate_versions_recomputing add_intermediate_versions
  simp only [hanc]
  rw [reverse_walk_recomputing_eq E sk nb a]
  intro ha t ht
  rw [List.getLast?_reverse] at ht
  exact hwalk ha t ht

theorem demo_way_at_150_walk (t : Nat)
    (h : (walk_timestamps demo_way_at_150.nds 100 200 demo_nodes true).head? = some t) :
    compute_idx_and_geometry demo_env demo_way_at_150 t demo_nodes = (3, demo_way_at_150) := by
  have hw : walk_timestamps demo_way_at_150.nds 100 200 demo_nodes true = [150] := by decide
  rw [hw] at h
  simp only [List.head?_cons, Option.some.injEq] at h
  rw [← h]
  decide

/-- Witness for claim C31 (amended): way 1 is passed in with prior bucket 3 and the geometry it
has at time 150, the oldest timestamp of the walk in the window from 100 to 200. -/
theorem recomputing_agrees_witness :
    ((3 : Nat) ≠ 0 → relevant_timestamps demo_way_at_150.nds 100 200 demo_nodes = [] →
      compute_idx_and_geometry demo_env demo_way_at_150 200 demo_nodes = (3, demo_way_at_150))
    ∧ ((3 : Nat) ≠ 0 → ∀ t,
        (walk_timestamps demo_way_at_150.nds 100 200 demo_nodes true).head? = some t →
        compute_idx_and_geometry demo_env demo_way_at_150 t demo_nodes = (3, demo_way_at_150))
    ∧ (walk_timestamps demo_way_at_150.nds 100 200 demo_nodes true).head? = some 150
    ∧ add_intermediate_versions_recomputing demo_env demo_way_at_150
        (Way_Skeleton.mk 1 [10] []) 100 200 demo_nodes true 3 Attic_Stores.empty
      = add_intermediate_versions demo_env demo_way_at_150 (Way_Skeleton.mk 1 [10] []) 100 200
          demo_nodes true 3 Attic_Stores.empty :=
  ⟨fun _ h => absurd h (by decide), fun _ => demo_way_at_150_walk, by decide,
   recomputing_agrees demo_env demo_way_at_150 (Way_Skeleton.mk 1 [10] []) 100 200 demo_nodes
     true 3 Attic_Stores.empty (fun _ h => absurd h (by decide))
     (fun _ => demo_way_at_150_walk)⟩

/-! ## Claim C34: ids listed twice -/

/-- Claim C34, failing input. Node 10 of way 1 has a snapshot stamped 200, the value of
`new_timestamp`, and `add_last_version` holds: the id 1 is appended twice under the timestamp
200. The same happens in `compute_changelog` for a way that is edited at the time at which one of
its nodes moved. -/
theorem changelog_duplicate :
    add_intermediate_changelog_entries (Way_Skeleton.mk 1 [10] []) 0 200
        [(10, [Node_Version.mk 5 10 0 200, Node_Version.mk 5 10 1 NOW])] true 5 5 []
      = [(200, 1), (200, 1)]
    ∧ compute_changelog demo_env
        (Attic_Context.mk [(1, 5)] [] [(5, Way_Skeleton.mk 1 [10] [])] []
          [(10, [Node_Version.mk 5 10 0 200, Node_Version.mk 5 10 1 NOW])])
        [Entry.mk 5 (Way_Skeleton.mk 1 [10, 11] []) (Meta.mk 200)] []
      = [(200, 1), (200, 1)] := by
  decide

/-! ## Claim C35: geometry and node list are aligned -/

theorem located_geometry_foldl (m : Node_Idx_By_Id) (nds : List Nat) (acc : List Quad_Coord) :
    nds.foldl (fun geometry n =>
      match List.lookup n m with
      | some c => geometry ++ [c]
      | none => geometry ++ [Quad_Coord.mk 0 0]) acc = acc ++ aligned_geometry m nds := by
  induction nds generalizing acc with
  | nil => simp [aligned_geometry]
  | cons n nds ih =>
    rw [List.foldl_cons, ih]
    cases h : List.lookup n m with
    | none => simp [aligned_geometry, h]
    | some c => simp [aligned_geometry, h]

theorem located_geometry_eq (m : Node_Idx_By_Id) (nds : List Nat) :
    located_geometry m nds = aligned_geometry m nds := by
  unfold located_geometry
  rw [located_geometry_foldl]
  simp

theorem aligned_or_empty (c : Prop) [Decidable c] (m : Node_Idx_By_Id) (nds : List Nat)
    (g : List Quad_Coord) (h : g = if c then aligned_geometry m nds else []) :
    g = [] ∨ g.length = nds.length := by
  by_cases hc : c
  · rw [if_pos hc] at h
    right
    rw [h]
    simp [aligned_geometry]
  · rw [if_neg hc] at h
    exact Or.inl h

theorem implicit_fold_geometry (E : Env) (m : Node_Idx_By_Id)
    (ex : List (Nat × Way_Skeleton)) (acc : Current_Update) (x : Nat × Way_Skeleton)
    (hx : x ∈ (ex.foldl (fun acc p =>
      Current_Update.mk acc.attic_skeletons
        (map_set_insert same_way acc.new_skeletons (E.calc_index (located_idxs m p.2.nds))
          (implicit_new_skeleton E m p.2))
        (if ¬ E.calc_index (located_idxs m p.2.nds) = p.1 then acc.moved_ways ++ [(p.2.id, p.1)]
         else acc.moved_ways)) acc).new_skeletons) :
    x ∈ acc.new_skeletons
      ∨ x.2.geometry
          = (if E.indicates_geometry x.1 then aligned_geometry m x.2.nds else []) := by
  induction ex generalizing acc with
  | nil => exact Or.inl hx
  | cons p ex ih =>
    rw [List.foldl_cons] at hx
    rcases ih _ hx with h | h
    · simp only at h
      rcases mem_map_set_insert _ _ _ _ _ h with h2 | h2
      · exact Or.inl h2
      · right
        rw [h2]
        simp only [implicit_new_skeleton, located_geometry_eq]
    · exact Or.inr h

theorem compute_geometry_last (E : Env) (m : Node_Idx_By_Id) (it : Entry) (rest : List Entry)
    (hlast : ∀ nx, rest.head? = some nx → nx.elem.id ≠ it.elem.id) (hidx : it.idx ≠ 0) :
    (compute_geometry E m (it :: rest)).head? = some (compute_geometry_entry E m it) := by
  unfold compute_geometry
  cases h : rest.head? with
  | none => simp [hidx]
  | some nx => simp [hlast nx h, hidx]

/-- Claim C35. An entry of the batch whose geometry `compute_geometry` sets (the last version
of its way, with a bucket other than 0) and every skeleton that `new_implicit_skeletons` inserts
into `new_skeletons` has, when its bucket indicates geometry, the geometry aligned with its node
list (one coordinate per node id: the coordinate of the map, or `(0, 0)` for a node that is not in
the map), and the empty geometry otherwise. So the geometry is empty or as long as the node list,
and `add_implicitly_known_nodes` stays within the bounds of `nds` for such ways. -/
theorem geometry_alignment (E : Env) (m m2 : Node_Idx_By_Id) (pre : List Entry) (it : Entry)
    (rest : List Entry) (ex : List (Nat × Way_Skeleton)) (r : Bool) (u : Current_Update)
    (hlast : ∀ nx, rest.head? = some nx → nx.elem.id ≠ it.elem.id) (hidx : it.idx ≠ 0) :
    (∃ e, (compute_geometry E m (pre ++ it :: rest))[pre.length]? = some e
        ∧ e.elem.nds = it.elem.nds
        ∧ e.elem.geometry
            = (if E.indicates_geometry e.idx then aligned_geometry m e.elem.nds else [])
        ∧ (e.elem.geometry = [] ∨ e.elem.geometry.length = e.elem.nds.length)
        ∧ ∃ m3, add_implicitly_known_nodes m2 [(e.idx, e.elem)] = some m3)
    ∧ (∀ x ∈ (new_implicit_skeletons E m ex r u).new_skeletons,
        x ∈ u.new_skeletons
          ∨ (x.2.geometry
                = (if E.indicates_geometry x.1 then aligned_geometry m x.2.nds else [])
              ∧ (x.2.geometry = [] ∨ x.2.geometry.length = x.2.nds.length)))
    ∧ ∀ ways : List (Nat × Way_Skeleton),
        (∀ x ∈ ways, x ∈ (new_implicit_skeletons E m ex r
          (Current_Update.mk u.attic_skeletons [] u.moved_ways)).new_skeletons) →
        ∃ m3, add_implicitly_known_nodes m2 ways = some m3 := by
  have himpl : ∀ v : Current_Update, ∀ x ∈ (new_implicit_skeletons E m ex r v).new_skeletons,
      x ∈ v.new_skeletons
        ∨ x.2.geometry
            = (if E.indicates_geometry x.1 then aligned_geometry m x.2.nds else []) := by
    intro v x hx
    unfold new_implicit_skeletons at hx
    exact implicit_fold_geometry E m ex
      (Current_Update.mk (ex.foldl (fun acc p => map_set_insert same_way acc p.1 p.2)
        v.attic_skeletons) v.new_skeletons v.moved_ways) x hx
  refine ⟨?_, ?_, ?_⟩
  · have hgeo : (compute_geometry_entry E m it).elem.geometry
        = (if E.indicates_geometry (compute_geometry_entry E m it).idx then
            aligned_geometry m (compute_geometry_entry E m it).elem.nds
          else []) := by
      simp only [compute_geometry_entry, located_geometry_eq]
    have hor := aligned_or_empty _ m _ _ hgeo
    refine ⟨compute_geometry_entry E m it, ?_, rfl, hgeo, hor, ?_⟩
    · rw [compute_geometry_getElem, compute_geometry_last E m it rest hlast hidx]
    · obtain ⟨m3, h3, _⟩ := add_implicitly_known_nodes_spec m2
        [((compute_geometry_entry E m it).idx, (compute_geometry_entry E m it).elem)]
        (by
          intro p hp
          simp only [List.mem_singleton] at hp
          rw [hp]
          rcases hor with h | h
          · simp only
            rw [h]
            simp
          · exact Nat.le_of_eq h)
      exact ⟨m3, h3⟩
  · intro x hx
    rcases himpl u x hx with h | h
    · exact Or.inl h
    · exact Or.inr ⟨h, aligned_or_empty _ m _ _ h⟩
  · intro ways hways
    obtain ⟨m3, h3, _⟩ := add_implicitly_known_nodes_spec m2 ways
      (by
        intro p hp
        rcases himpl _ p (hways p hp) with h | h
        · simp at h
        · rcases aligned_or_empty _ m _ _ h with h2 | h2
          · rw [h2]
            simp
          · exact Nat.le_of_eq h2)
    exact ⟨m3, h3⟩

/-- Witness for claim C35: with node 10 at `(7, 3)` and node 11 unknown, the entry of way 1 with
the nodes 10 and 11 gets a geometry of two coordinates. -/
theorem geometry_alignment_witness :
    (∀ nx, ([] : List Entry).head? = some nx →
        nx.elem.id ≠ (Entry.mk 255 (Way_Skeleton.mk 1 [10, 11] []) (Meta.mk 100)).elem.id)
    ∧ (Entry.mk 255 (Way_Skeleton.mk 1 [10, 11] []) (Meta.mk 100)).idx ≠ 0
    ∧ ∃ e, (compute_geometry demo_env [(10, Quad_Coord.mk 7 3)]
          ([] ++ Entry.mk 255 (Way_Skeleton.mk 1 [10, 11] []) (Meta.mk 100) :: []))[
            ([] : List Entry).length]? = some e
        ∧ e.elem.nds = (Entry.mk 255 (Way_Skeleton.mk 1 [10, 11] []) (Meta.mk 100)).elem.nds
        ∧ e.elem.geometry
            = (if demo_env.indicates_geometry e.idx then
                aligned_geometry [(10, Quad_Coord.mk 7 3)] e.elem.nds
              else [])
        ∧ (e.elem.geometry = [] ∨ e.elem.geometry.length = e.elem.nds.length)
        ∧ ∃ m3, add_implicitly_known_nodes [] [(e.idx, e.elem)] = some m3 :=
  ⟨by simp, by decide,
   (geometry_alignment demo_env [(10, Quad_Coord.mk 7 3)] [] []
      (Entry.mk 255 (Way_Skeleton.mk 1 [10, 11] []) (Meta.mk 100)) [] [] false
      (Current_Update.mk [] [] []) (by simp) (by decide)).1⟩
end WayUpdater
